import Mathlib

/-! ProductionAPIGoSDK: the batch download pipeline of package `file`.

A shallow embedding of `src/file/file.go` (`FileList.GetPresigned`,
`presignedWorker`, `File.GetPresignedUrl`, `FileList.DownloadFiles`,
`downloadWorker`, `Resource.GetEndpoint`, `SetWorkerAmount`), of the client of
`src/production.go` (`APIClient.Get`, `MakeResponseError`, `StatusCheck`,
`CompileEndpointURL`) and of the resource methods of the packages
`printorderstatus` (`Store`, `GetLast`), `deliverynumber` (`Store`, `Update`,
`Delete`), `printdata` (`GetPrintDataPerManifestation`), `country` and
`printorder` (`GetEndpoint`), together with their properties.

Modelling conventions.

* A Go `error` is `Option GoError`: `none` is `nil`, `some e` a non-nil error
  with message `e.msg`.
* A `map[int]error` is an association list with unique keys (`ErrMap`);
  `assocSet` is the Go assignment `m[k] = v` and `assocGet` the lookup that
  also tells whether the key is present.
* `FileList` is `[]*File`.  The pointers are taken to be non-nil and pairwise
  different, so a batch is a list of `File` values and the in-place update of
  an item by `Get` is returned as the new value of that item.
* The collaborators the package only calls (the `ProductionAPIGetter`, the
  package variable `PlainGetter`, `os.Stat`, `os.Create`, `io.Copy`) are
  oracles: functions from the request to what the call answers, so every item
  has a fixed behaviour whatever the order of the calls.  A response always
  carries a body.
* The local file system is a map from file to content.  Which file a path
  names is decided by the operating system (`OS.FileAt`): two different path
  strings, such as `out/a.txt` and `out/./a.txt`, may name one file.
  `os.Create` truncates the file, `io.Copy` writes the body into it.
* The workers of a stage are started by the loop
  `for i := 0; i < workerAmount; i++ { go worker(...) }` (`startWorkers`); the
  goroutines started are recorded in the world.  A worker pool of `n`
  goroutines draining a buffered channel is modelled by its completion order:
  at every step one of the first `min n (pending)` pending jobs (those a worker
  can hold) completes, chosen by a schedule `sched : Nat → Nat`.  Every job is
  atomic.  When no worker was started the collector blocks forever on a
  non-empty batch (`Outcome.deadlocked`).
* A nil-pointer dereference in a worker takes the process down
  (`Outcome.panicked`).
* Every call leaves a record in a trace (`Event`), so that what a run did can
  be told apart from what it returned.  The record of a `Get` call is produced
  by the call itself (`ProductionAPIGetter.call`).
-/

namespace ProductionAPI

/-- A non-nil Go `error`, identified by its message. -/
structure GoError where
  msg : String
deriving DecidableEq, Repr

/-- The Go call `errors.New`. -/
def errorsNew (s : String) : GoError := ⟨s⟩

/-- How a call of the package ends: it returns a value, a goroutine panics, or
the caller blocks forever on the result channel. -/
inductive Outcome (α : Type) where
  | returned (a : α)
  | panicked
  | deadlocked
deriving DecidableEq, Repr

/-! ## Association lists with unique keys (Go maps, file system contents) -/

/-- The assignment `m[k] = v`: replaces the value of an existing key, adds the
key otherwise. -/
def assocSet {κ ν : Type} [DecidableEq κ] : List (κ × ν) → κ → ν → List (κ × ν)
  | [], k, v => [(k, v)]
  | (k', v') :: t, k, v => if k' = k then (k, v) :: t else (k', v') :: assocSet t k v

/-- Lookup: `none` when the key is absent. -/
def assocGet {κ ν : Type} [DecidableEq κ] : List (κ × ν) → κ → Option ν
  | [], _ => none
  | (k', v') :: t, k => if k' = k then some v' else assocGet t k

/-- The keys of the map. -/
def assocKeys {κ ν : Type} (m : List (κ × ν)) : List κ := m.map Prod.fst

/-- The type `map[int]error`. -/
abbrev ErrMap := List (Int × Option GoError)

/-- Byte strings (every element is a byte value). -/
abbrev Bytes := List Nat

/-- Contents of the local file system: file to content.  A file is identified
by the name the operating system resolves a path to (`OS.FileAt`), not by the
path string a call was given. -/
abbrev FS := List (String × Bytes)

namespace file

/-- The constant `AUX_PRESIGNED`. -/
def AUX_PRESIGNED : String := "presigned_url"

/-- Endpoint enumeration type (`type Endpoint int`). -/
abbrev Endpoint := Int

/-- The constant `INDEX Endpoint = 1 + iota`. -/
def INDEX : Endpoint := 1

/-- The constant `SHOW`. -/
def SHOW : Endpoint := 2

/-- Resource struct. -/
structure Resource where
  Endpoint : Int
  Id : Int
deriving DecidableEq, Repr

/-- Holds file information (`type File struct`).  `PublitTime` values are kept
as their text. -/
structure File where
  ID : Int
  Type_ : String := ""
  OriginalName : String := ""
  Size : Int := 0
  Extension : String := ""
  Mime : String := ""
  Checksum : String := ""
  URL : String := ""
  AutoGenerated : Int := 0
  CreatedAt : String := ""
  UpdatedAt : String := ""
  DeletedAt : String := ""
  Presigned : String := ""
deriving DecidableEq, Repr

/-- FileList type for handling collections of files. -/
abbrev FileList := List File

/-- The type `url.Values`. -/
abbrev Values := List (String × List String)

/-- The method `url.Values.Set`. -/
def Values.Set (q : Values) (key value : String) : Values := assocSet q key [value]

/-- ProductionAPIGetter: how the client performs GET calls.  `Get r model ps`
answers with the model after decoding and the error. -/
structure ProductionAPIGetter where
  Get : Resource → File → List (Values → Values) → File × Option GoError

/-- Holds file worker errors (`type FileWorkerError struct`). -/
structure FileWorkerError where
  Error : Option GoError
  FileId : Int
deriving DecidableEq, Repr

/-- The part of `http.Response` the package reads. -/
structure Response where
  StatusCode : Int
  Body : Bytes
deriving DecidableEq, Repr

/-- Package-level variables and the imported constant `common.QUERY_KEY_AUX`. -/
structure Pkg where
  workerAmount : Int := 5
  PlainGetter : String → Option Response × Option GoError
  QUERY_KEY_AUX : String

/-- The operating system calls used by `DownloadFiles`.
`Stat p` is `none` when `os.Stat` fails and `some isDir` otherwise;
`Create p` is the error of `os.Create p`, if any;
`Copy p body` is `none` when `io.Copy` into the file at `p` succeeds and
`some (n, e)` when it fails with `e` after writing `n` bytes;
`FileAt p` is the file the path `p` names: two paths name the same file
exactly when `FileAt` agrees on them. -/
structure OS where
  Stat : String → Option Bool
  Create : String → Option GoError
  Copy : String → Bytes → Option (Nat × GoError)
  FileAt : String → String

/-- What the outside world can observe of a run. -/
inductive Event where
  | detail (endpoint : Resource) (model : File) (query : Values)
  | contentGet (url : String)
  | create (path : String)
  | deferBodyClose (url : String)
  | deferFileClose (path : String)
deriving DecidableEq, Repr

/-- The goroutines a stage starts: `go presignedWorker(...)` in `GetPresigned`
and `go downloadWorker(...)` in `DownloadFiles`. -/
inductive Worker where
  | presigned
  | download
deriving DecidableEq, Repr

/-- The world a run acts on: local files, the calls made so far and the
goroutines started so far. -/
structure World where
  fs : FS := []
  trace : List Event := []
  started : List Worker := []
deriving DecidableEq, Repr

/-- What one job of a worker does. `result = none`: the worker panicked.
`write` is the file written (as the operating system identifies it) and its
new content. -/
structure JobOutcome where
  result : Option FileWorkerError
  file : File
  events : List Event
  write : Option (String × Bytes)

/-- The effect of a job on the world. -/
def World.apply (w : World) (j : JobOutcome) : World :=
  { fs := match j.write with
      | none => w.fs
      | some (p, d) => assocSet w.fs p d
    trace := w.trace ++ j.events
    started := w.started }

/-! ## The worker amount -/

/-- The loop `for i := 0; i < workerAmount; i++ { go worker(...) }` from the
counter value `i` on: the goroutines it starts.  The loop ends when its test
`i < workerAmount` fails. -/
def startWorkersFrom (workerAmount : Int) (kind : Worker) (i : Int) : List Worker :=
  if i < workerAmount then kind :: startWorkersFrom workerAmount kind (i + 1) else []
termination_by (workerAmount - i).toNat
decreasing_by omega

/-- The goroutines a pool stage starts: the loop run from `i := 0`. -/
def startWorkers (workerAmount : Int) (kind : Worker) : List Worker :=
  startWorkersFrom workerAmount kind 0

/-- The world after the goroutines `workers` have been started. -/
def World.start (w : World) (workers : List Worker) : World :=
  { fs := w.fs, trace := w.trace, started := w.started ++ workers }

/-! ## The worker pool -/

/-- Takes the job at position `i` (clamped to the last position) out of the
pending queue `x :: rest`. -/
def takeJob {α : Type} : Nat → α → List α → α × List α
  | 0, x, rest => (x, rest)
  | _ + 1, x, [] => (x, [])
  | i + 1, x, y :: rest => ((takeJob i y rest).1, x :: (takeJob i y rest).2)

/-- Completion order of the jobs of a pool of `workers` goroutines reading a
channel that holds `jobs`: at step `step` the schedule picks one of the first
`min workers pending` pending jobs.  The first argument is fuel. -/
def completionOrderAux {α : Type} (workers : Nat) (sched : Nat → Nat) :
    Nat → Nat → List α → List α
  | 0, _, _ => []
  | _ + 1, _, [] => []
  | fuel + 1, step, x :: rest =>
    let r := takeJob (sched step % min workers (rest.length + 1)) x rest
    r.1 :: completionOrderAux workers sched fuel (step + 1) r.2

/-- Completion order of `jobs` under `sched`. -/
def completionOrder {α : Type} (workers : Nat) (sched : Nat → Nat) (jobs : List α) : List α :=
  completionOrderAux workers sched jobs.length 0 jobs

/-- Runs the jobs in completion order; stops at the first panic.  Gives the
world afterwards, the results sent to the result channel in order, and whether
no worker panicked. -/
def runJobs (job : File → JobOutcome) : List File → World → World × List FileWorkerError × Bool
  | [], w => (w, [], true)
  | f :: rest, w =>
    match (job f).result with
    | none => (w.apply (job f), [], false)
    | some r =>
      let t := runJobs job rest (w.apply (job f))
      (t.1, r :: t.2.1, t.2.2)

/-- A finished pool stage. -/
structure PoolRun where
  outcome : Outcome (List FileWorkerError)
  world : World

/-- The pattern shared by `GetPresigned` and `DownloadFiles`: start the
workers (`for i := 0; i < workerAmount; i++ { go worker(...) }`), push every
item to the buffered `jobs` channel, close it, and receive `len(fl)` results.
The pool has as many workers as the loop started; with none, the receive blocks
forever when there is an item. -/
def runPool (kind : Worker) (workerAmount : Int) (sched : Nat → Nat) (job : File → JobOutcome)
    (jobs : List File) (w : World) : PoolRun :=
  let workers := startWorkers workerAmount kind
  if workers = [] ∧ jobs ≠ [] then
    { outcome := .deadlocked, world := w.start workers }
  else
    let t := runJobs job (completionOrder workers.length sched jobs) (w.start workers)
    if t.2.2 then { outcome := .returned t.2.1, world := t.1 }
    else { outcome := .panicked, world := t.1 }

/-- The collector loop `for range fl { err := <-results; errs[err.FileId] = err.Error }`. -/
def collect (errs : ErrMap) (rs : List FileWorkerError) : ErrMap :=
  rs.foldl (fun m r => assocSet m r.FileId r.Error) errs

/-! ## Credential resolution -/

/-- Creates presigned query param function. -/
def GetPresignedAuxParamFunc (P : Pkg) : Values → Values :=
  fun q => Values.Set q P.QUERY_KEY_AUX AUX_PRESIGNED

/-- The record of a call `c.Get(r, model, params...)`: the endpoint, the model
as passed, and the query the parameter functions build from an empty query. -/
def getEvent (r : Resource) (model : File) (params : List (Values → Values)) : Event :=
  .detail r model (params.foldl (fun q p => p q) [])

/-- What a call of `Get` leaves behind: the model after decoding, the error
returned, and the record of the call in the trace. -/
structure GetRun where
  model : File
  err : Option GoError
  events : List Event
deriving DecidableEq, Repr

/-- The call `c.Get(r, model, params...)`: the answer of the getter and the
record the call leaves. -/
def ProductionAPIGetter.call (c : ProductionAPIGetter) (r : Resource) (model : File)
    (params : List (Values → Values)) : GetRun :=
  { model := (c.Get r model params).1
    err := (c.Get r model params).2
    events := [getEvent r model params] }

/-- Retrieves presigned url for file: the file after the call, the error, and
the calls made. -/
def File.GetPresignedUrl (P : Pkg) (c : ProductionAPIGetter) (f : File) : GetRun :=
  c.call { Endpoint := SHOW, Id := f.ID } f [GetPresignedAuxParamFunc P]

/-- The result `presignedWorker` sends for an item: the error of
`f.GetPresignedUrl(c)` and `f.ID`, read after the call has updated the file. -/
def presignedResult (P : Pkg) (c : ProductionAPIGetter) (f : File) : FileWorkerError :=
  { Error := (File.GetPresignedUrl P c f).2, FileId := (File.GetPresignedUrl P c f).1.ID }

/-- One iteration of `presignedWorker`: the calls made are those of
`f.GetPresignedUrl(c)`. -/
def presignedJob (P : Pkg) (c : ProductionAPIGetter) (f : File) : JobOutcome :=
  { result := some (presignedResult P c f)
    file := (File.GetPresignedUrl P c f).1
    events := (File.GetPresignedUrl P c f).events
    write := none }

/-- A finished `GetPresigned`. -/
structure PresignedRun where
  outcome : Outcome ErrMap
  files : FileList
  world : World

/-- Retrieves presigned URLs for list of files. Uses worker concurrency pattern. -/
def FileList.GetPresigned (P : Pkg) (sched : Nat → Nat) (c : ProductionAPIGetter)
    (fl : FileList) (w : World) : PresignedRun :=
  let run := runPool .presigned P.workerAmount sched (presignedJob P c) fl w
  match run.outcome with
  | .returned rs =>
    { outcome := .returned (collect [] rs)
      files := fl.map (fun f => (presignedJob P c f).file)
      world := run.world }
  | .panicked => { outcome := .panicked, files := fl, world := run.world }
  | .deadlocked => { outcome := .deadlocked, files := fl, world := run.world }

/-! ## Content transfer -/

/-- The message built by
`fmt.Sprintf("Could not download file. Server responded with code: \"%s\"", resp.StatusCode)`:
the verb `%s` applied to an `int` prints `%!s(int=<decimal>)`. -/
def statusMessage (code : Int) : String :=
  "Could not download file. Server responded with code: \"%!s(int=" ++ toString code ++ ")\""

/-- One iteration of `downloadWorker`. -/
def downloadJob (P : Pkg) (os : OS) (outDir : String) (f : File) : JobOutcome :=
  match P.PlainGetter f.Presigned with
  | (none, _) =>
    -- `resp.StatusCode` on a nil response
    { result := none, file := f, events := [.contentGet f.Presigned], write := none }
  | (some resp, err) =>
    if resp.StatusCode ≠ 200 then
      { result := some { Error := some (errorsNew (statusMessage resp.StatusCode)), FileId := f.ID }
        file := f, events := [.contentGet f.Presigned], write := none }
    else
      match err with
      | some e =>
        { result := some { Error := some e, FileId := f.ID }
          file := f
          events := [.contentGet f.Presigned, .deferBodyClose f.Presigned]
          write := none }
      | none =>
        match os.Create (outDir ++ "/" ++ f.OriginalName) with
        | some e =>
          { result := some { Error := some e, FileId := f.ID }
            file := f
            events := [.contentGet f.Presigned, .deferBodyClose f.Presigned,
                       .create (outDir ++ "/" ++ f.OriginalName),
                       .deferFileClose (outDir ++ "/" ++ f.OriginalName)]
            write := none }
        | none =>
          match os.Copy (outDir ++ "/" ++ f.OriginalName) resp.Body with
          | some (n, e) =>
            { result := some { Error := some e, FileId := f.ID }
              file := f
              events := [.contentGet f.Presigned, .deferBodyClose f.Presigned,
                         .create (outDir ++ "/" ++ f.OriginalName),
                         .deferFileClose (outDir ++ "/" ++ f.OriginalName)]
              write := some (os.FileAt (outDir ++ "/" ++ f.OriginalName), resp.Body.take n) }
          | none =>
            { result := some { Error := none, FileId := f.ID }
              file := f
              events := [.contentGet f.Presigned, .deferBodyClose f.Presigned,
                         .create (outDir ++ "/" ++ f.OriginalName),
                         .deferFileClose (outDir ++ "/" ++ f.OriginalName)]
              write := some (os.FileAt (outDir ++ "/" ++ f.OriginalName), resp.Body) }

/-- A finished `DownloadFiles`: how the call ended (result map and top-level
error when it returned), the batch as the call left it, and the world. -/
structure DownloadRun where
  outcome : Outcome (ErrMap × Option GoError)
  files : FileList
  world : World

/-- The loop over `preErrs` in `DownloadFiles`: copies the non-nil entries into `errs`. -/
def bake (errs preErrs : ErrMap) : ErrMap :=
  preErrs.foldl (fun m kv => if kv.2 ≠ none then assocSet m kv.1 kv.2 else m) errs

/-- The flag `presignedError` after the loop over `preErrs`. -/
def presignedError (preErrs : ErrMap) : Bool :=
  preErrs.any (fun kv => kv.2 ≠ none)

/-- Lines 232 to 249 of `DownloadFiles`: the download workers, the jobs, the
collector, `return errs, nil`. -/
def downloadStage (P : Pkg) (os : OS) (sched : Nat → Nat) (fl : FileList) (outDir : String)
    (errs : ErrMap) (w : World) : DownloadRun :=
  let run := runPool .download P.workerAmount sched (downloadJob P os outDir) fl w
  match run.outcome with
  | .returned rs => { outcome := .returned (collect errs rs, none), files := fl, world := run.world }
  | .panicked => { outcome := .panicked, files := fl, world := run.world }
  | .deadlocked => { outcome := .deadlocked, files := fl, world := run.world }

/-- The items without a presigned url (`noPresigned`). -/
def noPresigned (fl : FileList) : FileList :=
  fl.filter (fun v => v.Presigned = "")

/-- The batch after the resolver stage: every item that had no presigned url
has been updated in place by its `Get` call. -/
def resolved (P : Pkg) (c : ProductionAPIGetter) (fl : FileList) : FileList :=
  fl.map (fun v => if v.Presigned = "" then (presignedJob P c v).file else v)

/-- The world in which the download workers of `DownloadFiles` start: the world
on entry when every item holds a presigned url, else the world `GetPresigned`
left. -/
def afterResolver (P : Pkg) (sched : Nat → Nat) (c : ProductionAPIGetter) (fl : FileList)
    (w : World) : World :=
  if noPresigned fl = [] then w
  else (FileList.GetPresigned P sched c (noPresigned fl) w).world

/-- Downloads file from FileList. Returns the map of errors indexed on file id
and the potential error generated by the method.  `sched₁` schedules the
resolver pool and `sched₂` the download pool. -/
def FileList.DownloadFiles (P : Pkg) (os : OS) (sched₁ sched₂ : Nat → Nat)
    (c : ProductionAPIGetter) (fl : FileList) (outDir : String) (w : World) : DownloadRun :=
  if os.Stat outDir ≠ some true then
    { outcome := .returned ([], some (errorsNew "Output dir is not a directory."))
      files := fl, world := w }
  else if 0 < (noPresigned fl).length then
    let pre := FileList.GetPresigned P sched₁ c (noPresigned fl) w
    match pre.outcome with
    | .returned preErrs =>
      if presignedError preErrs then
        { outcome := .returned (preErrs, none), files := resolved P c fl, world := pre.world }
      else
        downloadStage P os sched₂ (resolved P c fl) outDir (bake [] preErrs) pre.world
    | .panicked => { outcome := .panicked, files := fl, world := pre.world }
    | .deadlocked => { outcome := .deadlocked, files := fl, world := pre.world }
  else
    downloadStage P os sched₂ fl outDir [] w

/-! ## Endpoints -/

/-- Endpoints (`var endpoints map[Endpoint]string`): `none` for an `Endpoint`
value that is not a key of the map. -/
def endpoints (e : Endpoint) : Option String :=
  if e = INDEX then some "files"
  else if e = SHOW then some "files/%v"
  else none

/-- The call `strings.Contains(s, sub)`, on the characters of the strings. -/
def stringsContains (sub : List Char) : List Char → Bool
  | [] => sub.isEmpty
  | c :: cs => sub.isPrefixOf (c :: cs) || stringsContains sub cs

/-- The call `fmt.Sprintf(format, arg)` with one `int` operand, for a format
whose only verb is `%v`: the first `%v` prints the operand in decimal, a
further `%v` prints `%!v(MISSING)`, and an operand no verb consumed is appended
as `%!(EXTRA int=<decimal>)`. -/
def sprintfV : List Char → Option Int → List Char
  | [], none => []
  | [], some a => "%!(EXTRA int=".data ++ (toString a).data ++ ")".data
  | [c], a => c :: sprintfV [] a
  | c :: d :: rest, a =>
    if c = '%' ∧ d = 'v' then
      match a with
      | some x => (toString x).data ++ sprintfV rest none
      | none => "%!v(MISSING)".data ++ sprintfV rest none
    else c :: sprintfV (d :: rest) a

/-- Method to Resource that fullfils the Enpointer interface: the endpoint
template, with the id filled in when the template has a `%v` and the id is not
zero. A missing map key gives the empty string. -/
def Resource.GetEndpoint (r : Resource) : String :=
  let e := (endpoints r.Endpoint).getD ""
  if stringsContains "%v".data e.data = true ∧ r.Id ≠ 0 then
    String.mk (sprintfV e.data (some r.Id))
  else e

/-! ## Setting the worker amount -/

/-- Sets number of workers for methods using concurrent workers. -/
def SetWorkerAmount (P : Pkg) (amount : Int) : Pkg :=
  { P with workerAmount := amount }

/-! ## Reading a trace -/

/-- The detail requests (`Get` calls) recorded in a trace, in order. -/
def detailRequests (t : List Event) : List Event :=
  t.filter (fun e => match e with
    | .detail _ _ _ => true
    | _ => false)

/-- The urls of the content GETs (`PlainGetter` calls) recorded in a trace, in order. -/
def contentGets (t : List Event) : List String :=
  t.filterMap (fun e => match e with
    | .contentGet url => some url
    | _ => none)

/-! ## Example data -/

/-- A package state: five workers; the content server knows two files, answers
400 for the url `bad` and cannot be reached for any other url. -/
def exPkg : Pkg :=
  { workerAmount := 5
    PlainGetter := fun url =>
      if url = "u1" then (some { StatusCode := 200, Body := [104, 105] }, none)
      else if url = "u2" then (some { StatusCode := 200, Body := [33] }, none)
      else if url = "bad" then (some { StatusCode := 400, Body := [] }, none)
      else (none, some (errorsNew "Get: dial tcp: connection refused"))
    QUERY_KEY_AUX := "aux" }

/-- The segments of a path: the pieces between the separators `/`.  The second
argument holds the characters of the current segment, last first. -/
def pathSegments : List Char → List Char → List (List Char)
  | [], cur => [cur.reverse]
  | c :: cs, cur =>
    if c = '/' then cur.reverse :: pathSegments cs [] else pathSegments cs (c :: cur)

/-- Resolves the segments of a relative path against the segments kept so far
(last first): an empty segment and `.` stay in place, `..` goes up. -/
def resolveSegments : List (List Char) → List (List Char) → List (List Char)
  | [], kept => kept.reverse
  | s :: rest, kept =>
    if s = [] ∨ s = ['.'] then resolveSegments rest kept
    else if s = ['.', '.'] then resolveSegments rest kept.tail
    else resolveSegments rest (s :: kept)

/-- The file a relative path names in the example operating system: the path
without its empty, `.` and `..` segments. -/
def exFileAt (p : String) : String :=
  String.mk (List.intercalate ['/'] (resolveSegments (pathSegments p.data []) []))

/-- An operating system where `out` is a directory, `out/` cannot be created
as a file, and every other create and copy succeeds. -/
def exOS : OS :=
  { Stat := fun p => if p = "out" then some true else none
    Create := fun p => if p = "out/" then some (errorsNew "open out/: is a directory") else none
    Copy := fun _ _ => none
    FileAt := exFileAt }

/-- A getter that resolves file 1 to `u1`, file 3 to `bad` and fails for every
other file. -/
def exGetter : ProductionAPIGetter :=
  { Get := fun r m _ =>
      if r.Id = 1 then ({ m with Presigned := "u1" }, none)
      else if r.Id = 3 then ({ m with Presigned := "bad" }, none)
      else (m, some (errorsNew "Response not ok.")) }

/-- The schedule that always lets the oldest pending job complete. -/
def exSched : Nat → Nat := fun _ => 0

/-- A batch: item 1 needs a credential, item 2 holds one. -/
def exBatch : FileList :=
  [{ ID := 1, OriginalName := "a.txt" }, { ID := 2, OriginalName := "b.txt", Presigned := "u2" }]

/-- A batch whose item 7 needs a credential the getter cannot resolve, while
item 2 holds one and item 1 resolves. -/
def exBatchFail : FileList :=
  [{ ID := 2, OriginalName := "b.txt", Presigned := "u2" }, { ID := 7, OriginalName := "x.txt" },
   { ID := 1, OriginalName := "a.txt" }]

/-- A batch of two items that hold a credential; the url of item 2 cannot be
reached (`PlainGetter` answers with no response and an error). -/
def exBatchGone : FileList :=
  [{ ID := 1, OriginalName := "a.txt", Presigned := "u1" },
   { ID := 2, OriginalName := "b.txt", Presigned := "gone" }]

/-- The schedule that lets the second oldest pending job complete first. -/
def exSchedSecond : Nat → Nat := fun _ => 1

/-- A batch of one item that holds a credential and has an empty original name. -/
def exBatchNoName : FileList :=
  [{ ID := 1, OriginalName := "", Presigned := "u1" }]

/-- A batch of two items that hold a credential; the content server answers
400 for item 3. -/
def exBatchBad : FileList :=
  [{ ID := 3, OriginalName := "c.txt", Presigned := "bad" },
   { ID := 2, OriginalName := "b.txt", Presigned := "u2" }]

/-- The body the example content server holds for an item. -/
def exBody (f : File) : Bytes :=
  if f.Presigned = "u1" then [104, 105] else [33]

/-- A batch of two items that hold a credential and whose original names,
`a.txt` and `./a.txt`, differ as strings and name one file. -/
def exBatchSameFile : FileList :=
  [{ ID := 1, OriginalName := "a.txt", Presigned := "u1" },
   { ID := 2, OriginalName := "./a.txt", Presigned := "u2" }]

/-- A batch of two items that hold a credential and whose original names
`c.txt` and `./c.txt` name one file; the content server answers 400 for item 3
and 200 for item 2. -/
def exBatchBadSibling : FileList :=
  [{ ID := 3, OriginalName := "c.txt", Presigned := "bad" },
   { ID := 2, OriginalName := "./c.txt", Presigned := "u2" }]

/-- A batch of two items without a credential, ids 1 and 2. -/
def exBatchCollide : FileList :=
  [{ ID := 1, OriginalName := "a.txt" }, { ID := 2, OriginalName := "b.txt" }]

/-- A getter whose request for file 1 fails and whose answer to the request
for file 2 is a file that carries the id 1 and the url `u2`. -/
def exGetterCollide : ProductionAPIGetter :=
  { Get := fun r m _ =>
      if r.Id = 2 then ({ m with ID := 1, Presigned := "u2" }, none)
      else (m, some (errorsNew "Response not ok.")) }

/-- A package state whose content server answers 200 with the body `[7]` for
every url. -/
def exPkgOpen : Pkg :=
  { workerAmount := 5
    PlainGetter := fun _ => (some { StatusCode := 200, Body := [7] }, none)
    QUERY_KEY_AUX := "aux" }

end file

/-! ## Package `production`: the API client -/

/-- The constant `API`. -/
def API : String := "production"

/-- The constant `API_VERSION`. -/
def API_VERSION : String := "v2.0"

/-- The constant `RESOURCE_STATUSCHECK`. -/
def RESOURCE_STATUSCHECK : String := "status_check"

/-- The part of `*http.Response` package `production` reads.  `Body = none` is
a nil `Body`. -/
structure HttpResponse where
  StatusCode : Int
  Header : List (String × List String) := []
  Body : Option Bytes := none
deriving DecidableEq, Repr

/-- The method `http.Header.Get`: the first value of the key, or the empty string. -/
def headerGet (h : List (String × List String)) (key : String) : String :=
  match assocGet h key with
  | some (v :: _) => v
  | _ => ""

/-- The part of `*http.Request` the client builds: method, url and the query
values that are encoded into `RawQuery`. -/
structure Request where
  Method : String
  URL : String
  Query : List (String × List String)
deriving DecidableEq, Repr

/-- APICaller is an interface that defines how a client should use the Publit
APIs.  A call answers with a response (or nil) and an error (or nil). -/
structure APICaller where
  Call : Request → Option HttpResponse × Option GoError
  CallRaw : Request → Option HttpResponse × Option GoError

/-- APIClient hold Client information for connecting to the Publit APIs and base URLs. -/
structure APIClient where
  Client : APICaller
  BaseUrl : String

/-- What package `production` uses of `net/http`, `net/url`, `encoding/json`
and of `common.APIErrorResponse` (values of type `α`).
`NewRequest method url` tells whether `http.NewRequest` succeeds;
`Query url` is `req.URL.Query()`;
`DecodeAPIError body` is the `APIErrorResponse` decoded from the body, `none`
when decoding fails. -/
structure Lib (α : Type) where
  NewRequest : String → String → Bool
  Query : String → List (String × List String)
  DecodeAPIError : Bytes → Option α
  HasInformation : α → Bool
  GetAsError : α → Option GoError

/-- Compiles regular endpoints URL: `fmt.Sprintf("%v/%v/%v/%v", c.BaseUrl, API, API_VERSION, endpoint)`. -/
def APIClient.CompileEndpointURL (c : APIClient) (endpoint : String) : String :=
  c.BaseUrl ++ "/" ++ API ++ "/" ++ API_VERSION ++ "/" ++ endpoint

/-- The error `MakeResponseError` builds when the response gives no information. -/
def noInformationError (code : Int) : GoError :=
  errorsNew ("Response not ok. No information given. Code: \"" ++ toString code ++ "\"")

/-- Attempts to make a better response error from response.  Decoding a nil
body panics. -/
def MakeResponseError {α : Type} (lib : Lib α) (resp : HttpResponse) : Outcome (Option GoError) :=
  if headerGet resp.Header "Content-Type" = "application/json" then
    match resp.Body with
    | none => .panicked
    | some body =>
      match lib.DecodeAPIError body with
      | some apiErr =>
        if lib.HasInformation apiErr then .returned (lib.GetAsError apiErr)
        else .returned (some (noInformationError resp.StatusCode))
      | none => .returned (some (noInformationError resp.StatusCode))
  else .returned (some (noInformationError resp.StatusCode))

/-- Performs a GET method action against the Publit production API.
`endpoint` is `endpoint.GetEndpoint()`, `decode body model` is
`json.NewDecoder(resp.Body).Decode(model)`: the model afterwards and the error.
The result is the model after the call and the error returned. -/
def APIClient.Get {α μ : Type} (lib : Lib α) (c : APIClient)
    (decode : Bytes → μ → μ × Option GoError) (endpoint : String) (model : μ)
    (queryParams : List (List (String × List String) → List (String × List String))) :
    Outcome (μ × Option GoError) :=
  if lib.NewRequest "GET" (c.CompileEndpointURL endpoint) = false then
    -- `req, _ := http.NewRequest(...)` left `req` nil: `req.URL` panics
    .panicked
  else
    match c.Client.Call
        { Method := "GET", URL := c.CompileEndpointURL endpoint
          Query := queryParams.foldl (fun q v => v q) (lib.Query (c.CompileEndpointURL endpoint)) } with
    | (none, _) =>
      -- `defer resp.Body.Close()` on a nil response
      .panicked
    | (some resp, err) =>
      match resp.Body with
      | none =>
        -- `resp.Body.Close` on a nil body
        .panicked
      | some body =>
        match err with
        | some e => .returned (model, some e)
        | none =>
          if resp.StatusCode ≠ 200 then
            match MakeResponseError lib resp with
            | .returned e => .returned (model, e)
            | .panicked => .panicked
            | .deadlocked => .deadlocked
          else .returned (decode body model)


/-- Compiles statuscheck URL against the production API:
`fmt.Sprintf("%s/%s/%s", c.BaseUrl, API_VERSION, RESOURCE_STATUSCHECK)`. -/
def APIClient.compileStatusCheckURL (c : APIClient) : String :=
  c.BaseUrl ++ "/" ++ API_VERSION ++ "/" ++ RESOURCE_STATUSCHECK

/-- StatusCheck checks if the Publit service is up.  Reading the status of a
nil response (a `CallRaw` that returns neither response nor error) panics. -/
def APIClient.StatusCheck {α : Type} (lib : Lib α) (c : APIClient) : Outcome Bool :=
  if lib.NewRequest "GET" c.compileStatusCheckURL = false then .returned false
  else
    match c.Client.CallRaw
        { Method := "GET", URL := c.compileStatusCheckURL
          Query := lib.Query c.compileStatusCheckURL } with
    | (_, some _) => .returned false
    | (none, none) => .panicked
    | (some r, none) => if r.StatusCode ≠ 200 then .returned false else .returned true

/-! ## The resources of the other packages -/

/-- The body every `Resource.GetEndpoint` of the repository shares, after the
lookup `e := endpoints[r.Endpoint]`: the template, with the id filled in when
the template has a `%v` and the id is not zero. -/
def fillEndpoint (e : String) (id : Int) : String :=
  if file.stringsContains "%v".data e.data = true ∧ id ≠ 0 then
    String.mk (file.sprintfV e.data (some id))
  else e

namespace country

/-- Resource struct. -/
structure Resource where
  Endpoint : Int
  Id : Int
deriving DecidableEq, Repr

/-- The constant `INDEX Endpoint = 1 + iota`. -/
def INDEX : Int := 1

/-- The constant `SHOW`. -/
def SHOW : Int := 2

/-- Endpoints (`var endpoints map[Endpoint]string`). -/
def endpoints (e : Int) : Option String :=
  if e = INDEX then some "countries"
  else if e = SHOW then some "countries/%v"
  else none

/-- Method to Resource that fulfils the Endpointer interface. -/
def Resource.GetEndpoint (r : Resource) : String :=
  fillEndpoint ((endpoints r.Endpoint).getD "") r.Id

end country

namespace printorder

/-- Resource struct. -/
structure Resource where
  Endpoint : Int
  Id : Int
deriving DecidableEq, Repr

/-- The constant `INDEX Endpoint = 1 + iota`. -/
def INDEX : Int := 1

/-- The constant `SHOW`. -/
def SHOW : Int := 2

/-- Endpoints (`var endpoints map[Endpoint]string`). -/
def endpoints (e : Int) : Option String :=
  if e = INDEX then some "print_orders"
  else if e = SHOW then some "print_orders/%v"
  else none

/-- Method to Resource that fulfils the Endpointer interface. -/
def Resource.GetEndpoint (r : Resource) : String :=
  fillEndpoint ((endpoints r.Endpoint).getD "") r.Id

end printorder

namespace printdata

/-- Resource struct. -/
structure Resource where
  Endpoint : Int
  Id : Int
deriving DecidableEq, Repr

/-- The constant `INDEX Endpoint = 1 + iota`. -/
def INDEX : Int := 1

/-- The constant `SHOW`. -/
def SHOW : Int := 2

/-- Endpoints (`var endpoints map[Endpoint]string`). -/
def endpoints (e : Int) : Option String :=
  if e = INDEX then some "print_order_print_data"
  else if e = SHOW then some "print_order_print_data/%v"
  else none

/-- Method to Resource that fullfils the Enpointer interface. -/
def Resource.GetEndpoint (r : Resource) : String :=
  fillEndpoint ((endpoints r.Endpoint).getD "") r.Id

end printdata

namespace printorderstatus

/-- Print order status, as defined in the Publit Production API.  `PublitTime`
values are kept as their text; `Status_` is the field `Status`. -/
structure Status where
  ID : Int := 0
  PrintOrderId : Int := 0
  SenderType : String := ""
  Status_ : String := ""
  Message : String := ""
  CreatedAt : String := ""
  UpdatedAt : String := ""
deriving DecidableEq, Repr

/-- Status list type. -/
abbrev StatusList := List Status

/-- Resource struct. -/
structure Resource where
  Endpoint : Int
  Id : Int := 0
deriving DecidableEq, Repr

/-- The constant `INDEX Endpoint = 1 + iota`. -/
def INDEX : Int := 1

/-- The constant `SHOW`. -/
def SHOW : Int := 2

/-- The constant `POST`. -/
def POST : Int := 3

/-- Endpoints (`var endpoints map[Endpoint]string`). -/
def endpoints (e : Int) : Option String :=
  if e = INDEX then some "print_order_statuses"
  else if e = SHOW then some "print_order_statuses/%v"
  else if e = POST then some "print_order_statuses"
  else none

/-- Method to Resource that fullfils the Enpointer interface. -/
def Resource.GetEndpoint (r : Resource) : String :=
  fillEndpoint ((endpoints r.Endpoint).getD "") r.Id

/-- ProductionAPIPoster defines how the client should perform POST calls:
`Post endpoint payload result` answers with the result list after decoding and
the error.  No header function is passed by this package. -/
structure ProductionAPIPoster where
  Post : Resource → Status → StatusList → StatusList × Option GoError

/-- The record of a call `c.Post(endpoint, payload, result)`. -/
structure PostCall where
  endpoint : Resource
  payload : Status
  result : StatusList
deriving DecidableEq, Repr

/-- A finished `Store`: the error returned, the calls made, and the result
list as the call left it (its first element is the receiver). -/
structure StoreRun where
  err : Option GoError
  calls : List PostCall
  result : StatusList

/-- Sets status. -/
def Status.Store (c : ProductionAPIPoster) (s : Status) : StoreRun :=
  if s.ID ≠ 0 then
    { err := some (errorsNew "Can not create new status for an existing one. (ID is set).")
      calls := [], result := [s] }
  else
    { err := (c.Post { Endpoint := POST } s [s]).2
      calls := [{ endpoint := { Endpoint := POST }, payload := s, result := [s] }]
      result := (c.Post { Endpoint := POST } s [s]).1 }

end printorderstatus

namespace deliverynumber

/-- Print order delivery number struct; `DeliveryNumber_` is the field
`DeliveryNumber`. -/
structure DeliveryNumber where
  ID : Int := 0
  PrintOrderID : Int := 0
  DeliveryNumber_ : String := ""
  Message : String := ""
  CreatedAt : String := ""
  UpdatedAt : String := ""
deriving DecidableEq, Repr

/-- Delivery number list type. -/
abbrev DeliveryNumberList := List DeliveryNumber

/-- Resource struct. -/
structure Resource where
  Endpoint : Int
  Id : Int := 0
deriving DecidableEq, Repr

/-- The constant `INDEX Endpoint = 1 + iota`. -/
def INDEX : Int := 1

/-- The constant `SHOW`. -/
def SHOW : Int := 2

/-- The constant `POST`. -/
def POST : Int := 3

/-- The constant `PUT`. -/
def PUT : Int := 4

/-- The constant `DELETE`. -/
def DELETE : Int := 5

/-- Endpoints (`var endpoints map[Endpoint]string`). -/
def endpoints (e : Int) : Option String :=
  if e = INDEX then some "print_order_delivery_numbers"
  else if e = SHOW then some "print_order_delivery_numbers/%v"
  else if e = POST then some "print_order_delivery_numbers"
  else if e = PUT then some "print_order_delivery_numbers/%v"
  else if e = DELETE then some "print_order_delivery_numbers/%v"
  else none

/-- Method to Resource that fulfils the Endpointer interface. -/
def Resource.GetEndpoint (r : Resource) : String :=
  fillEndpoint ((endpoints r.Endpoint).getD "") r.Id

/-- The client of this package: ProductionAPIPoster, ProductionAPIPutter and
ProductionAPIDeleter.  Each call answers with the result after decoding and
the error.  No header function is passed by this package. -/
structure ProductionAPIClient where
  Post : Resource → DeliveryNumber → DeliveryNumberList → DeliveryNumberList × Option GoError
  Put : Resource → DeliveryNumber → DeliveryNumber → DeliveryNumber × Option GoError
  Delete : Resource → DeliveryNumber → DeliveryNumber × Option GoError

/-- The record of a remote call. -/
inductive Call where
  | post (endpoint : Resource) (payload : DeliveryNumber) (result : DeliveryNumberList)
  | put (endpoint : Resource) (payload : DeliveryNumber) (result : DeliveryNumber)
  | delete (endpoint : Resource) (result : DeliveryNumber)
deriving DecidableEq, Repr

/-- A finished `Update`, `Store` or `Delete`: the error returned and the calls made. -/
structure Run where
  err : Option GoError
  calls : List Call

/-- Updates DeliveryNumber. -/
def DeliveryNumber.Update (c : ProductionAPIClient) (d : DeliveryNumber) : Run :=
  if d.ID = 0 then
    { err := some (errorsNew "Can not update a non existing number. (ID is missing).")
      calls := [] }
  else
    { err := (c.Put { Endpoint := PUT, Id := d.ID } d d).2
      calls := [.put { Endpoint := PUT, Id := d.ID } d d] }

/-- Stores delivery number. -/
def DeliveryNumber.Store (c : ProductionAPIClient) (d : DeliveryNumber) : Run :=
  if d.ID ≠ 0 then
    { err := some (errorsNew
        "Can not create new delivery number for an existing one. (ID is set).")
      calls := [] }
  else
    { err := (c.Post { Endpoint := POST } d [d]).2
      calls := [.post { Endpoint := POST } d [d]] }

/-- Deletes delivery number. -/
def DeliveryNumber.Delete (c : ProductionAPIClient) (d : DeliveryNumber) : Run :=
  if d.ID = 0 then
    { err := some (errorsNew "Can not DELETE a non existing number. (ID is missing).")
      calls := [] }
  else
    { err := (c.Delete { Endpoint := DELETE, Id := d.ID } d).2
      calls := [.delete { Endpoint := DELETE, Id := d.ID } d] }

end deliverynumber

namespace printorderstatus

/-- What `GetLast` uses of other packages: `ConvertPublitTimeToTime` of package
`common` (the instant a timestamp denotes, and the error; on an error the
instant is that of the zero time) and `sort.Sort` (`sortSort`), given the
`Less` of the list. -/
structure TimeLib where
  ConvertPublitTimeToTime : String → Int × Option GoError
  sortSort : (Status → Status → Bool) → StatusList → StatusList

/-- Less method to fulfil sort.Sort interface: `t.Before(t2)` on the instants
of the two `UpdatedAt`, conversion errors being dropped. -/
def Less (lib : TimeLib) (a b : Status) : Bool :=
  decide ((lib.ConvertPublitTimeToTime a.UpdatedAt).1 < (lib.ConvertPublitTimeToTime b.UpdatedAt).1)

/-- Retrieves last reported status from StatusList: `sort.Sort(l)`, then
`l[len(l)-1]`, which panics on an empty list. -/
def StatusList.GetLast (lib : TimeLib) (l : StatusList) : Outcome Status :=
  if l.length = 0 then .panicked
  else
    match (lib.sortSort (Less lib) l)[l.length - 1]? with
    | some s => .returned s
    | none => .panicked

end printorderstatus

namespace printdata

/-- Holds print data information.  The float64 fields, `ColorPrint` and the
relations to other resources are left out: no function modelled here reads
them. -/
structure PrintData where
  ID : Int := 0
  PrintOrderID : Int := 0
  ManifestationID : Int := 0
  FileID : Int := 0
  PrintItemPaperID : Int := 0
  BookBindingID : Int := 0
  Amount : Int := 0
  Pages : Int := 0
  ColorPagesAmount : Int := 0
  ColorPages : String := ""
  ReferenceNumber : String := ""
  LengthUnit : String := ""
  Format : String := ""
  Publisher : String := ""
  Title : String := ""
  Subtitle : String := ""
  CreatedAt : String := ""
  UpdatedAt : String := ""
deriving DecidableEq, Repr

/-- PrintDataList type. -/
abbrev PrintDataList := List PrintData

/-- The loop body `pd[v.ManifestationID] = append(pd[v.ManifestationID], v)`. -/
def groupStep (pd : List (Int × List PrintData)) (v : PrintData) : List (Int × List PrintData) :=
  assocSet pd v.ManifestationID ((assocGet pd v.ManifestationID).getD [] ++ [v])

/-- Compiles PrintDataList to a map indexed on manifestation id. -/
def PrintDataList.GetPrintDataPerManifestation (data : PrintDataList) :
    List (Int × List PrintData) :=
  if 0 < data.length then data.foldl groupStep [] else []

end printdata

/-! ## Example data for package `production` -/

/-- A library whose requests always build, whose urls carry no query, and where
an `APIErrorResponse` is the text of its combined info: the body `{}` decodes
to an empty one, an empty body does not decode. -/
def exLib : Lib String :=
  { NewRequest := fun _ _ => true
    Query := fun _ => []
    DecodeAPIError := fun body =>
      if body = [] then none else if body = [123, 125] then some "" else some "Some error"
    HasInformation := fun a => a ≠ ""
    GetAsError := fun a => some (errorsNew a) }

/-- A caller whose every call fails at transport level: no response, an error. -/
def exCallerDown : APICaller :=
  { Call := fun _ => (none, some (errorsNew "Post: dial tcp: connection refused"))
    CallRaw := fun _ => (none, some (errorsNew "Post: dial tcp: connection refused")) }

/-- A caller that answers every call with the given status and the body `{}`. -/
def exCaller (status : Int) : APICaller :=
  { Call := fun _ => (some { StatusCode := status, Body := some [123, 125] }, none)
    CallRaw := fun _ => (some { StatusCode := status, Body := some [123, 125] }, none) }

/-- A decoder of file responses: any non-empty body decodes, and sets the
presigned url of the model to `u1`. -/
def exDecode (body : Bytes) (m : file.File) : file.File × Option GoError :=
  if body = [] then (m, some (errorsNew "EOF")) else ({ m with Presigned := "u1" }, none)

/-! ## Example data for the other packages -/

/-- A poster of statuses that gives the stored status the id 9. -/
def exPoster : printorderstatus.ProductionAPIPoster :=
  { Post := fun _ s _ => ([{ s with ID := 9 }], none) }

/-- A client of delivery numbers: storing gives the id 9, updating fails,
deleting succeeds. -/
def exClient : deliverynumber.ProductionAPIClient :=
  { Post := fun _ d _ => ([{ d with ID := 9 }], none)
    Put := fun _ _ d => (d, some (errorsNew "Response not ok."))
    Delete := fun _ d => (d, none) }

/-- The instants of the timestamps of the examples, in seconds after
2017-07-14 00:00:00; any other text is no timestamp. -/
def exConvert (t : String) : Int × Option GoError :=
  if t = "2017-07-14 09:02:13" then (32533, none)
  else if t = "2017-07-17 22:12:10" then (339130, none)
  else if t = "2017-07-15 13:32:21" then (135141, none)
  else (0, some (errorsNew "parsing time: cannot parse"))

/-- A library that sorts by insertion. -/
def exTimeLib : printorderstatus.TimeLib :=
  { ConvertPublitTimeToTime := exConvert
    sortSort := fun less l => l.insertionSort (fun a b => less b a = false) }

/-- The list of the example of `GetLast`. -/
def exStatusList : printorderstatus.StatusList :=
  [{ ID := 1, UpdatedAt := "2017-07-14 09:02:13" },
   { ID := 3, UpdatedAt := "2017-07-17 22:12:10" },
   { ID := 5, UpdatedAt := "2017-07-15 13:32:21" }]

/-- The list of the example of `GetPrintDataPerManifestation`. -/
def exPrintData : printdata.PrintDataList :=
  [{ ManifestationID := 1, ID := 1 }, { ManifestationID := 2, ID := 3 },
   { ManifestationID := 1, ID := 2 }, { ManifestationID := 2, ID := 4 }]

/-- A getter whose every request succeeds and leaves the file as it was. -/
def exGetterEmpty : file.ProductionAPIGetter :=
  { Get := fun _ m _ => (m, none) }

/-- A package state whose content server answers 404 for every url. -/
def exPkgNotFound : file.Pkg :=
  { workerAmount := 5
    PlainGetter := fun _ => (some { StatusCode := 404, Body := [] }, none)
    QUERY_KEY_AUX := "aux" }

/-- A batch of one item without a credential. -/
def exBatchUnresolved : file.FileList :=
  [{ ID := 1, OriginalName := "a.txt" }]


/-! # Properties -/

section Assoc
variable {κ ν : Type} [DecidableEq κ]

theorem assocGet_assocSet_self (m : List (κ × ν)) (k : κ) (v : ν) :
    assocGet (assocSet m k v) k = some v := by
  induction m with
  | nil => simp [assocSet, assocGet]
  | cons a t ih =>
    obtain ⟨k', v'⟩ := a
    by_cases h : k' = k
    · simp [assocSet, assocGet, h]
    · simp [assocSet, assocGet, h, ih]

theorem assocGet_assocSet_ne (m : List (κ × ν)) {k k' : κ} (v : ν) (h : k' ≠ k) :
    assocGet (assocSet m k v) k' = assocGet m k' := by
  induction m with
  | nil => simp [assocSet, assocGet, Ne.symm h]
  | cons a t ih =>
    obtain ⟨k₀, v₀⟩ := a
    by_cases h₀ : k₀ = k
    · subst h₀
      simp [assocSet, assocGet, Ne.symm h]
    · by_cases h₁ : k₀ = k'
      · subst h₁
        simp [assocSet, assocGet, h₀]
      · simp [assocSet, assocGet, h₀, h₁, ih]

theorem mem_assocKeys_assocSet (m : List (κ × ν)) (k k' : κ) (v : ν) :
    k' ∈ assocKeys (assocSet m k v) ↔ k' = k ∨ k' ∈ assocKeys m := by
  induction m with
  | nil => simp [assocSet, assocKeys]
  | cons a t ih =>
    obtain ⟨k₀, v₀⟩ := a
    by_cases h₀ : k₀ = k
    · subst h₀
      simp [assocSet, assocKeys]
    · simp only [assocKeys] at ih
      simp [assocSet, assocKeys, h₀, ih]
      tauto

theorem nodup_assocKeys_assocSet (m : List (κ × ν)) (k : κ) (v : ν)
    (h : (assocKeys m).Nodup) : (assocKeys (assocSet m k v)).Nodup := by
  induction m with
  | nil => simp [assocSet, assocKeys]
  | cons a t ih =>
    obtain ⟨k₀, v₀⟩ := a
    have ht : (assocKeys t).Nodup := (List.nodup_cons.1 h).2
    have hk : k₀ ∉ assocKeys t := (List.nodup_cons.1 h).1
    by_cases h₀ : k₀ = k
    · subst h₀
      simpa [assocSet, assocKeys] using h
    · have hmem : k₀ ∉ assocKeys (assocSet t k v) := by
        rw [mem_assocKeys_assocSet]
        rintro (h | h)
        · exact h₀ h
        · exact hk h
      have := List.nodup_cons.2 ⟨hmem, ih ht⟩
      simpa [assocSet, assocKeys, h₀] using this

theorem assocGet_eq_none_iff (m : List (κ × ν)) (k : κ) :
    assocGet m k = none ↔ k ∉ assocKeys m := by
  induction m with
  | nil => simp [assocGet, assocKeys]
  | cons a t ih =>
    obtain ⟨k₀, v₀⟩ := a
    by_cases h₀ : k₀ = k
    · simp [assocGet, assocKeys, h₀]
    · simp only [assocKeys] at ih
      simp [assocGet, assocKeys, h₀, ih, Ne.symm h₀]

end Assoc

namespace file

/-! ### The completion order is a permutation of the jobs -/

theorem takeJob_perm {α : Type} (i : Nat) (x : α) (rest : List α) :
    ((takeJob i x rest).1 :: (takeJob i x rest).2).Perm (x :: rest) := by
  induction i generalizing x rest with
  | zero => simp [takeJob]
  | succ i ih =>
    cases rest with
    | nil => simp [takeJob]
    | cons y rest =>
      simp only [takeJob]
      exact (List.Perm.swap x _ _).trans ((ih y rest).cons x)

theorem takeJob_length {α : Type} (i : Nat) (x : α) (rest : List α) :
    (takeJob i x rest).2.length = rest.length := by
  have := (takeJob_perm i x rest).length_eq
  simpa using this

theorem completionOrderAux_perm {α : Type} (workers : Nat) (sched : Nat → Nat)
    (fuel step : Nat) (jobs : List α) (h : jobs.length ≤ fuel) :
    (completionOrderAux workers sched fuel step jobs).Perm jobs := by
  induction fuel generalizing step jobs with
  | zero =>
    have : jobs = [] := List.eq_nil_of_length_eq_zero (Nat.le_zero.1 h)
    subst this
    simp [completionOrderAux]
  | succ fuel ih =>
    cases jobs with
    | nil => simp [completionOrderAux]
    | cons x rest =>
      simp only [completionOrderAux]
      have hlen : (takeJob (sched step % min workers (rest.length + 1)) x rest).2.length ≤ fuel := by
        rw [takeJob_length]
        simpa using h
      exact ((ih (step + 1) _ hlen).cons _).trans (takeJob_perm _ x rest)

theorem completionOrder_perm {α : Type} (workers : Nat) (sched : Nat → Nat) (jobs : List α) :
    (completionOrder workers sched jobs).Perm jobs :=
  completionOrderAux_perm workers sched jobs.length 0 jobs (Nat.le_refl _)

/-! ### The collector -/

theorem mem_assocKeys_collect (errs : ErrMap) (rs : List FileWorkerError) (k : Int) :
    k ∈ assocKeys (collect errs rs) ↔ k ∈ assocKeys errs ∨ k ∈ rs.map FileWorkerError.FileId := by
  induction rs generalizing errs with
  | nil => simp [collect]
  | cons r rs ih =>
    have := ih (assocSet errs r.FileId r.Error)
    simp only [collect, List.foldl_cons] at this ⊢
    rw [this, mem_assocKeys_assocSet]
    simp only [List.map_cons, List.mem_cons]
    tauto

theorem nodup_assocKeys_collect (errs : ErrMap) (rs : List FileWorkerError)
    (h : (assocKeys errs).Nodup) : (assocKeys (collect errs rs)).Nodup := by
  induction rs generalizing errs with
  | nil => simpa [collect] using h
  | cons r rs ih =>
    have := ih (assocSet errs r.FileId r.Error) (nodup_assocKeys_assocSet errs _ _ h)
    simpa [collect] using this

theorem assocGet_collect_of_not_mem (errs : ErrMap) (rs : List FileWorkerError) (k : Int)
    (h : k ∉ rs.map FileWorkerError.FileId) :
    assocGet (collect errs rs) k = assocGet errs k := by
  induction rs generalizing errs with
  | nil => simp [collect]
  | cons r rs ih =>
    simp only [List.map_cons, List.mem_cons, not_or] at h
    have := ih (assocSet errs r.FileId r.Error) h.2
    simp only [collect, List.foldl_cons] at this ⊢
    rw [this, assocGet_assocSet_ne _ _ h.1]

theorem assocGet_collect_of_mem (errs : ErrMap) (rs : List FileWorkerError)
    (hnd : (rs.map FileWorkerError.FileId).Nodup) (r : FileWorkerError) (hr : r ∈ rs) :
    assocGet (collect errs rs) r.FileId = some r.Error := by
  induction rs generalizing errs with
  | nil => simp at hr
  | cons r₀ rs ih =>
    simp only [List.map_cons, List.nodup_cons] at hnd
    rcases List.mem_cons.1 hr with h | h
    · subst h
      have := assocGet_collect_of_not_mem (assocSet errs r.FileId r.Error) rs r.FileId hnd.1
      simp only [collect, List.foldl_cons] at this ⊢
      rw [this, assocGet_assocSet_self]
    · have := ih (assocSet errs r₀.FileId r₀.Error) hnd.2 h
      simpa [collect] using this

theorem assocKeys_collect_perm (rs : List FileWorkerError)
    (hnd : (rs.map FileWorkerError.FileId).Nodup) :
    (assocKeys (collect [] rs)).Perm (rs.map FileWorkerError.FileId) := by
  refine (List.perm_ext_iff_of_nodup (nodup_assocKeys_collect [] rs ?_) hnd).2 ?_
  · simp [assocKeys]
  · intro k
    rw [mem_assocKeys_collect]
    simp [assocKeys]

/-! ### Running the jobs of a pool -/

/-- The world after a list of jobs that all complete. -/
theorem runJobs_of_all_some (job : File → JobOutcome) (l : List File) (w : World)
    (h : ∀ f ∈ l, (job f).result ≠ none) :
    (runJobs job l w).2.2 = true ∧
    (runJobs job l w).2.1 = l.filterMap (fun f => (job f).result) ∧
    (runJobs job l w).1.trace = w.trace ++ l.flatMap (fun f => (job f).events) := by
  induction l generalizing w with
  | nil => simp [runJobs]
  | cons f rest ih =>
    have hf : (job f).result ≠ none := h f (List.mem_cons_self _ _)
    obtain ⟨r, hr⟩ := Option.ne_none_iff_exists'.1 hf
    have ih' := ih (w.apply (job f)) (fun g hg => h g (List.mem_cons_of_mem _ hg))
    simp only [runJobs, hr, List.filterMap_cons, List.flatMap_cons]
    refine ⟨ih'.1, ?_, ?_⟩
    · rw [ih'.2.1]
    · rw [ih'.2.2]
      simp [World.apply, List.append_assoc]

/-- Whatever happens, the trace grows by events of the jobs. -/
theorem runJobs_trace (job : File → JobOutcome) (l : List File) (w : World) :
    ∃ t, (runJobs job l w).1.trace = w.trace ++ t ∧
      ∀ e ∈ t, ∃ f ∈ l, e ∈ (job f).events := by
  induction l generalizing w with
  | nil => exact ⟨[], by simp [runJobs]⟩
  | cons f rest ih =>
    cases hr : (job f).result with
    | none =>
      refine ⟨(job f).events, by simp [runJobs, hr, World.apply], ?_⟩
      intro e he
      exact ⟨f, List.mem_cons_self _ _, he⟩
    | some r =>
      obtain ⟨t, ht, hmem⟩ := ih (w.apply (job f))
      refine ⟨(job f).events ++ t, ?_, ?_⟩
      · simp only [runJobs, hr]
        rw [ht]
        simp [World.apply, List.append_assoc]
      · intro e he
        rcases List.mem_append.1 he with he | he
        · exact ⟨f, List.mem_cons_self _ _, he⟩
        · obtain ⟨g, hg, hge⟩ := hmem e he
          exact ⟨g, List.mem_cons_of_mem _ hg, hge⟩

/-- A path no job writes keeps its content. -/
theorem runJobs_fs_frame (job : File → JobOutcome) (l : List File) (w : World) (k : String)
    (h : ∀ f ∈ l, ∀ p d, (job f).write = some (p, d) → p ≠ k) :
    assocGet (runJobs job l w).1.fs k = assocGet w.fs k := by
  induction l generalizing w with
  | nil => simp [runJobs]
  | cons f rest ih =>
    have hstep : assocGet (w.apply (job f)).fs k = assocGet w.fs k := by
      cases hw : (job f).write with
      | none => simp [World.apply, hw]
      | some pd =>
        obtain ⟨p, d⟩ := pd
        have hp : p ≠ k := h f (List.mem_cons_self _ _) p d hw
        simp only [World.apply, hw]
        exact assocGet_assocSet_ne _ _ (Ne.symm hp)
    cases hr : (job f).result with
    | none => simpa [runJobs, hr] using hstep
    | some r =>
      have := ih (w.apply (job f)) (fun g hg => h g (List.mem_cons_of_mem _ hg))
      simp only [runJobs, hr]
      rw [this, hstep]

/-- Jobs that write nothing leave the file system as it is. -/
theorem runJobs_fs_of_no_write (job : File → JobOutcome) (l : List File) (w : World)
    (h : ∀ f ∈ l, (job f).write = none) :
    (runJobs job l w).1.fs = w.fs := by
  induction l generalizing w with
  | nil => simp [runJobs]
  | cons f rest ih =>
    have hw : (job f).write = none := h f (List.mem_cons_self _ _)
    have hstep : (w.apply (job f)).fs = w.fs := by simp [World.apply, hw]
    cases hr : (job f).result with
    | none => simpa [runJobs, hr] using hstep
    | some r =>
      have := ih (w.apply (job f)) (fun g hg => h g (List.mem_cons_of_mem _ hg))
      simp only [runJobs, hr]
      rw [this, hstep]

/-- When all jobs complete and no two of them write the same path, the file a
job wrote holds what that job wrote. -/
theorem runJobs_fs_written (job : File → JobOutcome) (l : List File) (w : World)
    (hsome : ∀ f ∈ l, (job f).result ≠ none)
    (hpair : l.Pairwise (fun a b => ∀ p d p' d', (job a).write = some (p, d) →
      (job b).write = some (p', d') → p ≠ p'))
    (f : File) (hf : f ∈ l) (p : String) (d : Bytes) (hw : (job f).write = some (p, d)) :
    assocGet (runJobs job l w).1.fs p = some d := by
  induction l generalizing w with
  | nil => simp at hf
  | cons g rest ih =>
    obtain ⟨r, hr⟩ := Option.ne_none_iff_exists'.1 (hsome g (List.mem_cons_self _ _))
    have hp := List.pairwise_cons.1 hpair
    simp only [runJobs, hr]
    rcases List.mem_cons.1 hf with h | h
    · subst h
      rw [runJobs_fs_frame job rest _ p]
      · simp only [World.apply, hw]
        exact assocGet_assocSet_self _ _ _
      · intro g hg p' d' hw'
        exact Ne.symm (hp.1 g hg p d p' d' hw hw')
    · exact ih _ (fun g hg => hsome g (List.mem_cons_of_mem _ hg)) hp.2 h

/-- Jobs start no goroutine. -/
theorem runJobs_started (job : File → JobOutcome) (l : List File) (w : World) :
    (runJobs job l w).1.started = w.started := by
  induction l generalizing w with
  | nil => simp [runJobs]
  | cons f rest ih =>
    cases hr : (job f).result with
    | none => simp [runJobs, hr, World.apply]
    | some r =>
      have := ih (w.apply (job f))
      simp only [runJobs, hr]
      rw [this]
      simp [World.apply]

/-! ### The spawn loop -/

/-- From the counter value `i` on the loop starts one goroutine for every
value of the counter below the worker amount. -/
theorem startWorkersFrom_eq (n : Int) (kind : Worker) :
    ∀ (k : Nat) (i : Int), (n - i).toNat = k →
      startWorkersFrom n kind i = List.replicate k kind
  | 0, i, h => by
    rw [startWorkersFrom]
    have : ¬ i < n := by omega
    simp [this]
  | k + 1, i, h => by
    rw [startWorkersFrom]
    have : i < n := by omega
    simp [this, startWorkersFrom_eq n kind k (i + 1) (by omega), List.replicate_succ]

/-- The loop starts as many goroutines as the worker amount says, none for an
amount below zero. -/
theorem startWorkers_eq (n : Int) (kind : Worker) :
    startWorkers n kind = List.replicate n.toNat kind := by
  unfold startWorkers
  exact startWorkersFrom_eq n kind n.toNat 0 (by simp)

theorem World_start_nil (w : World) : w.start [] = w := by
  cases w
  simp [World.start]

@[simp] theorem World_start_fs (w : World) (ws : List Worker) : (w.start ws).fs = w.fs := rfl

@[simp] theorem World_start_trace (w : World) (ws : List Worker) :
    (w.start ws).trace = w.trace := rfl

@[simp] theorem World_start_started (w : World) (ws : List Worker) :
    (w.start ws).started = w.started ++ ws := rfl

/-! ### The stages -/

/-- A pool stage with the spawn loop evaluated. -/
theorem runPool_eq (kind : Worker) (n : Int) (sched : Nat → Nat) (job : File → JobOutcome)
    (jobs : List File) (w : World) :
    runPool kind n sched job jobs w =
      if n ≤ 0 ∧ jobs ≠ [] then { outcome := .deadlocked, world := w }
      else if (runJobs job (completionOrder n.toNat sched jobs)
          (w.start (List.replicate n.toNat kind))).2.2 then
        { outcome := .returned (runJobs job (completionOrder n.toNat sched jobs)
            (w.start (List.replicate n.toNat kind))).2.1
          world := (runJobs job (completionOrder n.toNat sched jobs)
            (w.start (List.replicate n.toNat kind))).1 }
      else
        { outcome := .panicked
          world := (runJobs job (completionOrder n.toNat sched jobs)
            (w.start (List.replicate n.toNat kind))).1 } := by
  unfold runPool
  simp only [startWorkers_eq, List.length_replicate]
  by_cases h : n ≤ 0
  · have h0 : n.toNat = 0 := by omega
    by_cases hj : jobs = []
    · simp [h, h0, hj]
    · simp [h, h0, hj, World_start_nil]
  · have h0 : n.toNat ≠ 0 := by omega
    have h' : List.replicate n.toNat kind ≠ [] := by simp [h0]
    simp [h, h']

/-- A pool stage starts as many workers as the worker amount says, whatever
the jobs. -/
theorem runPool_started (kind : Worker) (n : Int) (sched : Nat → Nat) (job : File → JobOutcome)
    (jobs : List File) (w : World) :
    (runPool kind n sched job jobs w).world.started
      = w.started ++ List.replicate n.toNat kind := by
  rw [runPool_eq]
  split
  · next h =>
    have h0 : n.toNat = 0 := by omega
    simp [h0]
  · split <;> simp [runJobs_started, World.start]

theorem runPool_of_all_some (kind : Worker) (n : Int) (sched : Nat → Nat)
    (job : File → JobOutcome)
    (jobs : List File) (w : World) (hn : 0 < n ∨ jobs = [])
    (h : ∀ f ∈ jobs, (job f).result ≠ none) :
    (runPool kind n sched job jobs w).outcome =
        .returned ((completionOrder n.toNat sched jobs).filterMap (fun f => (job f).result)) ∧
    (runPool kind n sched job jobs w).world
      = (runJobs job (completionOrder n.toNat sched jobs)
          (w.start (List.replicate n.toNat kind))).1 := by
  have hperm := completionOrder_perm n.toNat sched jobs
  have hall : ∀ f ∈ completionOrder n.toNat sched jobs, (job f).result ≠ none :=
    fun f hf => h f (hperm.mem_iff.1 hf)
  have hrun := runJobs_of_all_some job _ (w.start (List.replicate n.toNat kind)) hall
  have hguard : ¬ (n ≤ 0 ∧ jobs ≠ []) := by
    rintro ⟨h1, h2⟩
    rcases hn with hn | hn
    · omega
    · exact h2 hn
  rw [runPool_eq]
  simp only [hguard, if_false, hrun.1, if_true, hrun.2.1, and_self]

theorem runPool_deadlocked (kind : Worker) (n : Int) (sched : Nat → Nat)
    (job : File → JobOutcome)
    (jobs : List File) (w : World) (hn : n ≤ 0) (hj : jobs ≠ []) :
    runPool kind n sched job jobs w = { outcome := .deadlocked, world := w } := by
  rw [runPool_eq]
  simp [hn, hj]

/-- The world after a pool stage: the trace grows by events of its jobs. -/
theorem runPool_trace (kind : Worker) (n : Int) (sched : Nat → Nat) (job : File → JobOutcome)
    (jobs : List File) (w : World) :
    ∃ t, (runPool kind n sched job jobs w).world.trace = w.trace ++ t ∧
      ∀ e ∈ t, ∃ f ∈ jobs, e ∈ (job f).events := by
  rw [runPool_eq]
  split
  · exact ⟨[], by simp⟩
  · obtain ⟨t, ht, hmem⟩ := runJobs_trace job (completionOrder n.toNat sched jobs)
      (w.start (List.replicate n.toNat kind))
    have hperm := completionOrder_perm n.toNat sched jobs
    refine ⟨t, ?_, fun e he => ?_⟩
    · have ht' : (runJobs job (completionOrder n.toNat sched jobs)
          (w.start (List.replicate n.toNat kind))).1.trace = w.trace ++ t := ht
      split <;> exact ht'
    · obtain ⟨f, hf, hfe⟩ := hmem e he
      exact ⟨f, hperm.mem_iff.1 hf, hfe⟩

/-- A pool stage never returns a top-level error of its own: the download
stage ends with `return errs, nil`, a panic or a deadlock. -/
theorem downloadStage_no_error (P : Pkg) (os : OS) (sched : Nat → Nat) (fl : FileList)
    (outDir : String) (errs : ErrMap) (w : World) (m : ErrMap) (e : GoError) :
    (downloadStage P os sched fl outDir errs w).outcome ≠ .returned (m, some e) := by
  cases h : (runPool .download P.workerAmount sched (downloadJob P os outDir) fl w).outcome <;>
    simp [downloadStage, h]

/-! ### Entries of a map -/

theorem mem_of_assocGet {κ ν : Type} [DecidableEq κ] (m : List (κ × ν)) (k : κ) (v : ν)
    (h : assocGet m k = some v) : (k, v) ∈ m := by
  induction m with
  | nil => simp [assocGet] at h
  | cons a t ih =>
    obtain ⟨k₀, v₀⟩ := a
    by_cases h₀ : k₀ = k
    · subst h₀
      simp [assocGet] at h
      simp [h]
    · simp [assocGet, h₀] at h
      exact List.mem_cons_of_mem _ (ih h)

theorem mem_assocSet {κ ν : Type} [DecidableEq κ] (m : List (κ × ν)) (k : κ) (v : ν)
    (kv : κ × ν) (h : kv ∈ assocSet m k v) : kv = (k, v) ∨ kv ∈ m := by
  induction m with
  | nil => simpa [assocSet] using h
  | cons a t ih =>
    obtain ⟨k₀, v₀⟩ := a
    by_cases h₀ : k₀ = k
    · simp only [assocSet, h₀, if_true, List.mem_cons] at h
      rcases h with h | h
      · exact Or.inl h
      · exact Or.inr (List.mem_cons_of_mem _ h)
    · simp only [assocSet, h₀, if_false, List.mem_cons] at h
      rcases h with h | h
      · exact Or.inr (h ▸ List.mem_cons_self _ _)
      · rcases ih h with h | h
        · exact Or.inl h
        · exact Or.inr (List.mem_cons_of_mem _ h)

theorem mem_collect (errs : ErrMap) (rs : List FileWorkerError) (kv : Int × Option GoError)
    (h : kv ∈ collect errs rs) : kv ∈ errs ∨ ∃ r ∈ rs, kv = (r.FileId, r.Error) := by
  induction rs generalizing errs with
  | nil => exact Or.inl (by simpa [collect] using h)
  | cons r rs ih =>
    have h' : kv ∈ collect (assocSet errs r.FileId r.Error) rs := by simpa [collect] using h
    rcases ih _ h' with h₁ | ⟨r', hr', h₁⟩
    · rcases mem_assocSet _ _ _ _ h₁ with h₂ | h₂
      · exact Or.inr ⟨r, List.mem_cons_self _ _, h₂⟩
      · exact Or.inl h₂
    · exact Or.inr ⟨r', List.mem_cons_of_mem _ hr', h₁⟩

theorem bake_of_no_error (errs preErrs : ErrMap) (h : ∀ kv ∈ preErrs, kv.2 = none) :
    bake errs preErrs = errs := by
  induction preErrs generalizing errs with
  | nil => simp [bake]
  | cons kv t ih =>
    have h₀ : kv.2 = none := h kv (List.mem_cons_self _ _)
    have := ih errs (fun kv' hkv => h kv' (List.mem_cons_of_mem _ hkv))
    simpa [bake, h₀] using this

theorem presignedError_eq_false (preErrs : ErrMap) (h : ∀ kv ∈ preErrs, kv.2 = none) :
    presignedError preErrs = false := by
  simp only [presignedError, List.any_eq_false]
  intro kv hkv
  simp [h kv hkv]

theorem presignedError_eq_true (preErrs : ErrMap) (k : Int) (e : GoError)
    (h : assocGet preErrs k = some (some e)) : presignedError preErrs = true := by
  simp only [presignedError, List.any_eq_true]
  exact ⟨(k, some e), mem_of_assocGet _ _ _ h, by simp⟩

/-! ### The resolver stage -/

/-- The resolver stage with at least one worker (or nothing to do) returns the
map collected from one result per item, taken in completion order; it writes
no file and adds one detail request per item to the trace. -/
theorem GetPresigned_spec (P : Pkg) (sched : Nat → Nat) (c : ProductionAPIGetter)
    (fl : FileList) (w : World) (hn : 0 < P.workerAmount ∨ fl = []) :
    (FileList.GetPresigned P sched c fl w).outcome =
      .returned (collect [] ((completionOrder P.workerAmount.toNat sched fl).map
        (presignedResult P c))) ∧
    (FileList.GetPresigned P sched c fl w).world.fs = w.fs ∧
    (FileList.GetPresigned P sched c fl w).world.trace =
      w.trace ++ (completionOrder P.workerAmount.toNat sched fl).map
        (fun f => getEvent { Endpoint := SHOW, Id := f.ID } f [GetPresignedAuxParamFunc P]) := by
  have hsome : ∀ f ∈ fl, (presignedJob P c f).result ≠ none := by
    intro f _
    simp [presignedJob]
  have hperm := completionOrder_perm P.workerAmount.toNat sched fl
  have hpool := runPool_of_all_some .presigned P.workerAmount sched (presignedJob P c) fl w hn
    hsome
  have hrun := runJobs_of_all_some (presignedJob P c)
    (completionOrder P.workerAmount.toNat sched fl)
    (w.start (List.replicate P.workerAmount.toNat .presigned))
    (fun f hf => hsome f (hperm.mem_iff.1 hf))
  have hfs := runJobs_fs_of_no_write (presignedJob P c)
    (completionOrder P.workerAmount.toNat sched fl)
    (w.start (List.replicate P.workerAmount.toNat .presigned))
    (fun f _ => by simp [presignedJob])
  have hres : (completionOrder P.workerAmount.toNat sched fl).filterMap
        (fun f => (presignedJob P c f).result) =
      (completionOrder P.workerAmount.toNat sched fl).map
        (presignedResult P c) := by
    induction completionOrder P.workerAmount.toNat sched fl with
    | nil => rfl
    | cons a t ih =>
      simp only [presignedJob] at ih ⊢
      simp [ih]
  have hev : (completionOrder P.workerAmount.toNat sched fl).flatMap
        (fun f => (presignedJob P c f).events) =
      (completionOrder P.workerAmount.toNat sched fl).map
        (fun f => getEvent { Endpoint := SHOW, Id := f.ID } f [GetPresignedAuxParamFunc P]) := by
    induction completionOrder P.workerAmount.toNat sched fl with
    | nil => rfl
    | cons a t ih =>
      simp only [List.flatMap_cons, List.map_cons, ih]
      rfl
  unfold FileList.GetPresigned
  simp only [hpool.1, hpool.2, hres, hfs, hrun.2.2, hev, and_self, World_start_fs,
    World_start_trace]

/-- The ids the resolver reports are pairwise different when the ids of the
batch are, read after resolution. -/
theorem nodup_noPresigned_ids (P : Pkg) (c : ProductionAPIGetter) (fl : FileList)
    (h : ((resolved P c fl).map File.ID).Nodup) :
    ((noPresigned fl).map (fun f => (presignedResult P c f).FileId)).Nodup := by
  have hsub : ((noPresigned fl).map
      (fun v => (if v.Presigned = "" then (presignedJob P c v).file else v).ID)).Sublist
      (fl.map (fun v => (if v.Presigned = "" then (presignedJob P c v).file else v).ID)) :=
    (List.filter_sublist fl).map _
  have heq : (noPresigned fl).map (fun f => (presignedResult P c f).FileId) =
      (noPresigned fl).map
        (fun v => (if v.Presigned = "" then (presignedJob P c v).file else v).ID) := by
    apply List.map_congr_left
    intro f hf
    have hp : f.Presigned = "" := by simpa [noPresigned] using (List.mem_filter.1 hf).2
    simp [hp, presignedJob, presignedResult]
  rw [heq]
  refine hsub.nodup ?_
  simpa [resolved, List.map_map, Function.comp_def] using h

/-- With pairwise different ids, the map of the resolver stage holds for every
item the error of that item's own request. -/
theorem GetPresigned_entry (P : Pkg) (sched : Nat → Nat) (c : ProductionAPIGetter)
    (fl : FileList) (w : World) (hn : 0 < P.workerAmount ∨ fl = [])
    (hnd : (fl.map (fun f => (presignedResult P c f).FileId)).Nodup) :
    ∃ m, (FileList.GetPresigned P sched c fl w).outcome = .returned m ∧
      (∀ f ∈ fl, assocGet m (presignedResult P c f).FileId = some (presignedResult P c f).Error) ∧
      (∀ k, k ∈ assocKeys m ↔ k ∈ fl.map (fun f => (presignedResult P c f).FileId)) ∧
      (∀ kv ∈ m, ∃ f ∈ fl, kv = ((presignedResult P c f).FileId, (presignedResult P c f).Error)) := by
  have hspec := GetPresigned_spec P sched c fl w hn
  have hperm := completionOrder_perm P.workerAmount.toNat sched fl
  refine ⟨_, hspec.1, ?_, ?_, ?_⟩
  · intro f hf
    apply assocGet_collect_of_mem
    · rw [List.map_map]
      exact ((hperm.map _).nodup_iff).2 hnd
    · exact List.mem_map.2 ⟨f, hperm.mem_iff.2 hf, rfl⟩
  · intro k
    rw [mem_assocKeys_collect, List.map_map]
    simp only [assocKeys, List.map_nil, List.not_mem_nil, false_or]
    exact (hperm.map _).mem_iff
  · intro kv hkv
    rcases mem_collect _ _ _ hkv with h | ⟨r, hr, h⟩
    · simp at h
    · obtain ⟨f, hf, rfl⟩ := List.mem_map.1 hr
      exact ⟨f, hperm.mem_iff.1 hf, h⟩

/-! ### The download job -/

/-- A download job completes exactly when the content GET yields a response. -/
theorem downloadJob_result_ne_none_iff (P : Pkg) (os : OS) (outDir : String) (f : File) :
    (downloadJob P os outDir f).result ≠ none ↔ (P.PlainGetter f.Presigned).1 ≠ none := by
  unfold downloadJob
  split
  · next h => simp [h]
  · next resp err h =>
    simp only [h]
    split
    · simp
    · split
      · simp
      · split
        · simp
        · split <;> simp

/-- The result of a download job carries the id of its item. -/
theorem downloadJob_result_id (P : Pkg) (os : OS) (outDir : String) (f : File)
    (r : FileWorkerError) (h : (downloadJob P os outDir f).result = some r) : r.FileId = f.ID := by
  unfold downloadJob at h
  split at h
  · simp at h
  · split at h
    · simp at h
      rw [← h]
    · split at h
      · simp at h
        rw [← h]
      · split at h
        · simp at h
          rw [← h]
        · split at h <;> (simp at h; rw [← h])

/-- A download job makes no detail request. -/
theorem downloadJob_events_ne_detail (P : Pkg) (os : OS) (outDir : String) (f : File)
    (e : Event) (he : e ∈ (downloadJob P os outDir f).events)
    (r : Resource) (m : File) (q : Values) : e ≠ .detail r m q := by
  unfold downloadJob at he
  split at he
  · simp at he
    simp [he]
  · split at he
    · simp at he
      simp [he]
    · split at he
      · simp at he
        rcases he with he | he <;> simp [he]
      · split at he
        · simp at he
          rcases he with he | he | he | he <;> simp [he]
        · split at he <;>
          · simp at he
            rcases he with he | he | he | he <;> simp [he]

/-- A response with a status other than 200: the job reports the status error,
writes nothing, and its only call is the content GET. -/
theorem downloadJob_bad_status (P : Pkg) (os : OS) (outDir : String) (f : File)
    (resp : Response) (err : Option GoError)
    (hget : P.PlainGetter f.Presigned = (some resp, err)) (hst : resp.StatusCode ≠ 200) :
    (downloadJob P os outDir f).result
      = some { Error := some (errorsNew (statusMessage resp.StatusCode)), FileId := f.ID } ∧
    (downloadJob P os outDir f).write = none ∧
    (downloadJob P os outDir f).events = [.contentGet f.Presigned] := by
  simp [downloadJob, hget, hst]

/-- A successful transfer: status 200, no transport error, the file can be
created and the copy succeeds. -/
theorem downloadJob_ok (P : Pkg) (os : OS) (outDir : String) (f : File) (body : Bytes)
    (hget : P.PlainGetter f.Presigned = (some { StatusCode := 200, Body := body }, none))
    (hcreate : os.Create (outDir ++ "/" ++ f.OriginalName) = none)
    (hcopy : os.Copy (outDir ++ "/" ++ f.OriginalName) body = none) :
    (downloadJob P os outDir f).result = some { Error := none, FileId := f.ID } ∧
    (downloadJob P os outDir f).write
      = some (os.FileAt (outDir ++ "/" ++ f.OriginalName), body) := by
  simp [downloadJob, hget, hcreate, hcopy]

/-- A job writes, if anything, the file its path `outDir/OriginalName` names. -/
theorem downloadJob_write_path (P : Pkg) (os : OS) (outDir : String) (f : File)
    (p : String) (d : Bytes) (h : (downloadJob P os outDir f).write = some (p, d)) :
    p = os.FileAt (outDir ++ "/" ++ f.OriginalName) := by
  unfold downloadJob at h
  split at h
  · simp at h
  · split at h
    · simp at h
    · split at h
      · simp at h
      · split at h
        · simp at h
        · split at h <;> (simp at h; exact h.1.symm)

/-! ### Pools that return -/

theorem runJobs_ok_iff (job : File → JobOutcome) (l : List File) (w : World) :
    (runJobs job l w).2.2 = true ↔ ∀ f ∈ l, (job f).result ≠ none := by
  induction l generalizing w with
  | nil => simp [runJobs]
  | cons f rest ih =>
    cases hr : (job f).result with
    | none => simp [runJobs, hr]
    | some r =>
      have := ih (w.apply (job f))
      simp only [runJobs, hr, this, List.mem_cons, forall_eq_or_imp]
      simp

/-- A pool stage returns exactly when it has a worker (or no job) and every
job completes; it then returns one result per job, in completion order. -/
theorem runPool_returned_iff (kind : Worker) (n : Int) (sched : Nat → Nat)
    (job : File → JobOutcome)
    (jobs : List File) (w : World) (rs : List FileWorkerError) :
    (runPool kind n sched job jobs w).outcome = .returned rs ↔
      (0 < n ∨ jobs = []) ∧ (∀ f ∈ jobs, (job f).result ≠ none) ∧
      rs = (completionOrder n.toNat sched jobs).filterMap (fun f => (job f).result) := by
  constructor
  · intro h
    have hperm := completionOrder_perm n.toNat sched jobs
    rw [runPool_eq] at h
    split at h
    · simp at h
    · next hguard =>
      have hn : 0 < n ∨ jobs = [] := by
        by_cases hj : jobs = []
        · exact Or.inr hj
        · left
          by_contra hle
          exact hguard ⟨by omega, hj⟩
      by_cases hb : (runJobs job (completionOrder n.toNat sched jobs)
          (w.start (List.replicate n.toNat kind))).2.2 = true
      · have hall := (runJobs_ok_iff job _ _).1 hb
        have hrun := runJobs_of_all_some job _ (w.start (List.replicate n.toNat kind)) hall
        simp only [hb, if_true, Outcome.returned.injEq] at h
        refine ⟨hn, fun f hf => hall f (hperm.mem_iff.2 hf), ?_⟩
        rw [← h, hrun.2.1]
      · simp [hb] at h
  · rintro ⟨hn, hall, rfl⟩
    exact (runPool_of_all_some kind n sched job jobs w hn hall).1

/-- The outcome of the download stage when it returns. -/
theorem downloadStage_returned_iff (P : Pkg) (os : OS) (sched : Nat → Nat) (fl : FileList)
    (outDir : String) (errs : ErrMap) (w : World) (m : ErrMap) (e : Option GoError) :
    (downloadStage P os sched fl outDir errs w).outcome = .returned (m, e) ↔
      (0 < P.workerAmount ∨ fl = []) ∧ (∀ f ∈ fl, (P.PlainGetter f.Presigned).1 ≠ none) ∧
      e = none ∧
      m = collect errs ((completionOrder P.workerAmount.toNat sched fl).filterMap
        (fun f => (downloadJob P os outDir f).result)) := by
  have key := runPool_returned_iff .download P.workerAmount sched (downloadJob P os outDir) fl w
  constructor
  · intro h
    cases hr : (runPool .download P.workerAmount sched (downloadJob P os outDir) fl w).outcome with
    | returned rs =>
      obtain ⟨h1, h2, h3⟩ := (key rs).1 hr
      simp only [downloadStage, hr, Outcome.returned.injEq, Prod.mk.injEq] at h
      refine ⟨h1, fun f hf => (downloadJob_result_ne_none_iff P os outDir f).1 (h2 f hf),
        h.2.symm, ?_⟩
      rw [← h.1, h3]
    | panicked => simp [downloadStage, hr] at h
    | deadlocked => simp [downloadStage, hr] at h
  · rintro ⟨h1, h2, rfl, rfl⟩
    have hr := (key _).2 ⟨h1, fun f hf => (downloadJob_result_ne_none_iff P os outDir f).2 (h2 f hf),
      rfl⟩
    simp [downloadStage, hr]

/-- The world the download stage leaves is the world its jobs leave. -/
theorem downloadStage_world (P : Pkg) (os : OS) (sched : Nat → Nat) (fl : FileList)
    (outDir : String) (errs : ErrMap) (w : World) :
    (downloadStage P os sched fl outDir errs w).world =
      (runPool .download P.workerAmount sched (downloadJob P os outDir) fl w).world := by
  cases hr : (runPool .download P.workerAmount sched (downloadJob P os outDir) fl w).outcome <;>
    simp [downloadStage, hr]

/-- The download stage leaves the batch as it found it. -/
theorem downloadStage_files (P : Pkg) (os : OS) (sched : Nat → Nat) (fl : FileList)
    (outDir : String) (errs : ErrMap) (w : World) :
    (downloadStage P os sched fl outDir errs w).files = fl := by
  cases hr : (runPool .download P.workerAmount sched (downloadJob P os outDir) fl w).outcome <;>
    simp [downloadStage, hr]

/-- The download stage blocks forever exactly when it has no worker and some item. -/
theorem downloadStage_deadlocked_iff (P : Pkg) (os : OS) (sched : Nat → Nat) (fl : FileList)
    (outDir : String) (errs : ErrMap) (w : World) :
    (downloadStage P os sched fl outDir errs w).outcome = .deadlocked ↔
      P.workerAmount ≤ 0 ∧ fl ≠ [] := by
  have heq := runPool_eq .download P.workerAmount sched (downloadJob P os outDir) fl w
  by_cases hg : P.workerAmount ≤ 0 ∧ fl ≠ []
  · rw [if_pos hg] at heq
    simp [downloadStage, heq, hg]
  · rw [if_neg hg] at heq
    by_cases hb : (runJobs (downloadJob P os outDir)
        (completionOrder P.workerAmount.toNat sched fl)
        (w.start (List.replicate P.workerAmount.toNat .download))).2.2 = true
    · rw [if_pos hb] at heq
      simp [downloadStage, heq, hg]
    · rw [if_neg hb] at heq
      simp [downloadStage, heq, hg]

/-- The world the resolver stage leaves is the world its jobs leave. -/
theorem GetPresigned_world (P : Pkg) (sched : Nat → Nat) (c : ProductionAPIGetter)
    (fl : FileList) (w : World) :
    (FileList.GetPresigned P sched c fl w).world =
      (runPool .presigned P.workerAmount sched (presignedJob P c) fl w).world := by
  cases hr : (runPool .presigned P.workerAmount sched (presignedJob P c) fl w).outcome <;>
    simp [FileList.GetPresigned, hr]

/-- Without a worker the resolver stage blocks forever on a non-empty list,
having made no call. -/
theorem GetPresigned_deadlocked (P : Pkg) (sched : Nat → Nat) (c : ProductionAPIGetter)
    (fl : FileList) (w : World) (hn : P.workerAmount ≤ 0) (hne : fl ≠ []) :
    (FileList.GetPresigned P sched c fl w).outcome = .deadlocked ∧
    (FileList.GetPresigned P sched c fl w).world = w := by
  have hpool := runPool_deadlocked .presigned P.workerAmount sched (presignedJob P c) fl w hn hne
  simp [FileList.GetPresigned, hpool]

/-! ### The ways through `DownloadFiles` with a valid destination -/

theorem resolved_of_noPresigned_nil (P : Pkg) (c : ProductionAPIGetter) (fl : FileList)
    (hnil : noPresigned fl = []) : resolved P c fl = fl := by
  unfold resolved
  conv_rhs => rw [← List.map_id fl]
  apply List.map_congr_left
  intro f hf
  have : ¬ f.Presigned = "" := by
    intro hp
    have : f ∈ noPresigned fl := List.mem_filter.2 ⟨hf, by simpa using hp⟩
    rw [hnil] at this
    simp at this
  simp [this]

theorem afterResolver_of_nil (P : Pkg) (sched : Nat → Nat) (c : ProductionAPIGetter)
    (fl : FileList) (w : World) (hnil : noPresigned fl = []) :
    afterResolver P sched c fl w = w := by
  simp [afterResolver, hnil]

theorem afterResolver_of_ne (P : Pkg) (sched : Nat → Nat) (c : ProductionAPIGetter)
    (fl : FileList) (w : World) (hne : noPresigned fl ≠ []) :
    afterResolver P sched c fl w = (FileList.GetPresigned P sched c (noPresigned fl) w).world := by
  simp [afterResolver, hne]

/-- The resolver stage writes no file. -/
theorem afterResolver_fs (P : Pkg) (sched : Nat → Nat) (c : ProductionAPIGetter)
    (fl : FileList) (w : World) : (afterResolver P sched c fl w).fs = w.fs := by
  by_cases hnil : noPresigned fl = []
  · rw [afterResolver_of_nil P sched c fl w hnil]
  · rw [afterResolver_of_ne P sched c fl w hnil]
    by_cases hn : 0 < P.workerAmount
    · exact (GetPresigned_spec P sched c (noPresigned fl) w (Or.inl hn)).2.1
    · rw [(GetPresigned_deadlocked P sched c (noPresigned fl) w (by omega) hnil).2]

/-- The calls of the resolver stage: one detail request per item without a
presigned url, in completion order. -/
theorem afterResolver_trace (P : Pkg) (sched : Nat → Nat) (c : ProductionAPIGetter)
    (fl : FileList) (w : World) (hn : 0 < P.workerAmount ∨ noPresigned fl = []) :
    (afterResolver P sched c fl w).trace =
      w.trace ++ (completionOrder P.workerAmount.toNat sched (noPresigned fl)).map
        (fun f => getEvent { Endpoint := SHOW, Id := f.ID } f [GetPresignedAuxParamFunc P]) := by
  by_cases hnil : noPresigned fl = []
  · rw [afterResolver_of_nil P sched c fl w hnil, hnil]
    simp [completionOrder, completionOrderAux]
  · rw [afterResolver_of_ne P sched c fl w hnil]
    exact (GetPresigned_spec P sched c (noPresigned fl) w hn).2.2

/-- The workers of the resolver stage: none when every item holds a presigned
url, else as many as the worker amount says. -/
theorem afterResolver_started (P : Pkg) (sched : Nat → Nat) (c : ProductionAPIGetter)
    (fl : FileList) (w : World) :
    (afterResolver P sched c fl w).started =
      w.started ++ (if noPresigned fl = [] then []
        else List.replicate P.workerAmount.toNat Worker.presigned) := by
  by_cases hnil : noPresigned fl = []
  · rw [afterResolver_of_nil P sched c fl w hnil]
    simp [hnil]
  · rw [afterResolver_of_ne P sched c fl w hnil, GetPresigned_world, runPool_started]
    simp [hnil]

/-- With a valid destination `DownloadFiles` ends in one of three ways: it
blocks in the resolver stage for want of a worker, it returns the map of the
resolver stage because that map reports a failure, or it is the download stage
run over the whole updated batch, starting from an empty map in the world the
resolver stage left. -/
theorem DownloadFiles_stages (P : Pkg) (os : OS) (sched₁ sched₂ : Nat → Nat)
    (c : ProductionAPIGetter) (fl : FileList) (outDir : String) (w : World)
    (hdir : os.Stat outDir = some true) :
    (P.workerAmount ≤ 0 ∧ noPresigned fl ≠ [] ∧
      FileList.DownloadFiles P os sched₁ sched₂ c fl outDir w
        = { outcome := .deadlocked, files := fl, world := w }) ∨
    (0 < P.workerAmount ∧ noPresigned fl ≠ [] ∧
      ∃ preErrs, (FileList.GetPresigned P sched₁ c (noPresigned fl) w).outcome
          = .returned preErrs ∧ presignedError preErrs = true ∧
        FileList.DownloadFiles P os sched₁ sched₂ c fl outDir w
          = { outcome := .returned (preErrs, none), files := resolved P c fl
              world := afterResolver P sched₁ c fl w }) ∨
    ((0 < P.workerAmount ∨ noPresigned fl = []) ∧
      FileList.DownloadFiles P os sched₁ sched₂ c fl outDir w =
        downloadStage P os sched₂ (resolved P c fl) outDir []
          (afterResolver P sched₁ c fl w)) := by
  by_cases hnil : noPresigned fl = []
  · right; right
    refine ⟨Or.inr hnil, ?_⟩
    rw [afterResolver_of_nil P sched₁ c fl w hnil, resolved_of_noPresigned_nil P c fl hnil]
    simp [FileList.DownloadFiles, hdir, hnil]
  · have hlen : 0 < (noPresigned fl).length := List.length_pos.2 hnil
    rw [afterResolver_of_ne P sched₁ c fl w hnil]
    by_cases hn : 0 < P.workerAmount
    · have hspec := GetPresigned_spec P sched₁ c (noPresigned fl) w (Or.inl hn)
      by_cases herr : presignedError (collect [] ((completionOrder P.workerAmount.toNat sched₁
          (noPresigned fl)).map (presignedResult P c))) = true
      · right; left
        refine ⟨hn, hnil, _, hspec.1, herr, ?_⟩
        simp [FileList.DownloadFiles, hdir, hlen, hspec.1, herr]
      · right; right
        refine ⟨Or.inl hn, ?_⟩
        have hnone : ∀ kv ∈ collect [] ((completionOrder P.workerAmount.toNat sched₁
            (noPresigned fl)).map (presignedResult P c)), kv.2 = none := by
          intro kv hkv
          by_contra hne
          apply herr
          simp only [presignedError, List.any_eq_true]
          exact ⟨kv, hkv, by simpa using hne⟩
        simp [FileList.DownloadFiles, hdir, hlen, hspec.1, herr, bake_of_no_error _ _ hnone]
    · left
      have hd := GetPresigned_deadlocked P sched₁ c (noPresigned fl) w (by omega) hnil
      refine ⟨by omega, hnil, ?_⟩
      simp [FileList.DownloadFiles, hdir, hlen, hd.1, hd.2]

/-- Short-circuit: when the request of some item without a presigned url
fails, `DownloadFiles` returns the map of the resolver stage and a nil error,
in the world the resolver stage left. -/
theorem DownloadFiles_abort (P : Pkg) (os : OS) (sched₁ sched₂ : Nat → Nat)
    (c : ProductionAPIGetter) (fl : FileList) (outDir : String) (w : World)
    (hdir : os.Stat outDir = some true) (hn : 0 < P.workerAmount)
    (hnd : ((resolved P c fl).map File.ID).Nodup)
    (x : File) (hx : x ∈ noPresigned fl) (hfail : (File.GetPresignedUrl P c x).2 ≠ none) :
    ∃ preErrs,
      (FileList.GetPresigned P sched₁ c (noPresigned fl) w).outcome = .returned preErrs ∧
      (FileList.DownloadFiles P os sched₁ sched₂ c fl outDir w).outcome
        = .returned (preErrs, none) ∧
      (FileList.DownloadFiles P os sched₁ sched₂ c fl outDir w).world
        = (FileList.GetPresigned P sched₁ c (noPresigned fl) w).world ∧
      (FileList.DownloadFiles P os sched₁ sched₂ c fl outDir w).files = resolved P c fl := by
  obtain ⟨m, hm, hget, -, -⟩ := GetPresigned_entry P sched₁ c (noPresigned fl) w (Or.inl hn)
    (nodup_noPresigned_ids P c fl hnd)
  obtain ⟨e, he⟩ := Option.ne_none_iff_exists'.1 hfail
  have herr : presignedError m = true := by
    apply presignedError_eq_true m (presignedResult P c x).FileId e
    rw [hget x hx]
    simp [presignedResult, he]
  have hlen : 0 < (noPresigned fl).length := List.length_pos_of_mem hx
  refine ⟨m, hm, ?_, ?_, ?_⟩ <;>
    simp [FileList.DownloadFiles, hdir, hlen, hm, herr]

/-- The regular path: when every request of the resolver stage succeeds,
`DownloadFiles` is the download stage run on the updated batch, starting from
an empty map, in the world the resolver stage left. -/
theorem DownloadFiles_fetch (P : Pkg) (os : OS) (sched₁ sched₂ : Nat → Nat)
    (c : ProductionAPIGetter) (fl : FileList) (outDir : String) (w : World)
    (hdir : os.Stat outDir = some true) (hn : 0 < P.workerAmount ∨ noPresigned fl = [])
    (hok : ∀ f ∈ noPresigned fl, (File.GetPresignedUrl P c f).2 = none) :
    FileList.DownloadFiles P os sched₁ sched₂ c fl outDir w =
      downloadStage P os sched₂ (resolved P c fl) outDir [] (afterResolver P sched₁ c fl w) := by
  rcases DownloadFiles_stages P os sched₁ sched₂ c fl outDir w hdir with h | h | h
  · rcases hn with hn | hn
    · omega
    · exact absurd hn h.2.1
  · obtain ⟨hpos, hne, preErrs, hpre, herr, -⟩ := h
    exfalso
    have hspec := GetPresigned_spec P sched₁ c (noPresigned fl) w (Or.inl hpos)
    have hperm := completionOrder_perm P.workerAmount.toNat sched₁ (noPresigned fl)
    rw [hspec.1] at hpre
    have hm := Outcome.returned.inj hpre
    have hnone : ∀ kv ∈ preErrs, kv.2 = none := by
      intro kv hkv
      rw [← hm] at hkv
      rcases mem_collect _ _ _ hkv with h | ⟨r, hr, h⟩
      · simp at h
      · obtain ⟨f, hf, rfl⟩ := List.mem_map.1 hr
        rw [h]
        exact hok f (hperm.mem_iff.1 hf)
    rw [presignedError_eq_false _ hnone] at herr
    simp at herr
  · exact h.2

/-- When the resolver pool has no worker and some item needs a credential, the
call blocks forever in `GetPresigned`. -/
theorem DownloadFiles_resolver_deadlock (P : Pkg) (os : OS) (sched₁ sched₂ : Nat → Nat)
    (c : ProductionAPIGetter) (fl : FileList) (outDir : String) (w : World)
    (hdir : os.Stat outDir = some true) (hn : P.workerAmount ≤ 0) (hne : noPresigned fl ≠ []) :
    (FileList.DownloadFiles P os sched₁ sched₂ c fl outDir w).outcome = .deadlocked := by
  rcases DownloadFiles_stages P os sched₁ sched₂ c fl outDir w hdir with h | h | h
  · rw [h.2.2]
  · omega
  · rcases h.1 with h1 | h1
    · omega
    · exact absurd h1 hne

theorem resolved_eq_nil_iff (P : Pkg) (c : ProductionAPIGetter) (fl : FileList) :
    resolved P c fl = [] ↔ fl = [] := by
  simp [resolved]

/-- With a valid destination and no failed resolution, `DownloadFiles` returns
exactly when the pools have a worker (or the batch is empty) and every content
GET yields a response; the map is then collected from one result per item of
the updated batch, and the top-level error is nil. -/
theorem DownloadFiles_regular_returned_iff (P : Pkg) (os : OS) (sched₁ sched₂ : Nat → Nat)
    (c : ProductionAPIGetter) (fl : FileList) (outDir : String) (w : World)
    (hdir : os.Stat outDir = some true)
    (hok : ∀ f ∈ noPresigned fl, (File.GetPresignedUrl P c f).2 = none)
    (m : ErrMap) (e : Option GoError) :
    (FileList.DownloadFiles P os sched₁ sched₂ c fl outDir w).outcome = .returned (m, e) ↔
      (0 < P.workerAmount ∨ fl = []) ∧
      (∀ f ∈ resolved P c fl, (P.PlainGetter f.Presigned).1 ≠ none) ∧
      e = none ∧
      m = collect [] ((completionOrder P.workerAmount.toNat sched₂ (resolved P c fl)).filterMap
        (fun f => (downloadJob P os outDir f).result)) := by
  by_cases hn : 0 < P.workerAmount ∨ noPresigned fl = []
  · rw [DownloadFiles_fetch P os sched₁ sched₂ c fl outDir w hdir hn hok,
      downloadStage_returned_iff, resolved_eq_nil_iff]
  · have hle : P.workerAmount ≤ 0 := by
      by_contra h
      exact hn (Or.inl (by omega))
    have hne : noPresigned fl ≠ [] := fun h => hn (Or.inr h)
    have hfl : fl ≠ [] := by
      rintro rfl
      exact hne rfl
    rw [DownloadFiles_resolver_deadlock P os sched₁ sched₂ c fl outDir w hdir hle hne]
    constructor
    · intro h
      simp at h
    · rintro ⟨h | h, -⟩
      · omega
      · exact absurd h hfl

/-- The results of jobs that all complete carry the ids of the items. -/
theorem downloadResults_ids (P : Pkg) (os : OS) (outDir : String) (l : List File)
    (h : ∀ f ∈ l, (P.PlainGetter f.Presigned).1 ≠ none) :
    (l.filterMap (fun f => (downloadJob P os outDir f).result)).map FileWorkerError.FileId
      = l.map File.ID := by
  induction l with
  | nil => rfl
  | cons f rest ih =>
    have hf := (downloadJob_result_ne_none_iff P os outDir f).2 (h f (List.mem_cons_self _ _))
    obtain ⟨r, hr⟩ := Option.ne_none_iff_exists'.1 hf
    have hid := downloadJob_result_id P os outDir f r hr
    simp [hr, hid, ih (fun g hg => h g (List.mem_cons_of_mem _ hg))]

/-- The map collected by the download stage: with pairwise different ids it
has one key per item, and the entry of an item is the error of its own job. -/
theorem downloadMap_spec (P : Pkg) (os : OS) (sched : Nat → Nat) (outDir : String)
    (fl : FileList) (hresp : ∀ f ∈ fl, (P.PlainGetter f.Presigned).1 ≠ none)
    (hnd : (fl.map File.ID).Nodup) :
    (assocKeys (collect [] ((completionOrder P.workerAmount.toNat sched fl).filterMap
        (fun f => (downloadJob P os outDir f).result)))).Perm (fl.map File.ID) ∧
    ∀ f ∈ fl, ∀ r, (downloadJob P os outDir f).result = some r →
      assocGet (collect [] ((completionOrder P.workerAmount.toNat sched fl).filterMap
        (fun f => (downloadJob P os outDir f).result))) f.ID = some r.Error := by
  have hperm := completionOrder_perm P.workerAmount.toNat sched fl
  have hids := downloadResults_ids P os outDir (completionOrder P.workerAmount.toNat sched fl)
    (fun f hf => hresp f (hperm.mem_iff.1 hf))
  have hnd' : (((completionOrder P.workerAmount.toNat sched fl).filterMap
      (fun f => (downloadJob P os outDir f).result)).map FileWorkerError.FileId).Nodup := by
    rw [hids]
    exact ((hperm.map _).nodup_iff).2 hnd
  constructor
  · refine (assocKeys_collect_perm _ hnd').trans ?_
    rw [hids]
    exact hperm.map _
  · intro f hf r hr
    have hmem : r ∈ (completionOrder P.workerAmount.toNat sched fl).filterMap
        (fun f => (downloadJob P os outDir f).result) :=
      List.mem_filterMap.2 ⟨f, hperm.mem_iff.2 hf, hr⟩
    have := assocGet_collect_of_mem [] _ hnd' r hmem
    rwa [downloadJob_result_id P os outDir f r hr] at this

/-- With a valid destination, and a worker for the resolver stage if it has an
item, the trace of `DownloadFiles` is the trace of the resolver stage, one
detail request per item without a presigned url, followed by events of download
jobs of items of the updated batch. -/
theorem DownloadFiles_trace (P : Pkg) (os : OS) (sched₁ sched₂ : Nat → Nat)
    (c : ProductionAPIGetter) (fl : FileList) (outDir : String) (w : World)
    (hdir : os.Stat outDir = some true) (hn : 0 < P.workerAmount ∨ noPresigned fl = []) :
    ∃ t₂, (FileList.DownloadFiles P os sched₁ sched₂ c fl outDir w).world.trace =
        w.trace ++ (completionOrder P.workerAmount.toNat sched₁ (noPresigned fl)).map
          (fun f => getEvent { Endpoint := SHOW, Id := f.ID } f [GetPresignedAuxParamFunc P])
        ++ t₂ ∧
      ∀ e ∈ t₂, ∃ f ∈ resolved P c fl, e ∈ (downloadJob P os outDir f).events := by
  have htr := afterResolver_trace P sched₁ c fl w hn
  rcases DownloadFiles_stages P os sched₁ sched₂ c fl outDir w hdir with h | h | h
  · rcases hn with hn | hn
    · omega
    · exact absurd hn h.2.1
  · obtain ⟨-, -, preErrs, -, -, heq⟩ := h
    refine ⟨[], ?_, by simp⟩
    rw [heq]
    simp [htr]
  · obtain ⟨t, ht, hmem⟩ := runPool_trace .download P.workerAmount sched₂
      (downloadJob P os outDir) (resolved P c fl) (afterResolver P sched₁ c fl w)
    refine ⟨t, ?_, hmem⟩
    rw [h.2, downloadStage_world, ht, htr]

theorem detailRequests_append (t₁ t₂ : List Event) :
    detailRequests (t₁ ++ t₂) = detailRequests t₁ ++ detailRequests t₂ := by
  simp [detailRequests]

theorem detailRequests_getEvents (P : Pkg) (l : List File) :
    detailRequests (l.map
      (fun f => getEvent { Endpoint := SHOW, Id := f.ID } f [GetPresignedAuxParamFunc P]))
    = l.map (fun f => getEvent { Endpoint := SHOW, Id := f.ID } f [GetPresignedAuxParamFunc P]) := by
  induction l with
  | nil => rfl
  | cons a t ih =>
    simp only [detailRequests] at ih
    simp [detailRequests, getEvent, ih]

theorem detailRequests_of_download (P : Pkg) (os : OS) (outDir : String) (t : List Event)
    (h : ∀ e ∈ t, ∃ f, e ∈ (downloadJob P os outDir f).events) : detailRequests t = [] := by
  simp only [detailRequests, List.filter_eq_nil_iff]
  intro e he
  obtain ⟨f, hf⟩ := h e he
  have := downloadJob_events_ne_detail P os outDir f e hf
  cases e with
  | detail r m q => exact absurd rfl (this r m q)
  | _ => simp

/-! ### Content GETs -/

/-- Every download job makes exactly one content GET, for the url of its item. -/
theorem contentGets_downloadJob (P : Pkg) (os : OS) (outDir : String) (f : File) :
    contentGets (downloadJob P os outDir f).events = [f.Presigned] := by
  unfold downloadJob
  split
  · simp [contentGets]
  · split
    · simp [contentGets]
    · split
      · simp [contentGets]
      · split
        · simp [contentGets]
        · split <;> simp [contentGets]

theorem contentGets_append (t₁ t₂ : List Event) :
    contentGets (t₁ ++ t₂) = contentGets t₁ ++ contentGets t₂ := by
  simp [contentGets]

theorem contentGets_getEvents (P : Pkg) (l : List File) :
    contentGets (l.map
      (fun f => getEvent { Endpoint := SHOW, Id := f.ID } f [GetPresignedAuxParamFunc P])) = [] := by
  simp only [contentGets, List.filterMap_eq_nil_iff]
  intro e he
  obtain ⟨f, -, rfl⟩ := List.mem_map.1 he
  simp [getEvent]

theorem contentGets_downloadJobs (P : Pkg) (os : OS) (outDir : String) (l : List File) :
    contentGets (l.flatMap (fun f => (downloadJob P os outDir f).events))
      = l.map File.Presigned := by
  induction l with
  | nil => rfl
  | cons f rest ih =>
    rw [List.flatMap_cons, contentGets_append, contentGets_downloadJob, ih]
    rfl

/-- With a valid destination, a pool with a worker, no failed resolution and a
response to every content GET, the fetch stage makes exactly one content GET per
item of the batch, for the url the item holds after resolution. -/
theorem DownloadFiles_content_gets (P : Pkg) (os : OS) (sched₁ sched₂ : Nat → Nat)
    (c : ProductionAPIGetter) (fl : FileList) (outDir : String) (w : World)
    (hdir : os.Stat outDir = some true) (hn : 0 < P.workerAmount)
    (hok : ∀ f ∈ noPresigned fl, (File.GetPresignedUrl P c f).2 = none)
    (hresp : ∀ f ∈ resolved P c fl, (P.PlainGetter f.Presigned).1 ≠ none) :
    ∃ t, (FileList.DownloadFiles P os sched₁ sched₂ c fl outDir w).world.trace = w.trace ++ t ∧
      (contentGets t).Perm ((resolved P c fl).map File.Presigned) := by
  have hperm := completionOrder_perm P.workerAmount.toNat sched₂ (resolved P c fl)
  have hsome : ∀ f ∈ resolved P c fl, (downloadJob P os outDir f).result ≠ none :=
    fun f hf => (downloadJob_result_ne_none_iff P os outDir f).2 (hresp f hf)
  have hrun := runJobs_of_all_some (downloadJob P os outDir)
    (completionOrder P.workerAmount.toNat sched₂ (resolved P c fl))
    ((afterResolver P sched₁ c fl w).start (List.replicate P.workerAmount.toNat .download))
    (fun f hf => hsome f (hperm.mem_iff.1 hf))
  have hpre := afterResolver_trace P sched₁ c fl w (Or.inl hn)
  refine ⟨(completionOrder P.workerAmount.toNat sched₁ (noPresigned fl)).map
      (fun f => getEvent { Endpoint := SHOW, Id := f.ID } f [GetPresignedAuxParamFunc P]) ++
    (completionOrder P.workerAmount.toNat sched₂ (resolved P c fl)).flatMap
      (fun f => (downloadJob P os outDir f).events), ?_, ?_⟩
  · rw [DownloadFiles_fetch P os sched₁ sched₂ c fl outDir w hdir (Or.inl hn) hok,
      downloadStage_world, (runPool_of_all_some _ _ _ _ _ _ (Or.inl hn) hsome).2, hrun.2.2,
      World_start_trace, hpre, List.append_assoc]
  · rw [contentGets_append, contentGets_getEvents, contentGets_downloadJobs, List.nil_append]
    exact hperm.map _

/-- When the service echoes the requested id, resolution leaves the ids of the
batch as they were on entry. -/
theorem resolved_ids_of_echo (P : Pkg) (c : ProductionAPIGetter) (fl : FileList)
    (h : ∀ f ∈ fl, f.Presigned = "" → (File.GetPresignedUrl P c f).1.ID = f.ID) :
    (resolved P c fl).map File.ID = fl.map File.ID := by
  unfold resolved
  rw [List.map_map]
  apply List.map_congr_left
  intro f hf
  by_cases hp : f.Presigned = ""
  · simp [hp, presignedJob, h f hf hp]
  · simp [hp]

/-! ### Files written by the download stage -/

/-- Paths that name pairwise different files make the jobs write different files. -/
theorem downloadJobs_pairwise (P : Pkg) (os : OS) (outDir : String) (l : List File)
    (h : (l.map (fun f => os.FileAt (outDir ++ "/" ++ f.OriginalName))).Nodup) :
    l.Pairwise (fun a b => ∀ p d p' d', (downloadJob P os outDir a).write = some (p, d) →
      (downloadJob P os outDir b).write = some (p', d') → p ≠ p') := by
  have hp : l.Pairwise (fun a b => os.FileAt (outDir ++ "/" ++ a.OriginalName)
      ≠ os.FileAt (outDir ++ "/" ++ b.OriginalName)) := List.pairwise_map.1 h
  refine hp.imp ?_
  intro a b hab p d p' d' ha hb hpp
  rw [downloadJob_write_path P os outDir a p d ha,
    downloadJob_write_path P os outDir b p' d' hb] at hpp
  exact hab hpp

/-- A job writes a file only after a content GET that answered 200 with no
transport error. -/
theorem downloadJob_write_inv (P : Pkg) (os : OS) (outDir : String) (f : File)
    (k : String) (d : Bytes) (h : (downloadJob P os outDir f).write = some (k, d)) :
    ∃ resp, P.PlainGetter f.Presigned = (some resp, none) ∧ resp.StatusCode = 200 ∧
      k = os.FileAt (outDir ++ "/" ++ f.OriginalName) := by
  unfold downloadJob at h
  split at h
  · simp at h
  · next resp err hget =>
    split at h
    · simp at h
    · next hst =>
      split at h
      · simp at h
      · split at h
        · simp at h
        · refine ⟨resp, hget, by simpa using hst, ?_⟩
          split at h <;> (simp at h; exact h.1.symm)

/-- A job creates a file only after a content GET that answered 200 with no
transport error, and then the file named after its item. -/
theorem downloadJob_create_inv (P : Pkg) (os : OS) (outDir : String) (f : File) (p : String)
    (h : Event.create p ∈ (downloadJob P os outDir f).events) :
    ∃ resp, P.PlainGetter f.Presigned = (some resp, none) ∧ resp.StatusCode = 200 ∧
      p = outDir ++ "/" ++ f.OriginalName := by
  unfold downloadJob at h
  split at h
  · simp at h
  · next resp err hget =>
    split at h
    · simp at h
    · next hst =>
      split at h
      · simp at h
      · refine ⟨resp, hget, by simpa using hst, ?_⟩
        split at h
        · simpa using h
        · split at h <;> simpa using h

/-- A file whose content changed over a list of jobs was written by one of them. -/
theorem runJobs_fs_changed (job : File → JobOutcome) (l : List File) (w : World) (k : String)
    (h : assocGet (runJobs job l w).1.fs k ≠ assocGet w.fs k) :
    ∃ f ∈ l, ∃ d, (job f).write = some (k, d) := by
  by_contra hno
  apply h
  apply runJobs_fs_frame
  intro f hf p d hw hp
  exact hno ⟨f, hf, d, hp ▸ hw⟩

/-- The keys of the file system stay pairwise different over a list of jobs. -/
theorem runJobs_fs_nodup (job : File → JobOutcome) (l : List File) (w : World)
    (h : (assocKeys w.fs).Nodup) : (assocKeys (runJobs job l w).1.fs).Nodup := by
  induction l generalizing w with
  | nil => simpa [runJobs] using h
  | cons f rest ih =>
    have hstep : (assocKeys (w.apply (job f)).fs).Nodup := by
      cases hw : (job f).write with
      | none => simpa [World.apply, hw] using h
      | some pd =>
        obtain ⟨p, d⟩ := pd
        simp only [World.apply, hw]
        exact nodup_assocKeys_assocSet _ _ _ h
    cases hr : (job f).result with
    | none => simpa [runJobs, hr] using hstep
    | some r =>
      have := ih (w.apply (job f)) hstep
      simpa [runJobs, hr] using this

/-! ### Panics and deadlocks of a pool -/

theorem runPool_not_deadlocked (kind : Worker) (n : Int) (sched : Nat → Nat)
    (job : File → JobOutcome)
    (jobs : List File) (w : World) (hn : 0 < n ∨ jobs = []) :
    (runPool kind n sched job jobs w).outcome ≠ .deadlocked := by
  have hguard : ¬ (n ≤ 0 ∧ jobs ≠ []) := by
    rintro ⟨h1, h2⟩
    rcases hn with hn | hn
    · omega
    · exact h2 hn
  rw [runPool_eq]
  simp only [hguard, if_false]
  split <;> simp

/-- A pool with a worker panics as soon as one job does, whatever the schedule. -/
theorem runPool_panicked (kind : Worker) (n : Int) (sched : Nat → Nat) (job : File → JobOutcome)
    (jobs : List File) (w : World) (hn : 0 < n) (f : File) (hf : f ∈ jobs)
    (hpanic : (job f).result = none) :
    (runPool kind n sched job jobs w).outcome = .panicked := by
  cases h : (runPool kind n sched job jobs w).outcome with
  | returned rs =>
    have := ((runPool_returned_iff kind n sched job jobs w rs).1 h).2.1 f hf
    exact absurd hpanic this
  | panicked => rfl
  | deadlocked => exact absurd h (runPool_not_deadlocked kind n sched job jobs w (Or.inl hn))

/-- With a valid destination, a pool with a worker and no failed resolution,
`DownloadFiles` panics when the content GET of some item yields no response,
whatever the schedule. -/
theorem DownloadFiles_panics_of_no_response (P : Pkg) (os : OS) (sched₁ sched₂ : Nat → Nat)
    (c : ProductionAPIGetter) (fl : FileList) (outDir : String) (w : World)
    (hdir : os.Stat outDir = some true) (hn : 0 < P.workerAmount)
    (hok : ∀ f ∈ noPresigned fl, (File.GetPresignedUrl P c f).2 = none)
    (f : File) (hf : f ∈ resolved P c fl) (hnil : (P.PlainGetter f.Presigned).1 = none) :
    (FileList.DownloadFiles P os sched₁ sched₂ c fl outDir w).outcome = .panicked := by
  have hres : (downloadJob P os outDir f).result = none := by
    by_contra h
    exact (downloadJob_result_ne_none_iff P os outDir f).1 h hnil
  have hpool := runPool_panicked .download P.workerAmount sched₂ (downloadJob P os outDir)
    (resolved P c fl) (afterResolver P sched₁ c fl w) hn f hf hres
  rw [DownloadFiles_fetch P os sched₁ sched₂ c fl outDir w hdir (Or.inl hn) hok]
  simp [downloadStage, hpool]

/-! ### The world after the download stage -/

theorem runPool_fs_frame (kind : Worker) (n : Int) (sched : Nat → Nat) (job : File → JobOutcome)
    (jobs : List File) (w : World) (k : String)
    (h : ∀ f ∈ jobs, ∀ p d, (job f).write = some (p, d) → p ≠ k) :
    assocGet (runPool kind n sched job jobs w).world.fs k = assocGet w.fs k := by
  have hperm := completionOrder_perm n.toNat sched jobs
  have hframe := runJobs_fs_frame job (completionOrder n.toNat sched jobs)
    (w.start (List.replicate n.toNat kind)) k
    (fun f hf => h f (hperm.mem_iff.1 hf))
  rw [runPool_eq]
  split
  · rfl
  · split <;> exact hframe

/-- A file whose content changed over a pool stage was written by one of its jobs. -/
theorem runPool_fs_changed (kind : Worker) (n : Int) (sched : Nat → Nat)
    (job : File → JobOutcome)
    (jobs : List File) (w : World) (k : String)
    (h : assocGet (runPool kind n sched job jobs w).world.fs k ≠ assocGet w.fs k) :
    ∃ f ∈ jobs, ∃ d, (job f).write = some (k, d) := by
  by_contra hno
  apply h
  apply runPool_fs_frame
  intro f hf p d hw hp
  exact hno ⟨f, hf, d, hp ▸ hw⟩

/-- With a valid destination, a file whose content `DownloadFiles` changed was
written by the download job of an item of the updated batch. -/
theorem DownloadFiles_fs_changed (P : Pkg) (os : OS) (sched₁ sched₂ : Nat → Nat)
    (c : ProductionAPIGetter) (fl : FileList) (outDir : String) (w : World)
    (hdir : os.Stat outDir = some true) (k : String)
    (h : assocGet (FileList.DownloadFiles P os sched₁ sched₂ c fl outDir w).world.fs k
      ≠ assocGet w.fs k) :
    ∃ f ∈ resolved P c fl, ∃ d, (downloadJob P os outDir f).write = some (k, d) := by
  have hfs := afterResolver_fs P sched₁ c fl w
  rcases DownloadFiles_stages P os sched₁ sched₂ c fl outDir w hdir with hs | hs | hs
  · rw [hs.2.2] at h
    exact absurd rfl h
  · obtain ⟨-, -, preErrs, -, -, heq⟩ := hs
    rw [heq] at h
    simp only [hfs] at h
    exact absurd rfl h
  · rw [hs.2, downloadStage_world] at h
    rw [← hfs] at h
    exact runPool_fs_changed _ _ _ _ _ _ k h

/-- With a valid destination, every file creation among the calls of
`DownloadFiles` belongs to an item whose content GET answered 200 with no
transport error, and creates the file named after that item. -/
theorem DownloadFiles_creates (P : Pkg) (os : OS) (sched₁ sched₂ : Nat → Nat)
    (c : ProductionAPIGetter) (fl : FileList) (outDir : String) (w : World)
    (hdir : os.Stat outDir = some true) :
    ∃ t, (FileList.DownloadFiles P os sched₁ sched₂ c fl outDir w).world.trace = w.trace ++ t ∧
      ∀ p, Event.create p ∈ t → ∃ g ∈ resolved P c fl, ∃ resp,
        P.PlainGetter g.Presigned = (some resp, none) ∧ resp.StatusCode = 200 ∧
        p = outDir ++ "/" ++ g.OriginalName := by
  by_cases hn : 0 < P.workerAmount ∨ noPresigned fl = []
  · obtain ⟨t₂, ht, hmem⟩ := DownloadFiles_trace P os sched₁ sched₂ c fl outDir w hdir hn
    refine ⟨_, by rw [ht, List.append_assoc], ?_⟩
    intro p hp
    rcases List.mem_append.1 hp with h | h
    · obtain ⟨g, -, hg⟩ := List.mem_map.1 h
      simp [getEvent] at hg
    · obtain ⟨g, hg, hge⟩ := hmem _ h
      obtain ⟨resp, h1, h2, h3⟩ := downloadJob_create_inv P os outDir g p hge
      exact ⟨g, hg, resp, h1, h2, h3⟩
  · rcases DownloadFiles_stages P os sched₁ sched₂ c fl outDir w hdir with hs | hs | hs
    · refine ⟨[], by rw [hs.2.2]; simp, by simp⟩
    · exact absurd (Or.inl hs.1) hn
    · exact absurd hs.1 hn

/-- With a valid destination every top-level error `DownloadFiles` returns is nil. -/
theorem DownloadFiles_error_nil (P : Pkg) (os : OS) (sched₁ sched₂ : Nat → Nat)
    (c : ProductionAPIGetter) (fl : FileList) (outDir : String) (w : World)
    (hdir : os.Stat outDir = some true) (m : ErrMap) (e : Option GoError)
    (h : (FileList.DownloadFiles P os sched₁ sched₂ c fl outDir w).outcome = .returned (m, e)) :
    e = none := by
  rcases DownloadFiles_stages P os sched₁ sched₂ c fl outDir w hdir with hs | hs | hs
  · rw [hs.2.2] at h
    simp at h
  · obtain ⟨-, -, preErrs, -, -, heq⟩ := hs
    rw [heq] at h
    simp only [Outcome.returned.injEq, Prod.mk.injEq] at h
    exact h.2.symm
  · rw [hs.2] at h
    exact ((downloadStage_returned_iff _ _ _ _ _ _ _ _ _).1 h).2.2.1

/-- With a valid destination, a positive worker amount and a response to every
content GET, `DownloadFiles` returns a map and a nil error. -/
theorem DownloadFiles_returns (P : Pkg) (os : OS) (sched₁ sched₂ : Nat → Nat)
    (c : ProductionAPIGetter) (fl : FileList) (outDir : String) (w : World)
    (hdir : os.Stat outDir = some true) (hn : 0 < P.workerAmount)
    (hresp : ∀ g ∈ resolved P c fl, (P.PlainGetter g.Presigned).1 ≠ none) :
    ∃ m, (FileList.DownloadFiles P os sched₁ sched₂ c fl outDir w).outcome
      = .returned (m, none) := by
  rcases DownloadFiles_stages P os sched₁ sched₂ c fl outDir w hdir with hs | hs | hs
  · omega
  · obtain ⟨-, -, preErrs, -, -, heq⟩ := hs
    exact ⟨preErrs, by rw [heq]⟩
  · rw [hs.2]
    exact ⟨_, (downloadStage_returned_iff _ _ _ _ _ _ _ _ _).2 ⟨Or.inl hn, hresp, rfl, rfl⟩⟩

/-! ### Maps with the same entries -/

/-- Two maps that hold the same entry for every item of a list, and no other
key, answer every lookup alike. -/
theorem assocGet_eq_of_entries {ι : Type} (L : List ι) (key : ι → Int)
    (val : ι → Option GoError) (m m' : ErrMap)
    (h : ∀ x ∈ L, assocGet m (key x) = some (val x))
    (h' : ∀ x ∈ L, assocGet m' (key x) = some (val x))
    (hk : ∀ k, k ∈ assocKeys m ↔ k ∈ L.map key)
    (hk' : ∀ k, k ∈ assocKeys m' ↔ k ∈ L.map key) :
    ∀ k, assocGet m k = assocGet m' k := by
  intro k
  by_cases hmem : k ∈ L.map key
  · obtain ⟨x, hx, rfl⟩ := List.mem_map.1 hmem
    rw [h x hx, h' x hx]
  · have h1 : assocGet m k = none := (assocGet_eq_none_iff m k).2 (fun hh => hmem ((hk k).1 hh))
    have h2 : assocGet m' k = none := (assocGet_eq_none_iff m' k).2 (fun hh => hmem ((hk' k).1 hh))
    rw [h1, h2]

/-! ### The workers of `DownloadFiles` -/

/-- With a valid destination, the goroutines `DownloadFiles` starts are those
of the stages it runs: the workers of the resolver stage when some item lacks a
presigned url, then the workers of the download stage unless the call stops
after the resolver stage; each stage starts as many as the worker amount says.
When no resolution fails the download stage is run. -/
theorem DownloadFiles_started (P : Pkg) (os : OS) (sched₁ sched₂ : Nat → Nat)
    (c : ProductionAPIGetter) (fl : FileList) (outDir : String) (w : World)
    (hdir : os.Stat outDir = some true) :
    ∃ B, (B = [] ∨ B = List.replicate P.workerAmount.toNat Worker.download) ∧
      (FileList.DownloadFiles P os sched₁ sched₂ c fl outDir w).world.started =
        w.started
          ++ (if noPresigned fl = [] then []
              else List.replicate P.workerAmount.toNat Worker.presigned)
          ++ B ∧
      ((∀ f ∈ noPresigned fl, (File.GetPresignedUrl P c f).2 = none) →
        B = List.replicate P.workerAmount.toNat Worker.download) := by
  have hst := afterResolver_started P sched₁ c fl w
  by_cases hN : 0 < P.workerAmount ∨ noPresigned fl = []
  · by_cases hok : ∀ f ∈ noPresigned fl, (File.GetPresignedUrl P c f).2 = none
    · refine ⟨_, Or.inr rfl, ?_, fun _ => rfl⟩
      rw [DownloadFiles_fetch P os sched₁ sched₂ c fl outDir w hdir hN hok, downloadStage_world,
        runPool_started, hst]
    · rcases DownloadFiles_stages P os sched₁ sched₂ c fl outDir w hdir with hs | hs | hs
      · rcases hN with hN | hN
        · omega
        · exact absurd hN hs.2.1
      · obtain ⟨-, -, preErrs, -, -, heq⟩ := hs
        refine ⟨[], Or.inl rfl, ?_, fun h => absurd h hok⟩
        rw [heq]
        simp [hst]
      · refine ⟨_, Or.inr rfl, ?_, fun _ => rfl⟩
        rw [hs.2, downloadStage_world, runPool_started, hst]
  · have hle : P.workerAmount ≤ 0 := by
      by_contra h
      exact hN (Or.inl (by omega))
    have hne : noPresigned fl ≠ [] := fun h => hN (Or.inr h)
    have h0 : P.workerAmount.toNat = 0 := by omega
    rcases DownloadFiles_stages P os sched₁ sched₂ c fl outDir w hdir with hs | hs | hs
    · refine ⟨_, Or.inr rfl, ?_, fun _ => rfl⟩
      rw [hs.2.2]
      simp [h0]
    · omega
    · exact absurd hs.1 hN

/-! ## The claims -/

/-- C1: `FileList.DownloadFiles` returns a non-nil top-level error if and only
if `outDir` fails the exists-and-is-a-directory check (`os.Stat` fails or the
path is not a directory); no per-item failure of the resolver or of a transfer
produces one. -/
theorem DownloadFiles_error_iff (P : Pkg) (os : OS) (sched₁ sched₂ : Nat → Nat)
    (c : ProductionAPIGetter) (fl : FileList) (outDir : String) (w : World) :
    (∃ m e, (FileList.DownloadFiles P os sched₁ sched₂ c fl outDir w).outcome
        = .returned (m, some e)) ↔ os.Stat outDir ≠ some true := by
  constructor
  · rintro ⟨m, e, h⟩ hdir
    unfold FileList.DownloadFiles at h
    simp only [hdir, ne_eq, not_true_eq_false, if_false] at h
    split at h
    · split at h
      · split at h
        · simp at h
        · exact downloadStage_no_error _ _ _ _ _ _ _ _ _ h
      · simp at h
      · simp at h
    · exact downloadStage_no_error _ _ _ _ _ _ _ _ _ h
  · intro hdir
    exact ⟨[], errorsNew "Output dir is not a directory.", by
      simp [FileList.DownloadFiles, hdir]⟩

/-- C2 (amended): for a batch whose ids are pairwise different, sent to a valid
destination, with no failed credential resolution, every map `DownloadFiles`
returns has exactly one entry per item: its keys are a permutation of the ids
of the batch (read after resolution, as the workers read them), and the
top-level error is nil.  It returns such a map whenever the pool has a worker
and every content GET yields a response. -/
theorem DownloadFiles_keys (P : Pkg) (os : OS) (sched₁ sched₂ : Nat → Nat)
    (c : ProductionAPIGetter) (fl : FileList) (outDir : String) (w : World)
    (hdir : os.Stat outDir = some true)
    (hok : ∀ f ∈ noPresigned fl, (File.GetPresignedUrl P c f).2 = none)
    (hnd : ((resolved P c fl).map File.ID).Nodup) :
    (∀ m e, (FileList.DownloadFiles P os sched₁ sched₂ c fl outDir w).outcome = .returned (m, e) →
      e = none ∧ (assocKeys m).Perm ((resolved P c fl).map File.ID)) ∧
    (0 < P.workerAmount → (∀ f ∈ resolved P c fl, (P.PlainGetter f.Presigned).1 ≠ none) →
      ∃ m, (FileList.DownloadFiles P os sched₁ sched₂ c fl outDir w).outcome
        = .returned (m, none)) := by
  have key := DownloadFiles_regular_returned_iff P os sched₁ sched₂ c fl outDir w hdir hok
  constructor
  · intro m e h
    obtain ⟨-, hresp, he, hm⟩ := (key m e).1 h
    refine ⟨he, ?_⟩
    rw [hm]
    exact (downloadMap_spec P os sched₂ outDir (resolved P c fl) hresp hnd).1
  · intro hn hresp
    exact ⟨_, (key _ none).2 ⟨Or.inl hn, hresp, rfl, rfl⟩⟩

/-- C2, at a concrete input: `exBatch` downloaded to `out`. -/
theorem DownloadFiles_keys_witness :
    exOS.Stat "out" = some true ∧
    ((resolved exPkg exGetter exBatch).map File.ID).Nodup ∧
    ∃ m, (FileList.DownloadFiles exPkg exOS exSched exSched exGetter exBatch "out" {}).outcome
        = .returned (m, none) ∧
      (assocKeys m).Perm ((resolved exPkg exGetter exBatch).map File.ID) := by
  have h := DownloadFiles_keys exPkg exOS exSched exSched exGetter exBatch "out" {}
    (by decide) (by decide) (by decide)
  obtain ⟨m, hm⟩ := h.2 (by decide) (by decide)
  exact ⟨by decide, by decide, m, hm, (h.1 m none hm).2⟩

/-- C2 as stated fails in two ways.  In `exBatchFail` (ids 2, 7, 1, pairwise
different) the resolution of item 7 fails: the map returned has the keys 7 and
1 only.  With the missing directory `nodir` the map returned for the two items
of `exBatch` is empty. -/
theorem DownloadFiles_keys_counterexample :
    (exBatchFail.map File.ID).Nodup ∧
    (FileList.DownloadFiles exPkg exOS exSched exSched exGetter exBatchFail "out" {}).outcome
      = .returned ([(7, some (errorsNew "Response not ok.")), (1, none)], none) ∧
    (2 : Int) ∈ exBatchFail.map File.ID ∧
    (2 : Int) ∉ assocKeys [((7 : Int), some (errorsNew "Response not ok.")), (1, none)] ∧
    (exBatch.map File.ID).Nodup ∧
    (FileList.DownloadFiles exPkg exOS exSched exSched exGetter exBatch "nodir" {}).outcome
      = .returned ([], some (errorsNew "Output dir is not a directory.")) ∧
    (1 : Int) ∈ exBatch.map File.ID := by
  simp only [FileList.DownloadFiles, FileList.GetPresigned, downloadStage, runPool_eq]
  refine ⟨by decide, by rfl, by decide, by decide, by decide, by rfl, by decide⟩

/-- C3: when `outDir` does not exist or is not a directory, `DownloadFiles`
returns at once with the top-level error and an empty result map; the batch and
the world are untouched, so no detail request and no content GET is made. -/
theorem DownloadFiles_fail_fast (P : Pkg) (os : OS) (sched₁ sched₂ : Nat → Nat)
    (c : ProductionAPIGetter) (fl : FileList) (outDir : String) (w : World)
    (hdir : os.Stat outDir ≠ some true) :
    (FileList.DownloadFiles P os sched₁ sched₂ c fl outDir w).outcome
        = .returned ([], some (errorsNew "Output dir is not a directory.")) ∧
    (FileList.DownloadFiles P os sched₁ sched₂ c fl outDir w).world = w ∧
    (FileList.DownloadFiles P os sched₁ sched₂ c fl outDir w).files = fl := by
  simp [FileList.DownloadFiles, hdir]

/-- C3, at a concrete input: the batch `exBatch` sent to the missing directory `nodir`. -/
theorem DownloadFiles_fail_fast_witness :
    exOS.Stat "nodir" ≠ some true ∧
    (FileList.DownloadFiles exPkg exOS exSched exSched exGetter exBatch "nodir" {}).outcome
        = .returned ([], some (errorsNew "Output dir is not a directory.")) ∧
    (FileList.DownloadFiles exPkg exOS exSched exSched exGetter exBatch "nodir" {}).world = {} ∧
    (FileList.DownloadFiles exPkg exOS exSched exSched exGetter exBatch "nodir" {}).files
        = exBatch :=
  ⟨by decide, DownloadFiles_fail_fast exPkg exOS exSched exSched exGetter exBatch "nodir" {}
    (by decide)⟩

/-- C4: with a valid destination, every detail request `DownloadFiles` makes
is a `Get` on the SHOW endpoint for an item whose `Presigned` is empty on entry,
with that item as model, and there is at most one per such item; an item that
holds a credential is never requested, and when every item holds one no detail
request is made.  Unless the call blocks forever for want of a worker, which a
positive worker amount rules out, there is exactly one request per such item,
and the batch afterwards holds for each such item the model its `Get` call
answered and every other item as it was. -/
theorem DownloadFiles_detail_requests (P : Pkg) (os : OS) (sched₁ sched₂ : Nat → Nat)
    (c : ProductionAPIGetter) (fl : FileList) (outDir : String) (w : World)
    (hdir : os.Stat outDir = some true) :
    ∃ t, (FileList.DownloadFiles P os sched₁ sched₂ c fl outDir w).world.trace = w.trace ++ t ∧
      (detailRequests t).Subperm ((fl.filter (fun f => f.Presigned = "")).map
        (fun f => getEvent { Endpoint := SHOW, Id := f.ID } f [GetPresignedAuxParamFunc P])) ∧
      ((FileList.DownloadFiles P os sched₁ sched₂ c fl outDir w).outcome ≠ .deadlocked →
        (detailRequests t).Perm ((fl.filter (fun f => f.Presigned = "")).map
          (fun f => getEvent { Endpoint := SHOW, Id := f.ID } f [GetPresignedAuxParamFunc P])) ∧
        (FileList.DownloadFiles P os sched₁ sched₂ c fl outDir w).files
          = fl.map (fun f => if f.Presigned = "" then
              (c.Get { Endpoint := SHOW, Id := f.ID } f [GetPresignedAuxParamFunc P]).1 else f)) ∧
      (0 < P.workerAmount →
        (FileList.DownloadFiles P os sched₁ sched₂ c fl outDir w).outcome ≠ .deadlocked) ∧
      ((∀ f ∈ fl, f.Presigned ≠ "") → detailRequests t = []) := by
  have hnilreq : (∀ f ∈ fl, f.Presigned ≠ "") → fl.filter (fun f => f.Presigned = "") = [] := by
    intro hall
    simp only [List.filter_eq_nil_iff]
    intro f hf
    simpa using hall f hf
  have hlive : 0 < P.workerAmount →
      (FileList.DownloadFiles P os sched₁ sched₂ c fl outDir w).outcome ≠ .deadlocked := by
    intro hn
    rcases DownloadFiles_stages P os sched₁ sched₂ c fl outDir w hdir with hs | hs | hs
    · omega
    · obtain ⟨-, -, preErrs, -, -, heq⟩ := hs
      rw [heq]
      simp
    · rw [hs.2]
      intro hd
      have := (downloadStage_deadlocked_iff _ _ _ _ _ _ _).1 hd
      omega
  by_cases hN : 0 < P.workerAmount ∨ noPresigned fl = []
  · obtain ⟨t₂, ht, hmem⟩ := DownloadFiles_trace P os sched₁ sched₂ c fl outDir w hdir hN
    have hperm := completionOrder_perm P.workerAmount.toNat sched₁ (noPresigned fl)
    have hreq : (detailRequests ((completionOrder P.workerAmount.toNat sched₁
          (noPresigned fl)).map
          (fun f => getEvent { Endpoint := SHOW, Id := f.ID } f [GetPresignedAuxParamFunc P])
          ++ t₂)).Perm ((fl.filter (fun f => f.Presigned = "")).map
          (fun f => getEvent { Endpoint := SHOW, Id := f.ID } f [GetPresignedAuxParamFunc P])) := by
      rw [detailRequests_append, detailRequests_getEvents,
        detailRequests_of_download P os outDir t₂ (fun e he => by
          obtain ⟨f, -, hf⟩ := hmem e he
          exact ⟨f, hf⟩), List.append_nil]
      exact hperm.map _
    have hfiles : (FileList.DownloadFiles P os sched₁ sched₂ c fl outDir w).files
        = resolved P c fl := by
      rcases DownloadFiles_stages P os sched₁ sched₂ c fl outDir w hdir with hs | hs | hs
      · rcases hN with hN | hN
        · omega
        · exact absurd hN hs.2.1
      · obtain ⟨-, -, preErrs, -, -, heq⟩ := hs
        rw [heq]
      · rw [hs.2, downloadStage_files]
    refine ⟨_, by rw [ht, List.append_assoc], hreq.subperm, fun _ => ⟨hreq, hfiles⟩, hlive,
      fun hall => ?_⟩
    rw [hnilreq hall] at hreq
    simpa using hreq
  · have hle : P.workerAmount ≤ 0 := by
      by_contra h
      exact hN (Or.inl (by omega))
    have hne : noPresigned fl ≠ [] := fun h => hN (Or.inr h)
    rcases DownloadFiles_stages P os sched₁ sched₂ c fl outDir w hdir with hs | hs | hs
    · refine ⟨[], by rw [hs.2.2]; simp, ?_, ?_, hlive, fun _ => rfl⟩
      · simp [detailRequests]
      · intro hd
        rw [hs.2.2] at hd
        exact absurd rfl hd
    · omega
    · exact absurd hs.1 hN

/-- C4, at a concrete input: of the two items of `exBatch` only item 1 lacks a
credential; the one detail request made is the one for item 1, and afterwards
item 1 holds the url the request answered.  With the worker amount set to 0 the
same call blocks forever and makes no request. -/
theorem DownloadFiles_detail_requests_witness :
    exOS.Stat "out" = some true ∧
    (∃ t, (FileList.DownloadFiles exPkg exOS exSched exSched exGetter exBatch "out" {}).world.trace
        = [] ++ t ∧
      (detailRequests t).Perm
        [Event.detail { Endpoint := 2, Id := 1 } { ID := 1, OriginalName := "a.txt" }
          [("aux", ["presigned_url"])]] ∧
      (FileList.DownloadFiles exPkg exOS exSched exSched exGetter exBatch "out" {}).files
        = [{ ID := 1, OriginalName := "a.txt", Presigned := "u1" },
           { ID := 2, OriginalName := "b.txt", Presigned := "u2" }]) ∧
    (FileList.DownloadFiles (SetWorkerAmount exPkg 0) exOS exSched exSched exGetter exBatch
      "out" {}).outcome = .deadlocked ∧
    (FileList.DownloadFiles (SetWorkerAmount exPkg 0) exOS exSched exSched exGetter exBatch
      "out" {}).world.trace = [] := by
  obtain ⟨t, ht, -, h, hlive, -⟩ := DownloadFiles_detail_requests exPkg exOS exSched exSched
    exGetter exBatch "out" {} (by decide)
  refine ⟨by decide, ⟨t, ht, (h (hlive (by decide))).1, (h (hlive (by decide))).2⟩, ?_, ?_⟩ <;>
  · simp only [FileList.DownloadFiles, FileList.GetPresigned, downloadStage, runPool_eq]
    rfl

/-- C5 (amended): if the credential resolution of some item of the batch fails
(valid destination, a positive worker amount, ids pairwise different as the
items carry them after the detail requests), the map `DownloadFiles` returns
holds, for every item that lacked a credential, the error-or-nil of that item's
own resolution, under the id the item carries after its request, and no entry
for an item that already held a credential.  So the items reported with a
non-nil error are exactly those whose own resolution failed. -/
theorem DownloadFiles_resolution_failure_entries (P : Pkg) (os : OS) (sched₁ sched₂ : Nat → Nat)
    (c : ProductionAPIGetter) (fl : FileList) (outDir : String) (w : World)
    (hdir : os.Stat outDir = some true) (hn : 0 < P.workerAmount)
    (hnd : ((resolved P c fl).map File.ID).Nodup)
    (x : File) (hx : x ∈ fl) (hxp : x.Presigned = "")
    (hfail : (File.GetPresignedUrl P c x).2 ≠ none) :
    ∃ m, (FileList.DownloadFiles P os sched₁ sched₂ c fl outDir w).outcome = .returned (m, none) ∧
      (∀ f ∈ fl, f.Presigned = "" →
        assocGet m (File.GetPresignedUrl P c f).1.ID = some (File.GetPresignedUrl P c f).2) ∧
      (∀ f ∈ fl, f.Presigned ≠ "" → assocGet m f.ID = none) := by
  have hx' : x ∈ noPresigned fl := List.mem_filter.2 ⟨hx, by simpa using hxp⟩
  obtain ⟨m, hm, hout, -, -⟩ :=
    DownloadFiles_abort P os sched₁ sched₂ c fl outDir w hdir hn hnd x hx' hfail
  obtain ⟨m', hm', hget, hkeys, -⟩ := GetPresigned_entry P sched₁ c (noPresigned fl) w (Or.inl hn)
    (nodup_noPresigned_ids P c fl hnd)
  have hmm : m = m' := by
    rw [hm] at hm'
    exact Outcome.returned.inj hm'
  subst hmm
  refine ⟨m, hout, ?_, ?_⟩
  · intro f hf hp
    exact hget f (List.mem_filter.2 ⟨hf, by simpa using hp⟩)
  · intro f hf hp
    rw [assocGet_eq_none_iff, hkeys]
    intro hmem
    obtain ⟨g, hg, hgid⟩ := List.mem_map.1 hmem
    have hgfl : g ∈ fl := (List.mem_filter.1 hg).1
    have hgp : g.Presigned = "" := by simpa [noPresigned] using (List.mem_filter.1 hg).2
    have hinj := List.inj_on_of_nodup_map
      (f := fun v => (if v.Presigned = "" then (presignedJob P c v).file else v).ID)
      (l := fl) (by simpa [resolved, List.map_map, Function.comp_def] using hnd)
    have : g = f := hinj hgfl hf (by simpa [hgp, hp, presignedJob, presignedResult] using hgid)
    exact hp (this ▸ hgp)

/-- C5, at a concrete input: in `exBatchFail` item 7 cannot be resolved. -/
theorem DownloadFiles_resolution_failure_entries_witness :
    ∃ m, (FileList.DownloadFiles exPkg exOS exSched exSched exGetter exBatchFail "out" {}).outcome
        = .returned (m, none) ∧
      (∀ f ∈ exBatchFail, f.Presigned = "" →
        assocGet m (File.GetPresignedUrl exPkg exGetter f).1.ID
          = some (File.GetPresignedUrl exPkg exGetter f).2) ∧
      (∀ f ∈ exBatchFail, f.Presigned ≠ "" → assocGet m f.ID = none) :=
  DownloadFiles_resolution_failure_entries exPkg exOS exSched exSched exGetter exBatchFail "out" {}
    (by decide) (by decide) (by decide) { ID := 7, OriginalName := "x.txt" } (by decide)
    (by decide) (by decide)

/-- C5 as stated fails: in `exBatchFail` the resolution of item 7 fails, and the
map returned reports an error for item 7 only.  Item 2, which held a
credential, has no entry, and item 1, whose resolution succeeded, has a nil
entry. -/
theorem DownloadFiles_resolution_failure_counterexample :
    (File.GetPresignedUrl exPkg exGetter { ID := 7, OriginalName := "x.txt" }).2
      = some (errorsNew "Response not ok.") ∧
    (FileList.DownloadFiles exPkg exOS exSched exSched exGetter exBatchFail "out" {}).outcome
      = .returned ([(7, some (errorsNew "Response not ok.")), (1, none)], none) ∧
    assocGet [((7 : Int), some (errorsNew "Response not ok.")), (1, none)] 2 = none ∧
    assocGet [((7 : Int), some (errorsNew "Response not ok.")), (1, none)] 1 = some none := by
  simp only [FileList.DownloadFiles, FileList.GetPresigned, downloadStage, runPool_eq]
  refine ⟨by rfl, by rfl, by decide, by decide⟩

/-- C6 (amended): if the credential resolution of some item fails (valid
destination, a positive worker amount, ids pairwise different as the items
carry them after the detail requests), `DownloadFiles` stops before the fetch
stage: the file system is as it was, and the calls it made contain no content
GET and no file creation, for any item of the batch. -/
theorem DownloadFiles_abort_no_transfer (P : Pkg) (os : OS) (sched₁ sched₂ : Nat → Nat)
    (c : ProductionAPIGetter) (fl : FileList) (outDir : String) (w : World)
    (hdir : os.Stat outDir = some true) (hn : 0 < P.workerAmount)
    (hnd : ((resolved P c fl).map File.ID).Nodup)
    (x : File) (hx : x ∈ fl) (hxp : x.Presigned = "")
    (hfail : (File.GetPresignedUrl P c x).2 ≠ none) :
    (FileList.DownloadFiles P os sched₁ sched₂ c fl outDir w).world.fs = w.fs ∧
    ∃ t, (FileList.DownloadFiles P os sched₁ sched₂ c fl outDir w).world.trace = w.trace ++ t ∧
      contentGets t = [] ∧ (∀ url, Event.contentGet url ∉ t) ∧ (∀ p, Event.create p ∉ t) := by
  have hx' : x ∈ noPresigned fl := List.mem_filter.2 ⟨hx, by simpa using hxp⟩
  obtain ⟨m, -, -, hworld, -⟩ :=
    DownloadFiles_abort P os sched₁ sched₂ c fl outDir w hdir hn hnd x hx' hfail
  have hspec := GetPresigned_spec P sched₁ c (noPresigned fl) w (Or.inl hn)
  rw [hworld]
  refine ⟨hspec.2.1, _, hspec.2.2, ?_, ?_, ?_⟩
  · simp only [contentGets, List.filterMap_eq_nil_iff]
    intro e he
    obtain ⟨f, -, rfl⟩ := List.mem_map.1 he
    simp [getEvent]
  · intro url he
    obtain ⟨f, -, hf⟩ := List.mem_map.1 he
    simp [getEvent] at hf
  · intro p he
    obtain ⟨f, -, hf⟩ := List.mem_map.1 he
    simp [getEvent] at hf

/-- C6, at a concrete input: `exBatchFail`, where item 7 cannot be resolved. -/
theorem DownloadFiles_abort_no_transfer_witness :
    (FileList.DownloadFiles exPkg exOS exSched exSched exGetter exBatchFail "out" {}).world.fs
      = [] ∧
    ∃ t, (FileList.DownloadFiles exPkg exOS exSched exSched exGetter exBatchFail "out" {}).world.trace
        = [] ++ t ∧
      contentGets t = [] ∧ (∀ url, Event.contentGet url ∉ t) ∧ (∀ p, Event.create p ∉ t) :=
  DownloadFiles_abort_no_transfer exPkg exOS exSched exSched exGetter exBatchFail "out" {}
    (by decide) (by decide) (by decide) { ID := 7, OriginalName := "x.txt" } (by decide)
    (by decide) (by decide)

/-- C6 as stated fails: the two items of `exBatchCollide` have the ids 1 and 2
and no credential; the request of item 1 fails, and the answer to the request
of item 2 carries the id 1.  The worker reads the id after the call, so the nil
result of item 2 overwrites the failure of item 1 in the map, no failure is
left to see, and the fetch stage runs: a content GET is made for both items and
both files are written. -/
theorem DownloadFiles_abort_no_transfer_counterexample :
    exOS.Stat "out" = some true ∧ (exBatchCollide.map File.ID).Nodup ∧
    (File.GetPresignedUrl exPkgOpen exGetterCollide { ID := 1, OriginalName := "a.txt" }).2
      = some (errorsNew "Response not ok.") ∧
    (FileList.DownloadFiles exPkgOpen exOS exSched exSched exGetterCollide exBatchCollide
      "out" {}).outcome = .returned ([(1, none)], none) ∧
    contentGets (FileList.DownloadFiles exPkgOpen exOS exSched exSched exGetterCollide
      exBatchCollide "out" {}).world.trace = ["", "u2"] ∧
    (FileList.DownloadFiles exPkgOpen exOS exSched exSched exGetterCollide exBatchCollide
      "out" {}).world.fs = [("out/a.txt", [7]), ("out/b.txt", [7])] := by
  simp only [FileList.DownloadFiles, FileList.GetPresigned, downloadStage, runPool_eq]
  refine ⟨by decide, by decide, by rfl, by rfl, by rfl, by rfl⟩

/-- C7 (amended): if the credential resolution of some item fails (valid
destination, a positive worker amount, ids pairwise different as the items
carry them after the detail requests), `DownloadFiles` returns a nil top-level
error and, as its map, the very map `GetPresigned` returns for the items that
lacked a credential; in it the entry of every item whose resolution failed is
that item's own non-nil error. -/
theorem DownloadFiles_returns_resolver_map (P : Pkg) (os : OS) (sched₁ sched₂ : Nat → Nat)
    (c : ProductionAPIGetter) (fl : FileList) (outDir : String) (w : World)
    (hdir : os.Stat outDir = some true) (hn : 0 < P.workerAmount)
    (hnd : ((resolved P c fl).map File.ID).Nodup)
    (x : File) (hx : x ∈ fl) (hxp : x.Presigned = "")
    (hfail : (File.GetPresignedUrl P c x).2 ≠ none) :
    ∃ preErrs,
      (FileList.GetPresigned P sched₁ c (fl.filter (fun f => f.Presigned = "")) w).outcome
        = .returned preErrs ∧
      (FileList.DownloadFiles P os sched₁ sched₂ c fl outDir w).outcome
        = .returned (preErrs, none) ∧
      ∀ f ∈ fl, f.Presigned = "" → ∀ e, (File.GetPresignedUrl P c f).2 = some e →
        assocGet preErrs (File.GetPresignedUrl P c f).1.ID = some (some e) := by
  have hx' : x ∈ noPresigned fl := List.mem_filter.2 ⟨hx, by simpa using hxp⟩
  obtain ⟨m, hm, hout, -, -⟩ :=
    DownloadFiles_abort P os sched₁ sched₂ c fl outDir w hdir hn hnd x hx' hfail
  obtain ⟨m', hm', hget, -, -⟩ := GetPresigned_entry P sched₁ c (noPresigned fl) w (Or.inl hn)
    (nodup_noPresigned_ids P c fl hnd)
  have hmm : m = m' := by
    rw [hm] at hm'
    exact Outcome.returned.inj hm'
  subst hmm
  refine ⟨m, hm, hout, ?_⟩
  intro f hf hp e he
  have := hget f (List.mem_filter.2 ⟨hf, by simpa using hp⟩)
  simpa [presignedResult, he] using this

/-- C7, at a concrete input: `exBatchFail`, where item 7 cannot be resolved. -/
theorem DownloadFiles_returns_resolver_map_witness :
    ∃ preErrs,
      (FileList.GetPresigned exPkg exSched exGetter
          (exBatchFail.filter (fun f => f.Presigned = "")) {}).outcome = .returned preErrs ∧
      (FileList.DownloadFiles exPkg exOS exSched exSched exGetter exBatchFail "out" {}).outcome
        = .returned (preErrs, none) ∧
      ∀ f ∈ exBatchFail, f.Presigned = "" → ∀ e,
        (File.GetPresignedUrl exPkg exGetter f).2 = some e →
        assocGet preErrs (File.GetPresignedUrl exPkg exGetter f).1.ID = some (some e) :=
  DownloadFiles_returns_resolver_map exPkg exOS exSched exSched exGetter exBatchFail "out" {}
    (by decide) (by decide) (by decide) { ID := 7, OriginalName := "x.txt" } (by decide)
    (by decide) (by decide)

/-- C7 as stated fails: in `exBatchCollide` (ids 1 and 2) the request of item
1 fails and the answer to the request of item 2 carries the id 1, so the map of
the resolver stage is `{1: nil}`.  `DownloadFiles` goes on to the fetch stage,
where the content server answers 404: the map returned is the one of the fetch
stage, not the one of the resolver stage, and the entry of item 1 is the status
error of its transfer, not the error of its resolution. -/
theorem DownloadFiles_returns_resolver_map_counterexample :
    exOS.Stat "out" = some true ∧ (exBatchCollide.map File.ID).Nodup ∧
    (File.GetPresignedUrl exPkgNotFound exGetterCollide { ID := 1, OriginalName := "a.txt" }).2
      = some (errorsNew "Response not ok.") ∧
    (FileList.GetPresigned exPkgNotFound exSched exGetterCollide
      (exBatchCollide.filter (fun f => f.Presigned = "")) {}).outcome = .returned [(1, none)] ∧
    (FileList.DownloadFiles exPkgNotFound exOS exSched exSched exGetterCollide exBatchCollide
      "out" {}).outcome = .returned ([(1, some (errorsNew (statusMessage 404)))], none) := by
  simp only [FileList.DownloadFiles, FileList.GetPresigned, downloadStage, runPool_eq]
  refine ⟨by decide, by decide, by rfl, by rfl, by rfl⟩

/-- C8 at its failing input: both items of `exBatchGone` hold a credential and
the content GET of item 2 fails at transport level with no response.  The
worker dereferences the nil response: the call does not return a map.  When the
job of item 2 completes first, item 1 is never fetched (the only content GET is
the one of item 2, no file is written); when item 1 completes first its file is
written but its outcome is lost with the panic. -/
theorem DownloadFiles_transport_failure_panics :
    exOS.Stat "out" = some true ∧
    exPkg.PlainGetter "gone" = (none, some (errorsNew "Get: dial tcp: connection refused")) ∧
    (FileList.DownloadFiles exPkg exOS exSched exSchedSecond exGetter exBatchGone "out" {}).outcome
      = .panicked ∧
    contentGets
      (FileList.DownloadFiles exPkg exOS exSched exSchedSecond exGetter exBatchGone "out" {}).world.trace
      = ["gone"] ∧
    (FileList.DownloadFiles exPkg exOS exSched exSchedSecond exGetter exBatchGone "out" {}).world.fs
      = [] ∧
    (FileList.DownloadFiles exPkg exOS exSched exSched exGetter exBatchGone "out" {}).outcome
      = .panicked ∧
    (FileList.DownloadFiles exPkg exOS exSched exSched exGetter exBatchGone "out" {}).world.fs
      = [("out/a.txt", [104, 105])] := by
  simp only [FileList.DownloadFiles, FileList.GetPresigned, downloadStage, runPool_eq]
  refine ⟨by decide, by rfl, by rfl, by rfl, by rfl, by rfl, by rfl⟩

/-- C9 (amended): for a batch whose items, as they stand after the resolver
stage, have pairwise different ids and paths `outDir/OriginalName` that name
pairwise different files, a valid destination that holds no file, a positive
worker amount, no failed resolution, content GETs that all answer 200 with body
`body f` and no transport error, and files that can all be created and written,
`DownloadFiles` returns a map with one entry per item, all nil, and afterwards
the file the path `outDir/OriginalName` of an item names holds exactly the body
of that item, while every other file is as before; so the destination holds
exactly one file per item (and a file system that was empty holds exactly
those files). -/
theorem DownloadFiles_success (P : Pkg) (os : OS) (sched₁ sched₂ : Nat → Nat)
    (c : ProductionAPIGetter) (fl : FileList) (outDir : String) (w : World)
    (body : File → Bytes)
    (hdir : os.Stat outDir = some true) (hn : 0 < P.workerAmount)
    (hok : ∀ f ∈ noPresigned fl, (File.GetPresignedUrl P c f).2 = none)
    (hnd : ((resolved P c fl).map File.ID).Nodup)
    (hfiles : ((resolved P c fl).map
      (fun f => os.FileAt (outDir ++ "/" ++ f.OriginalName))).Nodup)
    (hget : ∀ f ∈ resolved P c fl,
      P.PlainGetter f.Presigned = (some { StatusCode := 200, Body := body f }, none))
    (hcreate : ∀ f ∈ resolved P c fl, os.Create (outDir ++ "/" ++ f.OriginalName) = none)
    (hcopy : ∀ f ∈ resolved P c fl, os.Copy (outDir ++ "/" ++ f.OriginalName) (body f) = none)
    (hempty : ∀ name, assocGet w.fs (os.FileAt (outDir ++ "/" ++ name)) = none) :
    ∃ m, (FileList.DownloadFiles P os sched₁ sched₂ c fl outDir w).outcome = .returned (m, none) ∧
      (assocKeys m).Perm ((resolved P c fl).map File.ID) ∧
      (∀ k v, assocGet m k = some v → v = none) ∧
      (∀ f ∈ resolved P c fl,
        assocGet (FileList.DownloadFiles P os sched₁ sched₂ c fl outDir w).world.fs
          (os.FileAt (outDir ++ "/" ++ f.OriginalName)) = some (body f)) ∧
      (∀ k, (∀ f ∈ resolved P c fl, k ≠ os.FileAt (outDir ++ "/" ++ f.OriginalName)) →
        assocGet (FileList.DownloadFiles P os sched₁ sched₂ c fl outDir w).world.fs k
          = assocGet w.fs k) ∧
      (∀ name, assocGet (FileList.DownloadFiles P os sched₁ sched₂ c fl outDir w).world.fs
          (os.FileAt (outDir ++ "/" ++ name)) ≠ none ↔
        ∃ f ∈ resolved P c fl,
          os.FileAt (outDir ++ "/" ++ name) = os.FileAt (outDir ++ "/" ++ f.OriginalName)) ∧
      (∀ f ∈ resolved P c fl, ∀ g ∈ resolved P c fl,
        os.FileAt (outDir ++ "/" ++ f.OriginalName) = os.FileAt (outDir ++ "/" ++ g.OriginalName) →
        f = g) ∧
      (w.fs = [] →
        (assocKeys (FileList.DownloadFiles P os sched₁ sched₂ c fl outDir w).world.fs).Perm
          ((resolved P c fl).map (fun f => os.FileAt (outDir ++ "/" ++ f.OriginalName)))) := by
  have hresp : ∀ f ∈ resolved P c fl, (P.PlainGetter f.Presigned).1 ≠ none := by
    intro f hf
    simp [hget f hf]
  have hjob : ∀ f ∈ resolved P c fl,
      (downloadJob P os outDir f).result = some { Error := none, FileId := f.ID } ∧
      (downloadJob P os outDir f).write
        = some (os.FileAt (outDir ++ "/" ++ f.OriginalName), body f) :=
    fun f hf => downloadJob_ok P os outDir f (body f) (hget f hf) (hcreate f hf) (hcopy f hf)
  have hperm := completionOrder_perm P.workerAmount.toNat sched₂ (resolved P c fl)
  have key := DownloadFiles_regular_returned_iff P os sched₁ sched₂ c fl outDir w hdir hok
  have hout := (key _ none).2 ⟨Or.inl hn, hresp, rfl, rfl⟩
  have hmap := downloadMap_spec P os sched₂ outDir (resolved P c fl) hresp hnd
  -- the world after the call
  have hworld : (FileList.DownloadFiles P os sched₁ sched₂ c fl outDir w).world =
      (runJobs (downloadJob P os outDir)
        (completionOrder P.workerAmount.toNat sched₂ (resolved P c fl))
        ((afterResolver P sched₁ c fl w).start
          (List.replicate P.workerAmount.toNat .download))).1 := by
    rw [DownloadFiles_fetch P os sched₁ sched₂ c fl outDir w hdir (Or.inl hn) hok,
      downloadStage_world]
    exact (runPool_of_all_some _ _ _ _ _ _ (Or.inl hn)
      (fun f hf => (downloadJob_result_ne_none_iff P os outDir f).2 (hresp f hf))).2
  have hpre : ((afterResolver P sched₁ c fl w).start
      (List.replicate P.workerAmount.toNat .download)).fs = w.fs := by
    rw [World_start_fs, afterResolver_fs]
  have hsome : ∀ f ∈ completionOrder P.workerAmount.toNat sched₂ (resolved P c fl),
      (downloadJob P os outDir f).result ≠ none :=
    fun f hf => (downloadJob_result_ne_none_iff P os outDir f).2 (hresp f (hperm.mem_iff.1 hf))
  have hpair := downloadJobs_pairwise P os outDir
    (completionOrder P.workerAmount.toNat sched₂ (resolved P c fl))
    (((hperm.map _).nodup_iff).2 hfiles)
  have hwritten : ∀ f ∈ resolved P c fl,
      assocGet (FileList.DownloadFiles P os sched₁ sched₂ c fl outDir w).world.fs
        (os.FileAt (outDir ++ "/" ++ f.OriginalName)) = some (body f) := by
    intro f hf
    rw [hworld]
    exact runJobs_fs_written _ _ _ hsome hpair f (hperm.mem_iff.2 hf) _ _ (hjob f hf).2
  have hframe : ∀ k, (∀ f ∈ resolved P c fl, k ≠ os.FileAt (outDir ++ "/" ++ f.OriginalName)) →
      assocGet (FileList.DownloadFiles P os sched₁ sched₂ c fl outDir w).world.fs k
        = assocGet w.fs k := by
    intro k hk
    rw [hworld, runJobs_fs_frame _ _ _ k, hpre]
    intro f hf q d hw
    rw [downloadJob_write_path P os outDir f q d hw]
    exact Ne.symm (hk f (hperm.mem_iff.1 hf))
  have hnames : ∀ name, assocGet (FileList.DownloadFiles P os sched₁ sched₂ c fl outDir w).world.fs
        (os.FileAt (outDir ++ "/" ++ name)) ≠ none ↔
      ∃ f ∈ resolved P c fl,
        os.FileAt (outDir ++ "/" ++ name) = os.FileAt (outDir ++ "/" ++ f.OriginalName) := by
    intro name
    constructor
    · intro hne
      by_contra hmem
      apply hne
      rw [hframe, hempty]
      intro f hf hpath
      exact hmem ⟨f, hf, hpath⟩
    · rintro ⟨f, hf, hpath⟩
      rw [hpath, hwritten f hf]
      simp
  refine ⟨_, hout, hmap.1, ?_, hwritten, hframe, hnames, ?_, ?_⟩
  · intro k v hkv
    rcases mem_collect _ _ _ (mem_of_assocGet _ _ _ hkv) with h | ⟨r, hr, h⟩
    · simp at h
    · obtain ⟨f, hf, hfr⟩ := List.mem_filterMap.1 hr
      rw [(hjob f (hperm.mem_iff.1 hf)).1] at hfr
      have hv : v = r.Error := (Prod.mk.inj h).2
      rw [hv, ← Option.some.inj hfr]
  · intro f hf g hg hfg
    exact List.inj_on_of_nodup_map hfiles hf hg hfg
  · intro hnil
    have hkeys : (assocKeys (FileList.DownloadFiles P os sched₁ sched₂ c fl outDir
        w).world.fs).Nodup := by
      rw [hworld]
      apply runJobs_fs_nodup
      rw [hpre, hnil]
      simp [assocKeys]
    refine (List.perm_ext_iff_of_nodup hkeys hfiles).2 ?_
    intro k
    constructor
    · intro hk
      by_contra hmem
      have hne : assocGet (FileList.DownloadFiles P os sched₁ sched₂ c fl outDir w).world.fs k
          ≠ none := fun h => (assocGet_eq_none_iff _ _).1 h hk
      apply hne
      rw [hframe k, hnil]
      · rfl
      · intro f hf hkf
        exact hmem (List.mem_map.2 ⟨f, hf, hkf.symm⟩)
    · intro hk
      obtain ⟨f, hf, rfl⟩ := List.mem_map.1 hk
      by_contra hmem
      have := (assocGet_eq_none_iff _ _).2 hmem
      rw [hwritten f hf] at this
      simp at this

/-- C9, at a concrete input: `exBatch` downloaded to the empty directory `out`. -/
theorem DownloadFiles_success_witness :
    ∃ m, (FileList.DownloadFiles exPkg exOS exSched exSched exGetter exBatch "out" {}).outcome
        = .returned (m, none) ∧
      (∀ k v, assocGet m k = some v → v = none) ∧
      assocGet (FileList.DownloadFiles exPkg exOS exSched exSched exGetter exBatch "out" {}).world.fs
        "out/a.txt" = some [104, 105] ∧
      assocGet (FileList.DownloadFiles exPkg exOS exSched exSched exGetter exBatch "out" {}).world.fs
        "out/b.txt" = some [33] ∧
      (assocKeys (FileList.DownloadFiles exPkg exOS exSched exSched exGetter exBatch "out"
        {}).world.fs).Perm ["out/a.txt", "out/b.txt"] := by
  obtain ⟨m, hm, -, hnil, hfiles, -, -, -, hall⟩ :=
    DownloadFiles_success exPkg exOS exSched exSched exGetter exBatch "out" {} exBody
      (by decide) (by decide) (by decide) (by decide) (by decide) (by decide) (by decide)
      (by decide) (fun _ => rfl)
  exact ⟨m, hm, hnil,
    hfiles { ID := 1, OriginalName := "a.txt", Presigned := "u1" } (by decide),
    hfiles { ID := 2, OriginalName := "b.txt", Presigned := "u2" } (by decide),
    hall rfl⟩

/-- C9 as stated fails in two ways.  The one item of `exBatchNoName` has an
empty original name, so the file to create is `out/`, which `os.Create`
refuses: the content GET answers 200 with a body, the destination exists and is
empty, and still the entry of the item is the error of `os.Create` and no file
is written.  The two items of `exBatchSameFile` have different ids and the
different original names `a.txt` and `./a.txt`, which name one file: both
transfers succeed and the destination holds one file, with the body of the
item written last. -/
theorem DownloadFiles_success_counterexample :
    exOS.Stat "out" = some true ∧
    (exBatchNoName.map File.ID).Nodup ∧ (exBatchNoName.map File.OriginalName).Nodup ∧
    exPkg.PlainGetter "u1" = (some { StatusCode := 200, Body := [104, 105] }, none) ∧
    (FileList.DownloadFiles exPkg exOS exSched exSched exGetter exBatchNoName "out" {}).outcome
      = .returned ([(1, some (errorsNew "open out/: is a directory"))], none) ∧
    (FileList.DownloadFiles exPkg exOS exSched exSched exGetter exBatchNoName "out" {}).world.fs
      = [] ∧
    (exBatchSameFile.map File.ID).Nodup ∧ (exBatchSameFile.map File.OriginalName).Nodup ∧
    exPkg.PlainGetter "u2" = (some { StatusCode := 200, Body := [33] }, none) ∧
    (FileList.DownloadFiles exPkg exOS exSched exSched exGetter exBatchSameFile "out" {}).outcome
      = .returned ([(1, none), (2, none)], none) ∧
    (FileList.DownloadFiles exPkg exOS exSched exSched exGetter exBatchSameFile "out" {}).world.fs
      = [("out/a.txt", [33])] := by
  simp only [FileList.DownloadFiles, FileList.GetPresigned, downloadStage, runPool_eq]
  refine ⟨by decide, by decide, by decide, by rfl, by rfl, by rfl, by decide, by decide, by rfl,
    by rfl, by rfl⟩

/-- C10: with a valid destination and no failed resolution (ids pairwise
different), for every item whose content GET returns a status other than 200
the entry of the item in every map `DownloadFiles` returns is a non-nil error
whose message is the one built from the status and contains the status code in
decimal.  A map is returned whenever the pool has a worker and every content
GET yields a response. -/
theorem DownloadFiles_bad_status_entry (P : Pkg) (os : OS) (sched₁ sched₂ : Nat → Nat)
    (c : ProductionAPIGetter) (fl : FileList) (outDir : String) (w : World)
    (hdir : os.Stat outDir = some true)
    (hok : ∀ f ∈ noPresigned fl, (File.GetPresignedUrl P c f).2 = none)
    (hnd : ((resolved P c fl).map File.ID).Nodup)
    (f : File) (hf : f ∈ resolved P c fl) (resp : Response) (err : Option GoError)
    (hget : P.PlainGetter f.Presigned = (some resp, err)) (hst : resp.StatusCode ≠ 200) :
    (∀ m e, (FileList.DownloadFiles P os sched₁ sched₂ c fl outDir w).outcome = .returned (m, e) →
      ∃ ge, assocGet m f.ID = some (some ge) ∧
        ge.msg = statusMessage resp.StatusCode ∧
        ∃ pre post, ge.msg = pre ++ toString resp.StatusCode ++ post) ∧
    (0 < P.workerAmount → (∀ g ∈ resolved P c fl, (P.PlainGetter g.Presigned).1 ≠ none) →
      ∃ m, (FileList.DownloadFiles P os sched₁ sched₂ c fl outDir w).outcome
        = .returned (m, none)) := by
  have key := DownloadFiles_regular_returned_iff P os sched₁ sched₂ c fl outDir w hdir hok
  constructor
  · intro m e h
    obtain ⟨-, hresp, -, hm⟩ := (key m e).1 h
    have hentry := (downloadMap_spec P os sched₂ outDir (resolved P c fl) hresp hnd).2 f hf _
      (downloadJob_bad_status P os outDir f resp err hget hst).1
    refine ⟨errorsNew (statusMessage resp.StatusCode), ?_, rfl, ?_⟩
    · rw [hm]
      exact hentry
    · exact ⟨"Could not download file. Server responded with code: \"%!s(int=", ")\"", rfl⟩
  · intro hn hresp
    exact ⟨_, (key _ none).2 ⟨Or.inl hn, hresp, rfl, rfl⟩⟩

/-- C10, at a concrete input: the content server answers 400 for item 3 of `exBatchBad`. -/
theorem DownloadFiles_bad_status_entry_witness :
    ∃ m, (FileList.DownloadFiles exPkg exOS exSched exSched exGetter exBatchBad "out" {}).outcome
        = .returned (m, none) ∧
      ∃ ge, assocGet m 3 = some (some ge) ∧
        ge.msg = "Could not download file. Server responded with code: \"%!s(int=400)\"" ∧
        ∃ pre post, ge.msg = pre ++ "400" ++ post := by
  have h := DownloadFiles_bad_status_entry exPkg exOS exSched exSched exGetter exBatchBad "out" {}
    (by decide) (by decide) (by decide) { ID := 3, OriginalName := "c.txt", Presigned := "bad" }
    (by decide) { StatusCode := 400, Body := [] } none (by rfl) (by decide)
  obtain ⟨m, hm⟩ := h.2 (by decide) (by decide)
  obtain ⟨ge, h1, h2, h3⟩ := h.1 m none hm
  exact ⟨m, hm, ge, h1, h2, h3⟩

/-- C11: with a valid destination, an item whose content GET returns a status
other than 200 gets no file: its job writes nothing and its only call is the
content GET.  Whatever file has another content after `DownloadFiles` was
written for an item whose own content GET answered 200, and every file creation
among the calls made belongs to such an item; so the file the path
`outDir/OriginalName` of the item names holds afterwards what it held before,
unless a sibling that names the same file was transferred.  Every top-level
error returned is nil, and with a positive worker amount and a response to
every content GET the call does return; when moreover no resolution fails, the
content GET of the item is among the calls made. -/
theorem DownloadFiles_bad_status_no_file (P : Pkg) (os : OS) (sched₁ sched₂ : Nat → Nat)
    (c : ProductionAPIGetter) (fl : FileList) (outDir : String) (w : World)
    (hdir : os.Stat outDir = some true)
    (f : File) (hf : f ∈ resolved P c fl) (resp : Response) (err : Option GoError)
    (hget : P.PlainGetter f.Presigned = (some resp, err)) (hst : resp.StatusCode ≠ 200) :
    (downloadJob P os outDir f).write = none ∧
    (downloadJob P os outDir f).events = [Event.contentGet f.Presigned] ∧
    (∀ k, assocGet (FileList.DownloadFiles P os sched₁ sched₂ c fl outDir w).world.fs k
        ≠ assocGet w.fs k →
      ∃ g ∈ resolved P c fl, ∃ r, P.PlainGetter g.Presigned = (some r, none) ∧
        r.StatusCode = 200 ∧ os.FileAt (outDir ++ "/" ++ g.OriginalName) = k) ∧
    ((∀ g ∈ resolved P c fl,
        os.FileAt (outDir ++ "/" ++ g.OriginalName) = os.FileAt (outDir ++ "/" ++ f.OriginalName) →
        ∀ r, P.PlainGetter g.Presigned = (some r, none) → r.StatusCode ≠ 200) →
      assocGet (FileList.DownloadFiles P os sched₁ sched₂ c fl outDir w).world.fs
          (os.FileAt (outDir ++ "/" ++ f.OriginalName))
        = assocGet w.fs (os.FileAt (outDir ++ "/" ++ f.OriginalName))) ∧
    (∃ t, (FileList.DownloadFiles P os sched₁ sched₂ c fl outDir w).world.trace = w.trace ++ t ∧
      ∀ p, Event.create p ∈ t → ∃ g ∈ resolved P c fl, ∃ r,
        P.PlainGetter g.Presigned = (some r, none) ∧ r.StatusCode = 200 ∧
        p = outDir ++ "/" ++ g.OriginalName) ∧
    (∀ m e, (FileList.DownloadFiles P os sched₁ sched₂ c fl outDir w).outcome = .returned (m, e) →
      e = none) ∧
    (0 < P.workerAmount → (∀ g ∈ resolved P c fl, (P.PlainGetter g.Presigned).1 ≠ none) →
      ∃ m, (FileList.DownloadFiles P os sched₁ sched₂ c fl outDir w).outcome
        = .returned (m, none)) ∧
    (0 < P.workerAmount → (∀ g ∈ noPresigned fl, (File.GetPresignedUrl P c g).2 = none) →
      (∀ g ∈ resolved P c fl, (P.PlainGetter g.Presigned).1 ≠ none) →
      ∃ t, (FileList.DownloadFiles P os sched₁ sched₂ c fl outDir w).world.trace = w.trace ++ t ∧
        f.Presigned ∈ contentGets t) := by
  have hbad := downloadJob_bad_status P os outDir f resp err hget hst
  have hchanged : ∀ k, assocGet (FileList.DownloadFiles P os sched₁ sched₂ c fl outDir w).world.fs k
        ≠ assocGet w.fs k →
      ∃ g ∈ resolved P c fl, ∃ r, P.PlainGetter g.Presigned = (some r, none) ∧
        r.StatusCode = 200 ∧ os.FileAt (outDir ++ "/" ++ g.OriginalName) = k := by
    intro k hk
    obtain ⟨g, hg, d, hw⟩ := DownloadFiles_fs_changed P os sched₁ sched₂ c fl outDir w hdir k hk
    obtain ⟨r, h1, h2, h3⟩ := downloadJob_write_inv P os outDir g k d hw
    exact ⟨g, hg, r, h1, h2, h3.symm⟩
  refine ⟨hbad.2.1, hbad.2.2, hchanged, ?_,
    DownloadFiles_creates P os sched₁ sched₂ c fl outDir w hdir,
    fun m e h => DownloadFiles_error_nil P os sched₁ sched₂ c fl outDir w hdir m e h,
    fun hn hresp => DownloadFiles_returns P os sched₁ sched₂ c fl outDir w hdir hn hresp, ?_⟩
  · intro hsib
    by_contra hne
    obtain ⟨g, hg, r, h1, h2, h3⟩ := hchanged _ hne
    exact hsib g hg h3 r h1 h2
  · intro hn hok hresp
    obtain ⟨t, ht, hperm⟩ := DownloadFiles_content_gets P os sched₁ sched₂ c fl outDir w hdir hn
      hok hresp
    exact ⟨t, ht, hperm.mem_iff.2 (List.mem_map.2 ⟨f, hf, rfl⟩)⟩

/-- C11, at a concrete input: the content server answers 400 for item 3 of
`exBatchBad`; its job writes nothing, no file `out/c.txt` exists afterwards and
none was created, and the call returns a nil error.  In `exBatchBadSibling` the
sibling of item 3 is named `./c.txt` and is transferred: the file `out/c.txt`
then holds the body of the sibling, written through the path of the sibling. -/
theorem DownloadFiles_bad_status_no_file_witness :
    (downloadJob exPkg exOS "out" { ID := 3, OriginalName := "c.txt", Presigned := "bad" }).write
      = none ∧
    assocGet (FileList.DownloadFiles exPkg exOS exSched exSched exGetter exBatchBad "out" {}).world.fs
      "out/c.txt" = none ∧
    (∃ t, (FileList.DownloadFiles exPkg exOS exSched exSched exGetter exBatchBad "out" {}).world.trace
        = [] ++ t ∧ Event.create "out/c.txt" ∉ t) ∧
    (∃ m, (FileList.DownloadFiles exPkg exOS exSched exSched exGetter exBatchBad "out" {}).outcome
      = .returned (m, none)) ∧
    (FileList.DownloadFiles exPkg exOS exSched exSched exGetter exBatchBadSibling "out" {}).world.fs
      = [("out/c.txt", [33])] ∧
    (FileList.DownloadFiles exPkg exOS exSched exSched exGetter exBatchBadSibling "out"
      {}).world.trace
      = [Event.contentGet "bad", Event.contentGet "u2", Event.deferBodyClose "u2",
         Event.create "out/./c.txt", Event.deferFileClose "out/./c.txt"] := by
  have h := DownloadFiles_bad_status_no_file exPkg exOS exSched exSched exGetter exBatchBad "out" {}
    (by decide) { ID := 3, OriginalName := "c.txt", Presigned := "bad" } (by decide)
    { StatusCode := 400, Body := [] } none (by rfl) (by decide)
  have hsib : ∀ g ∈ resolved exPkg exGetter exBatchBad,
      exOS.FileAt ("out" ++ "/" ++ g.OriginalName) = exOS.FileAt ("out" ++ "/" ++ "c.txt") →
      (exPkg.PlainGetter g.Presigned).1.map Response.StatusCode ≠ some 200 := by decide
  have hnew : ∀ g ∈ resolved exPkg exGetter exBatchBad,
      "out/c.txt" = "out" ++ "/" ++ g.OriginalName →
      (exPkg.PlainGetter g.Presigned).1.map Response.StatusCode ≠ some 200 := by decide
  obtain ⟨t, ht, hcr⟩ := h.2.2.2.2.1
  refine ⟨h.1, h.2.2.2.1 ?_, ⟨t, ht, ?_⟩, h.2.2.2.2.2.2.1 (by decide) (by decide), ?_, ?_⟩
  · intro g hg hfile r hr hst
    apply hsib g hg hfile
    rw [hr]
    simp [hst]
  · intro hmem
    obtain ⟨g, hg, r, h1, h2, h3⟩ := hcr _ hmem
    apply hnew g hg h3
    rw [h1]
    simp [h2]
  · simp only [FileList.DownloadFiles, FileList.GetPresigned, downloadStage, runPool_eq]
    rfl
  · simp only [FileList.DownloadFiles, FileList.GetPresigned, downloadStage, runPool_eq]
    rfl

/-- C12 at its failing input: item 2 of `exBatchGone` cannot be reached, so
`PlainGetter` answers with no response and an error.  Whatever the schedules,
`DownloadFiles` ends in a panic (the worker reads `resp.StatusCode` of the nil
response): the error is not recorded as the entry of item 2, no map is
returned. -/
theorem DownloadFiles_transport_failure_crashes (sched₁ sched₂ : Nat → Nat) :
    exPkg.PlainGetter "gone" = (none, some (errorsNew "Get: dial tcp: connection refused")) ∧
    (FileList.DownloadFiles exPkg exOS sched₁ sched₂ exGetter exBatchGone "out" {}).outcome
      = .panicked ∧
    ∀ m e, (FileList.DownloadFiles exPkg exOS sched₁ sched₂ exGetter exBatchGone "out" {}).outcome
      ≠ .returned (m, e) := by
  have h := DownloadFiles_panics_of_no_response exPkg exOS sched₁ sched₂ exGetter exBatchGone
    "out" {} (by decide) (by decide) (by decide)
    { ID := 2, OriginalName := "b.txt", Presigned := "gone" } (by decide) (by rfl)
  refine ⟨by rfl, h, fun m e => ?_⟩
  rw [h]
  simp

/-- C13 (amended): for a list whose ids are pairwise different as the files
carry them after their requests (the worker reads the id after the call) and a
positive worker amount, `GetPresigned` returns a map whose keys are a
permutation of those ids and whose value for each file is the error-or-nil of
that file's own request, whatever the other requests answer; the calls it makes
are exactly one detail request per file, and it writes no file.  When every
answer carries the id that was requested, the keys are the ids of the list as
it was passed. -/
theorem GetPresigned_one_outcome_per_file (P : Pkg) (sched : Nat → Nat)
    (c : ProductionAPIGetter) (fl : FileList) (w : World) (hn : 0 < P.workerAmount)
    (hnd : (fl.map (fun f => (File.GetPresignedUrl P c f).1.ID)).Nodup) :
    ∃ m, (FileList.GetPresigned P sched c fl w).outcome = .returned m ∧
      (assocKeys m).Perm (fl.map (fun f => (File.GetPresignedUrl P c f).1.ID)) ∧
      (∀ f ∈ fl, assocGet m (File.GetPresignedUrl P c f).1.ID
        = some (File.GetPresignedUrl P c f).2) ∧
      (∃ t, (FileList.GetPresigned P sched c fl w).world.trace = w.trace ++ t ∧
        t.Perm (fl.map (fun f =>
          getEvent { Endpoint := SHOW, Id := f.ID } f [GetPresignedAuxParamFunc P]))) ∧
      (FileList.GetPresigned P sched c fl w).world.fs = w.fs ∧
      ((∀ f ∈ fl, (File.GetPresignedUrl P c f).1.ID = f.ID) →
        (assocKeys m).Perm (fl.map File.ID) ∧
        ∀ f ∈ fl, assocGet m f.ID = some (File.GetPresignedUrl P c f).2) := by
  have hspec := GetPresigned_spec P sched c fl w (Or.inl hn)
  have hperm := completionOrder_perm P.workerAmount.toNat sched fl
  obtain ⟨m, hm, hget, hkeys, -⟩ := GetPresigned_entry P sched c fl w (Or.inl hn) hnd
  have hmeq : m = collect [] ((completionOrder P.workerAmount.toNat sched fl).map
      (presignedResult P c)) := by
    rw [hspec.1] at hm
    exact (Outcome.returned.inj hm).symm
  have hk : (assocKeys m).Perm (fl.map (fun f => (File.GetPresignedUrl P c f).1.ID)) := by
    refine (List.perm_ext_iff_of_nodup ?_ hnd).2 hkeys
    rw [hmeq]
    exact nodup_assocKeys_collect [] _ (by simp [assocKeys])
  refine ⟨m, hm, hk, hget, ⟨_, hspec.2.2, hperm.map _⟩, hspec.2.1, fun hecho => ⟨?_, ?_⟩⟩
  · have : fl.map (fun f => (File.GetPresignedUrl P c f).1.ID) = fl.map File.ID :=
      List.map_congr_left hecho
    rw [← this]
    exact hk
  · intro f hf
    have := hget f hf
    simp only [presignedResult] at this
    rw [hecho f hf] at this
    exact this

/-- C13, at a concrete input: the three items of `exBatchFail`; the request of
item 7 fails, the other two succeed. -/
theorem GetPresigned_one_outcome_per_file_witness :
    ∃ m, (FileList.GetPresigned exPkg exSched exGetter exBatchFail {}).outcome = .returned m ∧
      (assocKeys m).Perm [2, 7, 1] ∧
      assocGet m 7 = some (some (errorsNew "Response not ok.")) ∧
      assocGet m 1 = some none := by
  obtain ⟨m, hm, hkeys, hget, -, -, -⟩ := GetPresigned_one_outcome_per_file exPkg exSched exGetter
    exBatchFail {} (by decide) (by decide)
  exact ⟨m, hm, hkeys, hget { ID := 7, OriginalName := "x.txt" } (by decide),
    hget { ID := 1, OriginalName := "a.txt" } (by decide)⟩

/-- C13 as stated fails: the two files of `exBatchCollide` have the ids 1 and
2; the request of file 1 fails and the answer to the request of file 2 carries
the id 1.  Both results are sent under the key 1, so the map has the key 1 only,
the id 2 of the list is missing, and the entry of file 1 is the nil result of
file 2, not the error of its own request. -/
theorem GetPresigned_one_outcome_per_file_counterexample :
    (exBatchCollide.map File.ID).Nodup ∧
    (File.GetPresignedUrl exPkg exGetterCollide { ID := 1, OriginalName := "a.txt" }).2
      = some (errorsNew "Response not ok.") ∧
    (FileList.GetPresigned exPkg exSched exGetterCollide exBatchCollide {}).outcome
      = .returned [(1, none)] ∧
    (2 : Int) ∈ exBatchCollide.map File.ID ∧
    (2 : Int) ∉ assocKeys [((1 : Int), (none : Option GoError))] ∧
    assocGet [((1 : Int), (none : Option GoError))] 1 = some none := by
  simp only [FileList.DownloadFiles, FileList.GetPresigned, downloadStage, runPool_eq]
  refine ⟨by decide, by rfl, by rfl, by decide, by decide, by decide⟩

/-- C14 (amended): for a fixed batch whose ids are pairwise different as the
items carry them after the detail requests, a fixed destination, world and
fixed answers of the remote calls, what `DownloadFiles` returns does not depend
on the worker amount, as long as it is positive, nor on the interleaving of the
workers: for any two positive amounts and any schedules of the two pools,
either both calls return the same top-level error and maps with the same
content (every lookup agrees), or both panic.  Likewise `GetPresigned` returns
maps with the same content. -/
theorem result_map_independent_of_workers (P : Pkg) (os : OS) (c : ProductionAPIGetter)
    (fl gl : FileList) (outDir : String) (w : World) (n n' : Int)
    (s₁ s₂ s₁' s₂' t t' : Nat → Nat) (hn : 0 < n) (hn' : 0 < n')
    (hnd : ((resolved P c fl).map File.ID).Nodup)
    (hgl : (gl.map (fun f => (File.GetPresignedUrl P c f).1.ID)).Nodup) :
    ((∃ m m' e,
        (FileList.DownloadFiles (SetWorkerAmount P n) os s₁ s₂ c fl outDir w).outcome
          = .returned (m, e) ∧
        (FileList.DownloadFiles (SetWorkerAmount P n') os s₁' s₂' c fl outDir w).outcome
          = .returned (m', e) ∧
        ∀ k, assocGet m k = assocGet m' k) ∨
      ((FileList.DownloadFiles (SetWorkerAmount P n) os s₁ s₂ c fl outDir w).outcome = .panicked ∧
       (FileList.DownloadFiles (SetWorkerAmount P n') os s₁' s₂' c fl outDir w).outcome
          = .panicked)) ∧
    (∃ m m',
      (FileList.GetPresigned (SetWorkerAmount P n) t c gl w).outcome = .returned m ∧
      (FileList.GetPresigned (SetWorkerAmount P n') t' c gl w).outcome = .returned m' ∧
      ∀ k, assocGet m k = assocGet m' k) := by
  have hn1 : 0 < (SetWorkerAmount P n).workerAmount := hn
  have hn2 : 0 < (SetWorkerAmount P n').workerAmount := hn'
  constructor
  · by_cases hdir : os.Stat outDir = some true
    · by_cases hfail : ∃ x ∈ noPresigned fl, (File.GetPresignedUrl P c x).2 ≠ none
      · -- both calls stop after the resolver stage
        obtain ⟨x, hx, hxf⟩ := hfail
        obtain ⟨m, hm, hout, -, -⟩ := DownloadFiles_abort (SetWorkerAmount P n) os s₁ s₂ c fl
          outDir w hdir hn1 hnd x hx hxf
        obtain ⟨m', hm', hout', -, -⟩ := DownloadFiles_abort (SetWorkerAmount P n') os s₁' s₂' c fl
          outDir w hdir hn2 hnd x hx hxf
        obtain ⟨a, ha, hget, hkeys, -⟩ := GetPresigned_entry (SetWorkerAmount P n) s₁ c
          (noPresigned fl) w (Or.inl hn1) (nodup_noPresigned_ids (SetWorkerAmount P n) c fl hnd)
        obtain ⟨a', ha', hget', hkeys', -⟩ := GetPresigned_entry (SetWorkerAmount P n') s₁' c
          (noPresigned fl) w (Or.inl hn2) (nodup_noPresigned_ids (SetWorkerAmount P n') c fl hnd)
        have e1 : m = a := by
          rw [hm] at ha
          exact Outcome.returned.inj ha
        have e2 : m' = a' := by
          rw [hm'] at ha'
          exact Outcome.returned.inj ha'
        subst e1 e2
        exact Or.inl ⟨m, m', none, hout, hout',
          assocGet_eq_of_entries (noPresigned fl) (fun f => (presignedResult P c f).FileId)
            (fun f => (presignedResult P c f).Error) m m' hget hget' hkeys hkeys'⟩
      · have hok : ∀ f ∈ noPresigned fl, (File.GetPresignedUrl P c f).2 = none := by
          intro f hf
          by_contra h
          exact hfail ⟨f, hf, h⟩
        by_cases hresp : ∀ f ∈ resolved P c fl, (P.PlainGetter f.Presigned).1 ≠ none
        · -- both calls run the fetch stage to its end
          have key := DownloadFiles_regular_returned_iff (SetWorkerAmount P n) os s₁ s₂ c fl
            outDir w hdir hok
          have key' := DownloadFiles_regular_returned_iff (SetWorkerAmount P n') os s₁' s₂' c fl
            outDir w hdir hok
          have hmap := downloadMap_spec (SetWorkerAmount P n) os s₂ outDir (resolved P c fl)
            hresp hnd
          have hmap' := downloadMap_spec (SetWorkerAmount P n') os s₂' outDir (resolved P c fl)
            hresp hnd
          have hval : ∀ (M : ErrMap),
              (∀ f ∈ resolved P c fl, ∀ r, (downloadJob P os outDir f).result = some r →
                assocGet M f.ID = some r.Error) →
              ∀ f ∈ resolved P c fl, assocGet M f.ID
                = some (((downloadJob P os outDir f).result.map FileWorkerError.Error).getD none) := by
            intro M hM f hf
            obtain ⟨r, hr⟩ := Option.ne_none_iff_exists'.1
              ((downloadJob_result_ne_none_iff P os outDir f).2 (hresp f hf))
            rw [hM f hf r hr, hr]
            rfl
          exact Or.inl ⟨_, _, none, (key _ none).2 ⟨Or.inl hn1, hresp, rfl, rfl⟩,
            (key' _ none).2 ⟨Or.inl hn2, hresp, rfl, rfl⟩,
            assocGet_eq_of_entries (resolved P c fl) File.ID
              (fun f => ((downloadJob P os outDir f).result.map FileWorkerError.Error).getD none)
              _ _ (hval _ hmap.2) (hval _ hmap'.2)
              (fun k => hmap.1.mem_iff) (fun k => hmap'.1.mem_iff)⟩
        · -- some content GET yields no response: both calls panic
          have hex : ∃ f ∈ resolved P c fl, (P.PlainGetter f.Presigned).1 = none := by
            by_contra h
            apply hresp
            intro f hf hnone
            exact h ⟨f, hf, hnone⟩
          obtain ⟨f, hf, hnone⟩ := hex
          exact Or.inr
            ⟨DownloadFiles_panics_of_no_response (SetWorkerAmount P n) os s₁ s₂ c fl outDir w
                hdir hn1 hok f hf hnone,
             DownloadFiles_panics_of_no_response (SetWorkerAmount P n') os s₁' s₂' c fl outDir w
                hdir hn2 hok f hf hnone⟩
    · -- the destination check fails in both calls
      refine Or.inl ⟨[], [], some (errorsNew "Output dir is not a directory."), ?_, ?_,
        fun _ => rfl⟩ <;> simp [FileList.DownloadFiles, hdir]
  · obtain ⟨a, ha, hget, hkeys, -⟩ := GetPresigned_entry (SetWorkerAmount P n) t c gl w
      (Or.inl hn1) hgl
    obtain ⟨a', ha', hget', hkeys', -⟩ := GetPresigned_entry (SetWorkerAmount P n') t' c gl w
      (Or.inl hn2) hgl
    exact ⟨a, a', ha, ha',
      assocGet_eq_of_entries gl (fun f => (presignedResult P c f).FileId)
        (fun f => (presignedResult P c f).Error) a a' hget hget' hkeys hkeys'⟩

/-- C14, at a concrete input: `exBatch` with one worker and the oldest job
first, against fifty workers and another interleaving. -/
theorem result_map_independent_of_workers_witness :
    ((∃ m m' e,
        (FileList.DownloadFiles (SetWorkerAmount exPkg 1) exOS exSched exSched exGetter exBatch
          "out" {}).outcome = .returned (m, e) ∧
        (FileList.DownloadFiles (SetWorkerAmount exPkg 50) exOS exSchedSecond exSchedSecond
          exGetter exBatch "out" {}).outcome = .returned (m', e) ∧
        ∀ k, assocGet m k = assocGet m' k) ∨
      ((FileList.DownloadFiles (SetWorkerAmount exPkg 1) exOS exSched exSched exGetter exBatch
          "out" {}).outcome = .panicked ∧
       (FileList.DownloadFiles (SetWorkerAmount exPkg 50) exOS exSchedSecond exSchedSecond
          exGetter exBatch "out" {}).outcome = .panicked)) ∧
    (∃ m m',
      (FileList.GetPresigned (SetWorkerAmount exPkg 1) exSched exGetter exBatchFail {}).outcome
        = .returned m ∧
      (FileList.GetPresigned (SetWorkerAmount exPkg 50) exSchedSecond exGetter exBatchFail
        {}).outcome = .returned m' ∧
      ∀ k, assocGet m k = assocGet m' k) :=
  result_map_independent_of_workers exPkg exOS exGetter exBatch exBatchFail "out" {} 1 50
    exSched exSched exSchedSecond exSchedSecond exSched exSchedSecond
    (by decide) (by decide) (by decide) (by decide)

/-- C14 as stated fails: in `exBatchCollide` (ids 1 and 2) the request of item
1 fails and the answer to the request of item 2 carries the id 1, so both
results are stored under the key 1 and the later one stays.  With one worker the
results arrive in the order of the batch and the map of `GetPresigned` is
`{1: nil}`; with fifty workers and the same schedule the result of item 2
arrives first and the map is `{1: error}`.  Likewise `DownloadFiles` returns
`{1: nil}` after a fetch stage in the first case and the resolver map
`{1: error}` in the second; and with five workers in both runs two
interleavings give the two maps. -/
theorem result_map_independent_of_workers_counterexample :
    (exBatchCollide.map File.ID).Nodup ∧
    (FileList.GetPresigned (SetWorkerAmount exPkg 1) exSchedSecond exGetterCollide
      exBatchCollide {}).outcome = .returned [(1, none)] ∧
    (FileList.GetPresigned (SetWorkerAmount exPkg 50) exSchedSecond exGetterCollide
      exBatchCollide {}).outcome = .returned [(1, some (errorsNew "Response not ok."))] ∧
    (FileList.DownloadFiles (SetWorkerAmount exPkgOpen 1) exOS exSchedSecond exSchedSecond
      exGetterCollide exBatchCollide "out" {}).outcome = .returned ([(1, none)], none) ∧
    (FileList.DownloadFiles (SetWorkerAmount exPkgOpen 50) exOS exSchedSecond exSchedSecond
      exGetterCollide exBatchCollide "out" {}).outcome
      = .returned ([(1, some (errorsNew "Response not ok."))], none) ∧
    (FileList.GetPresigned exPkg exSched exGetterCollide exBatchCollide {}).outcome
      = .returned [(1, none)] ∧
    (FileList.GetPresigned exPkg exSchedSecond exGetterCollide exBatchCollide {}).outcome
      = .returned [(1, some (errorsNew "Response not ok."))] ∧
    assocGet [((1 : Int), (none : Option GoError))] 1
      ≠ assocGet [((1 : Int), some (errorsNew "Response not ok."))] 1 := by
  simp only [FileList.DownloadFiles, FileList.GetPresigned, downloadStage, runPool_eq]
  refine ⟨by decide, by rfl, by rfl, by rfl, by rfl, by rfl, by rfl, by decide⟩

/-- C15: the worker amount is 5 in a package state that never set it, and
`SetWorkerAmount n` sets it to `n`.  The loop that starts the workers of a
stage starts one goroutine per counter value below the worker amount, that is
`n` of them for `n ≥ 0` and none for a negative amount.  `GetPresigned` starts
exactly that many resolver workers and the download stage of `DownloadFiles`
exactly that many download workers, whatever the batch, its size and the outcome
of the stage (five each in the initial package state).  `DownloadFiles` with a
valid destination starts the workers of the stages it runs: those of the
resolver stage when some item lacks a credential, then those of the download
stage, which it always reaches when no resolution fails; with an invalid
destination it starts none. -/
theorem workers_started (P : Pkg) (n : Int) (g : String → Option Response × Option GoError)
    (k : String) (os : OS) (sched₁ sched₂ : Nat → Nat) (c : ProductionAPIGetter)
    (fl : FileList) (outDir : String) (errs : ErrMap) (w : World) :
    ({ PlainGetter := g, QUERY_KEY_AUX := k } : Pkg).workerAmount = 5 ∧
    (SetWorkerAmount P n).workerAmount = n ∧
    (∀ kind, startWorkers (SetWorkerAmount P n).workerAmount kind
      = List.replicate n.toNat kind) ∧
    ((n.toNat : Int) = max n 0) ∧
    (FileList.GetPresigned (SetWorkerAmount P n) sched₁ c fl w).world.started
      = w.started ++ List.replicate n.toNat Worker.presigned ∧
    (downloadStage (SetWorkerAmount P n) os sched₂ fl outDir errs w).world.started
      = w.started ++ List.replicate n.toNat Worker.download ∧
    (FileList.GetPresigned { PlainGetter := g, QUERY_KEY_AUX := k } sched₁ c fl w).world.started
      = w.started ++ List.replicate 5 Worker.presigned ∧
    (downloadStage { PlainGetter := g, QUERY_KEY_AUX := k } os sched₂ fl outDir errs
      w).world.started = w.started ++ List.replicate 5 Worker.download ∧
    (os.Stat outDir = some true →
      ∃ B, (B = [] ∨ B = List.replicate n.toNat Worker.download) ∧
        (FileList.DownloadFiles (SetWorkerAmount P n) os sched₁ sched₂ c fl outDir w).world.started
          = w.started
            ++ (if noPresigned fl = [] then [] else List.replicate n.toNat Worker.presigned)
            ++ B ∧
        ((∀ f ∈ noPresigned fl, (File.GetPresignedUrl (SetWorkerAmount P n) c f).2 = none) →
          B = List.replicate n.toNat Worker.download)) ∧
    (os.Stat outDir ≠ some true →
      (FileList.DownloadFiles (SetWorkerAmount P n) os sched₁ sched₂ c fl outDir w).world.started
        = w.started) := by
  refine ⟨rfl, rfl, fun kind => startWorkers_eq n kind, Int.toNat_eq_max n, ?_, ?_, ?_, ?_, ?_, ?_⟩
  · rw [GetPresigned_world, runPool_started]
    rfl
  · rw [downloadStage_world, runPool_started]
    rfl
  · rw [GetPresigned_world, runPool_started]
    rfl
  · rw [downloadStage_world, runPool_started]
    rfl
  · intro hdir
    exact DownloadFiles_started (SetWorkerAmount P n) os sched₁ sched₂ c fl outDir w hdir
  · intro hdir
    simp [FileList.DownloadFiles, hdir]

/-- C15, at a concrete input: after `SetWorkerAmount 3` the download of the two
items of `exBatch` starts three resolver workers and three download workers,
and `GetPresigned` on the three items of `exBatchFail` starts three workers. -/
theorem workers_started_witness :
    (FileList.GetPresigned (SetWorkerAmount exPkg 3) exSched exGetter exBatchFail {}).world.started
      = [Worker.presigned, Worker.presigned, Worker.presigned] ∧
    (FileList.DownloadFiles (SetWorkerAmount exPkg 3) exOS exSched exSched exGetter exBatch
      "out" {}).world.started
      = [Worker.presigned, Worker.presigned, Worker.presigned,
         Worker.download, Worker.download, Worker.download] := by
  have h := workers_started exPkg 3 exPkg.PlainGetter "aux" exOS exSched exSched exGetter
    exBatchFail "out" [] {}
  have h' := workers_started exPkg 3 exPkg.PlainGetter "aux" exOS exSched exSched exGetter
    exBatch "out" [] {}
  obtain ⟨B, -, hB, hok⟩ := h'.2.2.2.2.2.2.2.2.1 (by decide)
  refine ⟨h.2.2.2.2.1, ?_⟩
  rw [hB, hok (by decide)]
  rfl

/-- C16: for a file with a non-zero id, `GetPresignedUrl` is one call of `Get`:
on the SHOW resource of that id, whose endpoint is `files/<ID>`, with the file
itself as model and one query parameter function, which sets the aux key to
`presigned_url` and leaves the other keys alone.  The record the call leaves,
and so the worker, is exactly that one detail request; the file afterwards is
the model `Get` decoded into, and the error is the error of `Get`. -/
theorem GetPresignedUrl_call (P : Pkg) (c : ProductionAPIGetter) (f : File) (hid : f.ID ≠ 0) :
    File.GetPresignedUrl P c f
      = c.call { Endpoint := SHOW, Id := f.ID } f [GetPresignedAuxParamFunc P] ∧
    (File.GetPresignedUrl P c f).1
      = (c.Get { Endpoint := SHOW, Id := f.ID } f [GetPresignedAuxParamFunc P]).1 ∧
    (File.GetPresignedUrl P c f).events
      = [Event.detail { Endpoint := SHOW, Id := f.ID } f [(P.QUERY_KEY_AUX, ["presigned_url"])]] ∧
    ({ Endpoint := SHOW, Id := f.ID } : Resource).GetEndpoint = "files/" ++ toString f.ID ∧
    (∀ q, assocGet (GetPresignedAuxParamFunc P q) P.QUERY_KEY_AUX = some ["presigned_url"]) ∧
    (∀ q key, key ≠ P.QUERY_KEY_AUX →
      assocGet (GetPresignedAuxParamFunc P q) key = assocGet q key) ∧
    (presignedJob P c f).events
      = [Event.detail { Endpoint := SHOW, Id := f.ID } f [(P.QUERY_KEY_AUX, ["presigned_url"])]] ∧
    (presignedJob P c f).file
      = (c.Get { Endpoint := SHOW, Id := f.ID } f [GetPresignedAuxParamFunc P]).1 ∧
    (File.GetPresignedUrl P c f).2
      = (c.Get { Endpoint := SHOW, Id := f.ID } f [GetPresignedAuxParamFunc P]).2 := by
  have hev : (File.GetPresignedUrl P c f).events
      = [Event.detail { Endpoint := SHOW, Id := f.ID } f
          [(P.QUERY_KEY_AUX, ["presigned_url"])]] := by
    simp [File.GetPresignedUrl, ProductionAPIGetter.call, getEvent, GetPresignedAuxParamFunc,
      Values.Set, assocSet, AUX_PRESIGNED]
  refine ⟨rfl, rfl, hev, ?_, ?_, ?_, hev, rfl, rfl⟩
  · simp [Resource.GetEndpoint, endpoints, SHOW, INDEX, hid, stringsContains, sprintfV]
    rfl
  · intro q
    exact assocGet_assocSet_self q _ _
  · intro q key hkey
    exact assocGet_assocSet_ne q _ hkey

/-- C16, at a concrete input: the file with id 17. -/
theorem GetPresignedUrl_call_witness :
    (File.GetPresignedUrl exPkg exGetter { ID := 17 }).1
      = (exGetter.Get { Endpoint := SHOW, Id := 17 } { ID := 17 }
          [GetPresignedAuxParamFunc exPkg]).1 ∧
    (File.GetPresignedUrl exPkg exGetter { ID := 17 }).2
      = (exGetter.Get { Endpoint := SHOW, Id := 17 } { ID := 17 }
          [GetPresignedAuxParamFunc exPkg]).2 ∧
    ({ Endpoint := SHOW, Id := 17 } : Resource).GetEndpoint = "files/17" ∧
    (File.GetPresignedUrl exPkg exGetter { ID := 17 }).events
      = [Event.detail { Endpoint := SHOW, Id := 17 } { ID := 17 } [("aux", ["presigned_url"])]] ∧
    (presignedJob exPkg exGetter { ID := 17 }).events
      = [Event.detail { Endpoint := SHOW, Id := 17 } { ID := 17 } [("aux", ["presigned_url"])]] := by
  have h := GetPresignedUrl_call exPkg exGetter { ID := 17 } (by decide)
  exact ⟨h.2.1, h.2.2.2.2.2.2.2.2, h.2.2.2.1, h.2.2.1, h.2.2.2.2.2.2.1⟩

end file

/-! ## Package `production` -/

/-- What `Get` does once `Call` has answered with a response that has a body:
the error of `Call` if there is one, else the error `MakeResponseError` builds
when the status is not 200, else the outcome of decoding. -/
theorem APIClient_Get_of_response {α μ : Type} (lib : Lib α) (c : APIClient)
    (decode : Bytes → μ → μ × Option GoError) (endpoint : String) (model : μ)
    (queryParams : List (List (String × List String) → List (String × List String)))
    (resp : HttpResponse) (err : Option GoError) (body : Bytes)
    (hreq : lib.NewRequest "GET" (c.CompileEndpointURL endpoint) = true)
    (hcall : c.Client.Call
      { Method := "GET", URL := c.CompileEndpointURL endpoint
        Query := queryParams.foldl (fun q v => v q) (lib.Query (c.CompileEndpointURL endpoint)) }
      = (some resp, err))
    (hbody : resp.Body = some body) :
    (∀ e, err = some e →
      APIClient.Get lib c decode endpoint model queryParams = .returned (model, some e)) ∧
    (err = none → resp.StatusCode = 200 →
      APIClient.Get lib c decode endpoint model queryParams = .returned (decode body model)) ∧
    (err = none → resp.StatusCode ≠ 200 → ∀ e, MakeResponseError lib resp = .returned e →
      APIClient.Get lib c decode endpoint model queryParams = .returned (model, e)) := by
  refine ⟨?_, ?_, ?_⟩
  · rintro e rfl
    simp [APIClient.Get, hreq, hcall, hbody]
  · rintro rfl hst
    simp [APIClient.Get, hreq, hcall, hbody, hst]
  · rintro rfl hst e he
    simp [APIClient.Get, hreq, hcall, hbody, hst, he]

/-- C17 (amended): the call made through `APIClient.Get` succeeds (returns nil,
with the decoded model) for a response with status exactly 200 whose body
decodes, when the request can be built, `Call` returns no error and the
response has a body.  For every other status, the other 200-class statuses
included, it returns the error `MakeResponseError` builds from the response and
leaves the model as it was. -/
theorem APIClient_Get_succeeds_on_200 {α μ : Type} (lib : Lib α) (c : APIClient)
    (decode : Bytes → μ → μ × Option GoError) (endpoint : String) (model : μ)
    (queryParams : List (List (String × List String) → List (String × List String)))
    (resp : HttpResponse) (body : Bytes)
    (hreq : lib.NewRequest "GET" (c.CompileEndpointURL endpoint) = true)
    (hcall : c.Client.Call
      { Method := "GET", URL := c.CompileEndpointURL endpoint
        Query := queryParams.foldl (fun q v => v q) (lib.Query (c.CompileEndpointURL endpoint)) }
      = (some resp, none))
    (hbody : resp.Body = some body) (hdec : (decode body model).2 = none) :
    (resp.StatusCode = 200 →
      APIClient.Get lib c decode endpoint model queryParams
        = .returned ((decode body model).1, none)) ∧
    (resp.StatusCode ≠ 200 → ∀ e, MakeResponseError lib resp = .returned e →
      APIClient.Get lib c decode endpoint model queryParams = .returned (model, e)) := by
  have h := APIClient_Get_of_response lib c decode endpoint model queryParams resp none body
    hreq hcall hbody
  refine ⟨fun hst => ?_, fun hst e he => h.2.2 rfl hst e he⟩
  rw [h.2.1 rfl hst, ← hdec]

/-- C17, at a concrete input: the resolver call for file 1 against a service
that answers 200 with a body that decodes. -/
theorem APIClient_Get_succeeds_on_200_witness :
    APIClient.Get exLib { Client := exCaller 200, BaseUrl := "https://url.to.publit" } exDecode
        (file.Resource.GetEndpoint { Endpoint := file.SHOW, Id := 1 }) { ID := 1 }
        [file.GetPresignedAuxParamFunc file.exPkg]
      = .returned ({ ID := 1, Presigned := "u1" }, none) :=
  (APIClient_Get_succeeds_on_200 exLib { Client := exCaller 200, BaseUrl := "https://url.to.publit" }
    exDecode (file.Resource.GetEndpoint { Endpoint := file.SHOW, Id := 1 }) { ID := 1 }
    [file.GetPresignedAuxParamFunc file.exPkg] { StatusCode := 200, Body := some [123, 125] }
    [123, 125] (by rfl) (by rfl) (by rfl) (by rfl)).1 (by rfl)

/-- C17 as stated fails: the service answers the resolver call for file 1 with
status 201 and a body that decodes into a file; `Get` returns a non-nil error
and does not touch the model. -/
theorem APIClient_Get_201_counterexample :
    (exDecode [123, 125] { ID := 1 }).2 = none ∧
    APIClient.Get exLib { Client := exCaller 201, BaseUrl := "https://url.to.publit" } exDecode
        (file.Resource.GetEndpoint { Endpoint := file.SHOW, Id := 1 }) { ID := 1 }
        [file.GetPresignedAuxParamFunc file.exPkg]
      = .returned ({ ID := 1 },
          some (errorsNew "Response not ok. No information given. Code: \"201\"")) := by
  refine ⟨by rfl, by rfl⟩

/-- C18 at its failing input: `Call` fails at transport level and returns no
response together with its error.  `Get` reaches `defer resp.Body.Close()`
before it looks at the error and panics on the nil response, for every library,
model and request: it does not return the error. -/
theorem APIClient_Get_panics_on_nil_response {α μ : Type} (lib : Lib α)
    (decode : Bytes → μ → μ × Option GoError) (baseUrl endpoint : String) (model : μ)
    (queryParams : List (List (String × List String) → List (String × List String))) :
    (exCallerDown.Call
      { Method := "GET"
        URL := APIClient.CompileEndpointURL { Client := exCallerDown, BaseUrl := baseUrl } endpoint
        Query := queryParams.foldl (fun q v => v q)
          (lib.Query (APIClient.CompileEndpointURL
            { Client := exCallerDown, BaseUrl := baseUrl } endpoint)) }).2
      = some (errorsNew "Post: dial tcp: connection refused") ∧
    APIClient.Get lib { Client := exCallerDown, BaseUrl := baseUrl } decode endpoint model
      queryParams = .panicked := by
  refine ⟨rfl, ?_⟩
  unfold APIClient.Get
  split
  · rfl
  · simp [exCallerDown]

/-- C19 at its failing input: a response with status 401, no Content-Type
header and the body `{}`.  `MakeResponseError` has no case for 401: it returns
the default message with the code 401, not `Unauthorized. Code: "401"`. -/
theorem MakeResponseError_unauthorized {α : Type} (lib : Lib α) :
    MakeResponseError lib { StatusCode := 401, Header := [], Body := some [123, 125] }
      = .returned (some (errorsNew "Response not ok. No information given. Code: \"401\"")) ∧
    errorsNew "Response not ok. No information given. Code: \"401\""
      ≠ errorsNew "Unauthorized. Code: \"401\"" := by
  refine ⟨by rfl, by decide⟩

/-- C20: for every response whose Content-Type is not `application/json`, and
for every response with that Content-Type whose body does not decode or decodes
to an error without information, `MakeResponseError` returns the error with the
message `Response not ok. No information given. Code: "<status in decimal>"`,
whatever the status.  It never returns nil, provided `GetAsError` of the
library gives a non-nil error for an `APIErrorResponse` that has information. -/
theorem MakeResponseError_default {α : Type} (lib : Lib α) (resp : HttpResponse) :
    (headerGet resp.Header "Content-Type" ≠ "application/json" →
      MakeResponseError lib resp = .returned (some (errorsNew
        ("Response not ok. No information given. Code: \"" ++ toString resp.StatusCode ++ "\"")))) ∧
    (∀ body, resp.Body = some body →
      (lib.DecodeAPIError body = none ∨
        ∃ a, lib.DecodeAPIError body = some a ∧ lib.HasInformation a = false) →
      MakeResponseError lib resp = .returned (some (errorsNew
        ("Response not ok. No information given. Code: \"" ++ toString resp.StatusCode ++ "\"")))) ∧
    ((∀ a, lib.HasInformation a = true → lib.GetAsError a ≠ none) →
      MakeResponseError lib resp ≠ .returned none) := by
  refine ⟨?_, ?_, ?_⟩
  · intro h
    simp [MakeResponseError, h, noInformationError]
  · intro body hbody hinfo
    unfold MakeResponseError
    split
    · rcases hinfo with h | ⟨a, ha, hno⟩
      · simp [hbody, h, noInformationError]
      · simp [hbody, ha, hno, noInformationError]
    · rfl
  · intro hlib
    unfold MakeResponseError
    split
    · split
      · simp
      · split
        · split
          · next a _ hinfo =>
            intro h
            exact hlib a hinfo (Outcome.returned.inj h)
          · simp
        · simp
    · simp

/-- C20, at a concrete input: a response with status 400, no Content-Type
header and the body `{}`. -/
theorem MakeResponseError_default_witness :
    MakeResponseError exLib { StatusCode := 400, Header := [], Body := some [123, 125] }
      = .returned (some (errorsNew "Response not ok. No information given. Code: \"400\"")) :=
  (MakeResponseError_default exLib { StatusCode := 400, Header := [], Body := some [123, 125] }).1
    (by decide)


/-- C21: `CompileEndpointURL` of an endpoint is the base url, then
`/production/v2.0/`, then the endpoint. -/
theorem CompileEndpointURL_eq (c : APIClient) (e : String) :
    c.CompileEndpointURL e = c.BaseUrl ++ "/production/v2.0/" ++ e ∧
    APIClient.CompileEndpointURL { Client := c.Client, BaseUrl := "https://url.to.publit" }
      "someendpoint" = "https://url.to.publit/production/v2.0/someendpoint" := by
  have h : ("/production/v2.0/" : String) = "/" ++ API ++ "/" ++ API_VERSION ++ "/" := by decide
  refine ⟨?_, by rfl⟩
  rw [h]
  simp [APIClient.CompileEndpointURL, String.append_assoc]

/-- C22: `StatusCheck` makes its call with `CallRaw`, by GET, against
`<BaseUrl>/v2.0/status_check`.  It returns true if and only if the request can
be built and `CallRaw` answers with no error and a response whose status is
200; it returns false when the call returns an error and when the status is
anything else. -/
theorem StatusCheck_true_iff {α : Type} (lib : Lib α) (c : APIClient) :
    c.compileStatusCheckURL = c.BaseUrl ++ "/v2.0/status_check" ∧
    (APIClient.StatusCheck lib c = .returned true ↔
      lib.NewRequest "GET" c.compileStatusCheckURL = true ∧
      ∃ r, c.Client.CallRaw
          { Method := "GET", URL := c.compileStatusCheckURL
            Query := lib.Query c.compileStatusCheckURL } = (some r, none) ∧
        r.StatusCode = 200) ∧
    (∀ r e, c.Client.CallRaw
        { Method := "GET", URL := c.compileStatusCheckURL
          Query := lib.Query c.compileStatusCheckURL } = (r, some e) →
      APIClient.StatusCheck lib c = .returned false) ∧
    (∀ r, c.Client.CallRaw
        { Method := "GET", URL := c.compileStatusCheckURL
          Query := lib.Query c.compileStatusCheckURL } = (some r, none) →
      r.StatusCode ≠ 200 → APIClient.StatusCheck lib c = .returned false) := by
  have h : ("/v2.0/status_check" : String) = "/" ++ API_VERSION ++ "/" ++ RESOURCE_STATUSCHECK := by
    decide
  refine ⟨?_, ?_, ?_, ?_⟩
  · rw [h]
    simp [APIClient.compileStatusCheckURL, String.append_assoc]
  · constructor
    · intro hs
      unfold APIClient.StatusCheck at hs
      split at hs
      · simp at hs
      · next hreq =>
        split at hs
        · simp at hs
        · simp at hs
        · next r hcall =>
          split at hs
          · simp at hs
          · next hst =>
            refine ⟨by simpa using hreq, r, hcall, by simpa using hst⟩
    · rintro ⟨hreq, r, hcall, hst⟩
      simp [APIClient.StatusCheck, hreq, hcall, hst]
  · intro r e hcall
    unfold APIClient.StatusCheck
    split
    · rfl
    · simp [hcall]
  · intro r hcall hst
    unfold APIClient.StatusCheck
    split
    · rfl
    · simp [hcall, hst]

/-- C22, at a concrete input: a service that answers 200, one that answers 400
and one that cannot be reached. -/
theorem StatusCheck_true_iff_witness :
    APIClient.StatusCheck exLib { Client := exCaller 200, BaseUrl := "somebaseurl" }
      = .returned true ∧
    APIClient.StatusCheck exLib { Client := exCaller 400, BaseUrl := "somebaseurl" }
      = .returned false ∧
    APIClient.StatusCheck exLib { Client := exCallerDown, BaseUrl := "somebaseurl" }
      = .returned false :=
  ⟨(StatusCheck_true_iff exLib { Client := exCaller 200, BaseUrl := "somebaseurl" }).2.1.2
      ⟨by rfl, { StatusCode := 200, Body := some [123, 125] }, by rfl, by rfl⟩,
    (StatusCheck_true_iff exLib { Client := exCaller 400, BaseUrl := "somebaseurl" }).2.2.2
      { StatusCode := 400, Body := some [123, 125] } (by rfl) (by decide),
    (StatusCheck_true_iff exLib { Client := exCallerDown, BaseUrl := "somebaseurl" }).2.2.1
      none (errorsNew "Post: dial tcp: connection refused") (by rfl)⟩


/-- C29: `GetEndpoint` of a file resource, and of the resources of country,
printorder, printdata, printorderstatus and deliverynumber, which are coded
alike: for an endpoint whose template has a `%v` it returns the template with
the decimal id in place of `%v` when the id is not zero, and the template
itself, `%v` included, when the id is zero; for the other endpoints of the map
it returns the template whatever the id; for a value that is no key of the map
it returns the empty string. -/
theorem GetEndpoint_spec :
    (∀ r : file.Resource, r.GetEndpoint = fillEndpoint ((file.endpoints r.Endpoint).getD "") r.Id) ∧
    (∀ id : Int, id ≠ 0 →
      file.Resource.GetEndpoint { Endpoint := file.SHOW, Id := id } = "files/" ++ toString id) ∧
    file.Resource.GetEndpoint { Endpoint := file.SHOW, Id := 0 } = "files/%v" ∧
    (∀ id : Int, file.Resource.GetEndpoint { Endpoint := file.INDEX, Id := id } = "files") ∧
    (∀ e id : Int, e ≠ file.INDEX → e ≠ file.SHOW →
      file.Resource.GetEndpoint { Endpoint := e, Id := id } = "") ∧
    -- country
    (∀ id : Int, id ≠ 0 →
      country.Resource.GetEndpoint { Endpoint := country.SHOW, Id := id }
        = "countries/" ++ toString id) ∧
    country.Resource.GetEndpoint { Endpoint := country.SHOW, Id := 0 } = "countries/%v" ∧
    (∀ id : Int, country.Resource.GetEndpoint { Endpoint := country.INDEX, Id := id }
      = "countries") ∧
    (∀ e id : Int, e ≠ country.INDEX → e ≠ country.SHOW →
      country.Resource.GetEndpoint { Endpoint := e, Id := id } = "") ∧
    -- printorder
    (∀ id : Int, id ≠ 0 →
      printorder.Resource.GetEndpoint { Endpoint := printorder.SHOW, Id := id }
        = "print_orders/" ++ toString id) ∧
    printorder.Resource.GetEndpoint { Endpoint := printorder.SHOW, Id := 0 } = "print_orders/%v" ∧
    (∀ id : Int, printorder.Resource.GetEndpoint { Endpoint := printorder.INDEX, Id := id }
      = "print_orders") ∧
    (∀ e id : Int, e ≠ printorder.INDEX → e ≠ printorder.SHOW →
      printorder.Resource.GetEndpoint { Endpoint := e, Id := id } = "") ∧
    -- printdata
    (∀ id : Int, id ≠ 0 →
      printdata.Resource.GetEndpoint { Endpoint := printdata.SHOW, Id := id }
        = "print_order_print_data/" ++ toString id) ∧
    printdata.Resource.GetEndpoint { Endpoint := printdata.SHOW, Id := 0 }
      = "print_order_print_data/%v" ∧
    (∀ id : Int, printdata.Resource.GetEndpoint { Endpoint := printdata.INDEX, Id := id }
      = "print_order_print_data") ∧
    (∀ e id : Int, e ≠ printdata.INDEX → e ≠ printdata.SHOW →
      printdata.Resource.GetEndpoint { Endpoint := e, Id := id } = "") ∧
    -- printorderstatus
    (∀ id : Int, id ≠ 0 →
      printorderstatus.Resource.GetEndpoint { Endpoint := printorderstatus.SHOW, Id := id }
        = "print_order_statuses/" ++ toString id) ∧
    printorderstatus.Resource.GetEndpoint { Endpoint := printorderstatus.SHOW, Id := 0 }
      = "print_order_statuses/%v" ∧
    (∀ id : Int,
      printorderstatus.Resource.GetEndpoint { Endpoint := printorderstatus.INDEX, Id := id }
        = "print_order_statuses" ∧
      printorderstatus.Resource.GetEndpoint { Endpoint := printorderstatus.POST, Id := id }
        = "print_order_statuses") ∧
    (∀ e id : Int, e ≠ printorderstatus.INDEX → e ≠ printorderstatus.SHOW →
      e ≠ printorderstatus.POST →
      printorderstatus.Resource.GetEndpoint { Endpoint := e, Id := id } = "") ∧
    -- deliverynumber
    (∀ id : Int, id ≠ 0 →
      deliverynumber.Resource.GetEndpoint { Endpoint := deliverynumber.SHOW, Id := id }
        = "print_order_delivery_numbers/" ++ toString id ∧
      deliverynumber.Resource.GetEndpoint { Endpoint := deliverynumber.PUT, Id := id }
        = "print_order_delivery_numbers/" ++ toString id ∧
      deliverynumber.Resource.GetEndpoint { Endpoint := deliverynumber.DELETE, Id := id }
        = "print_order_delivery_numbers/" ++ toString id) ∧
    (deliverynumber.Resource.GetEndpoint { Endpoint := deliverynumber.SHOW, Id := 0 }
        = "print_order_delivery_numbers/%v" ∧
      deliverynumber.Resource.GetEndpoint { Endpoint := deliverynumber.PUT, Id := 0 }
        = "print_order_delivery_numbers/%v" ∧
      deliverynumber.Resource.GetEndpoint { Endpoint := deliverynumber.DELETE, Id := 0 }
        = "print_order_delivery_numbers/%v") ∧
    (∀ id : Int,
      deliverynumber.Resource.GetEndpoint { Endpoint := deliverynumber.INDEX, Id := id }
        = "print_order_delivery_numbers" ∧
      deliverynumber.Resource.GetEndpoint { Endpoint := deliverynumber.POST, Id := id }
        = "print_order_delivery_numbers") ∧
    (∀ e id : Int, e ≠ deliverynumber.INDEX → e ≠ deliverynumber.SHOW →
      e ≠ deliverynumber.POST → e ≠ deliverynumber.PUT → e ≠ deliverynumber.DELETE →
      deliverynumber.Resource.GetEndpoint { Endpoint := e, Id := id } = "") := by
  refine ⟨fun _ => rfl, ?_, by rfl, ?_, ?_, ?_, by rfl, ?_, ?_, ?_, by rfl, ?_, ?_, ?_, by rfl,
    ?_, ?_, ?_, by rfl, ?_, ?_, ?_, ⟨by rfl, by rfl, by rfl⟩, ?_, ?_⟩
  · intro id h
    simp [file.Resource.GetEndpoint, file.endpoints, file.SHOW, file.INDEX, h,
      file.stringsContains, file.sprintfV]
    rfl
  · intro id
    simp [file.Resource.GetEndpoint, file.endpoints, file.INDEX, file.stringsContains]
  · intro e id h1 h2
    simp [file.Resource.GetEndpoint, file.endpoints, h1, h2, file.stringsContains]
  · intro id h
    simp [country.Resource.GetEndpoint, fillEndpoint, country.endpoints, country.SHOW,
      country.INDEX, h, file.stringsContains, file.sprintfV]
    rfl
  · intro id
    simp [country.Resource.GetEndpoint, fillEndpoint, country.endpoints, country.INDEX,
      file.stringsContains]
  · intro e id h1 h2
    simp [country.Resource.GetEndpoint, fillEndpoint, country.endpoints, h1, h2,
      file.stringsContains]
  · intro id h
    simp [printorder.Resource.GetEndpoint, fillEndpoint, printorder.endpoints, printorder.SHOW,
      printorder.INDEX, h, file.stringsContains, file.sprintfV]
    rfl
  · intro id
    simp [printorder.Resource.GetEndpoint, fillEndpoint, printorder.endpoints, printorder.INDEX,
      file.stringsContains]
  · intro e id h1 h2
    simp [printorder.Resource.GetEndpoint, fillEndpoint, printorder.endpoints, h1, h2,
      file.stringsContains]
  · intro id h
    simp [printdata.Resource.GetEndpoint, fillEndpoint, printdata.endpoints, printdata.SHOW,
      printdata.INDEX, h, file.stringsContains, file.sprintfV]
    rfl
  · intro id
    simp [printdata.Resource.GetEndpoint, fillEndpoint, printdata.endpoints, printdata.INDEX,
      file.stringsContains]
  · intro e id h1 h2
    simp [printdata.Resource.GetEndpoint, fillEndpoint, printdata.endpoints, h1, h2,
      file.stringsContains]
  · intro id h
    simp [printorderstatus.Resource.GetEndpoint, fillEndpoint, printorderstatus.endpoints,
      printorderstatus.SHOW, printorderstatus.INDEX, h, file.stringsContains, file.sprintfV]
    rfl
  · intro id
    constructor <;>
      simp [printorderstatus.Resource.GetEndpoint, fillEndpoint, printorderstatus.endpoints,
        printorderstatus.INDEX, printorderstatus.POST, printorderstatus.SHOW,
        file.stringsContains]
  · intro e id h1 h2 h3
    simp [printorderstatus.Resource.GetEndpoint, fillEndpoint, printorderstatus.endpoints,
      h1, h2, h3, file.stringsContains]
  · intro id h
    refine ⟨?_, ?_, ?_⟩ <;>
    · simp [deliverynumber.Resource.GetEndpoint, fillEndpoint, deliverynumber.endpoints,
        deliverynumber.SHOW, deliverynumber.INDEX, deliverynumber.POST, deliverynumber.PUT,
        deliverynumber.DELETE, h, file.stringsContains, file.sprintfV]
      rfl
  · intro id
    constructor <;>
      simp [deliverynumber.Resource.GetEndpoint, fillEndpoint, deliverynumber.endpoints,
        deliverynumber.SHOW, deliverynumber.INDEX, deliverynumber.POST, file.stringsContains]
  · intro e id h1 h2 h3 h4 h5
    simp [deliverynumber.Resource.GetEndpoint, fillEndpoint, deliverynumber.endpoints,
      h1, h2, h3, h4, h5, file.stringsContains]


/-- C23: `Status.Store` and `DeliveryNumber.Store` return a non-nil error
without any `Post` call if and only if the id of the receiver is not zero.
With a zero id each makes exactly one `Post` call, on the collection endpoint
(`print_order_statuses`, `print_order_delivery_numbers`), with the receiver as
payload and the one-element list holding the receiver as result, and returns
the error of that call. -/
theorem Store_spec (c : printorderstatus.ProductionAPIPoster) (s : printorderstatus.Status)
    (c' : deliverynumber.ProductionAPIClient) (d : deliverynumber.DeliveryNumber) :
    (((printorderstatus.Status.Store c s).err ≠ none ∧
        (printorderstatus.Status.Store c s).calls = []) ↔ s.ID ≠ 0) ∧
    (s.ID = 0 →
      (printorderstatus.Status.Store c s).calls
        = [{ endpoint := { Endpoint := printorderstatus.POST }, payload := s, result := [s] }] ∧
      printorderstatus.Resource.GetEndpoint { Endpoint := printorderstatus.POST }
        = "print_order_statuses" ∧
      (printorderstatus.Status.Store c s).err
        = (c.Post { Endpoint := printorderstatus.POST } s [s]).2) ∧
    (((deliverynumber.DeliveryNumber.Store c' d).err ≠ none ∧
        (deliverynumber.DeliveryNumber.Store c' d).calls = []) ↔ d.ID ≠ 0) ∧
    (d.ID = 0 →
      (deliverynumber.DeliveryNumber.Store c' d).calls
        = [.post { Endpoint := deliverynumber.POST } d [d]] ∧
      deliverynumber.Resource.GetEndpoint { Endpoint := deliverynumber.POST }
        = "print_order_delivery_numbers" ∧
      (deliverynumber.DeliveryNumber.Store c' d).err
        = (c'.Post { Endpoint := deliverynumber.POST } d [d]).2) := by
  refine ⟨?_, ?_, ?_, ?_⟩
  · by_cases h : s.ID = 0 <;> simp [printorderstatus.Status.Store, h]
  · intro h
    refine ⟨by simp [printorderstatus.Status.Store, h], by rfl,
      by simp [printorderstatus.Status.Store, h]⟩
  · by_cases h : d.ID = 0 <;> simp [deliverynumber.DeliveryNumber.Store, h]
  · intro h
    refine ⟨by simp [deliverynumber.DeliveryNumber.Store, h], by rfl,
      by simp [deliverynumber.DeliveryNumber.Store, h]⟩

/-- C24: `DeliveryNumber.Update` and `DeliveryNumber.Delete` return a non-nil
error without any remote call if and only if the id of the receiver is zero.
With a non-zero id `Update` makes exactly one `Put` call and `Delete` exactly
one `Delete` call, on `print_order_delivery_numbers/<ID>`, with the receiver as
result model (and as payload for `Update`), and returns the error of that
call. -/
theorem Update_Delete_spec (c : deliverynumber.ProductionAPIClient)
    (d : deliverynumber.DeliveryNumber) :
    (((deliverynumber.DeliveryNumber.Update c d).err ≠ none ∧
        (deliverynumber.DeliveryNumber.Update c d).calls = []) ↔ d.ID = 0) ∧
    (((deliverynumber.DeliveryNumber.Delete c d).err ≠ none ∧
        (deliverynumber.DeliveryNumber.Delete c d).calls = []) ↔ d.ID = 0) ∧
    (d.ID ≠ 0 →
      (deliverynumber.DeliveryNumber.Update c d).calls
        = [.put { Endpoint := deliverynumber.PUT, Id := d.ID } d d] ∧
      (deliverynumber.DeliveryNumber.Update c d).err
        = (c.Put { Endpoint := deliverynumber.PUT, Id := d.ID } d d).2 ∧
      (deliverynumber.DeliveryNumber.Delete c d).calls
        = [.delete { Endpoint := deliverynumber.DELETE, Id := d.ID } d] ∧
      (deliverynumber.DeliveryNumber.Delete c d).err
        = (c.Delete { Endpoint := deliverynumber.DELETE, Id := d.ID } d).2 ∧
      deliverynumber.Resource.GetEndpoint { Endpoint := deliverynumber.PUT, Id := d.ID }
        = "print_order_delivery_numbers/" ++ toString d.ID ∧
      deliverynumber.Resource.GetEndpoint { Endpoint := deliverynumber.DELETE, Id := d.ID }
        = "print_order_delivery_numbers/" ++ toString d.ID) := by
  refine ⟨?_, ?_, ?_⟩
  · by_cases h : d.ID = 0 <;> simp [deliverynumber.DeliveryNumber.Update, h]
  · by_cases h : d.ID = 0 <;> simp [deliverynumber.DeliveryNumber.Delete, h]
  · intro h
    refine ⟨by simp [deliverynumber.DeliveryNumber.Update, h],
      by simp [deliverynumber.DeliveryNumber.Update, h],
      by simp [deliverynumber.DeliveryNumber.Delete, h],
      by simp [deliverynumber.DeliveryNumber.Delete, h], ?_, ?_⟩ <;>
    · simp [deliverynumber.Resource.GetEndpoint, fillEndpoint, deliverynumber.endpoints,
        deliverynumber.SHOW, deliverynumber.INDEX, deliverynumber.POST, deliverynumber.PUT,
        deliverynumber.DELETE, h, file.stringsContains, file.sprintfV]
      rfl


/-! ## Package `printorderstatus`: the last status -/

/-- C25: for a non-empty list, whenever `sort.Sort` does what it promises (the
list afterwards is a permutation of the list and no element is `Less` than an
element before it), `GetLast` returns an element of the list whose `UpdatedAt`
is not earlier than the `UpdatedAt` of any element of the list; and for every
reordering of the list it returns an element with the same instant. -/
theorem GetLast_latest (lib : printorderstatus.TimeLib) (l : printorderstatus.StatusList)
    (hne : l ≠ [])
    (hperm : (lib.sortSort (printorderstatus.Less lib) l).Perm l)
    (hsorted : (lib.sortSort (printorderstatus.Less lib) l).Pairwise
      (fun a b => printorderstatus.Less lib b a = false)) :
    ∃ s, printorderstatus.StatusList.GetLast lib l = .returned s ∧ s ∈ l ∧
      (∀ x ∈ l, ¬ ((lib.ConvertPublitTimeToTime s.UpdatedAt).1
        < (lib.ConvertPublitTimeToTime x.UpdatedAt).1)) ∧
      ∀ l' : printorderstatus.StatusList, l'.Perm l →
        (lib.sortSort (printorderstatus.Less lib) l').Perm l' →
        (lib.sortSort (printorderstatus.Less lib) l').Pairwise
          (fun a b => printorderstatus.Less lib b a = false) →
        ∃ s', printorderstatus.StatusList.GetLast lib l' = .returned s' ∧
          (lib.ConvertPublitTimeToTime s'.UpdatedAt).1
            = (lib.ConvertPublitTimeToTime s.UpdatedAt).1 := by
  -- what the call does on any non-empty list that is sorted as promised
  have key : ∀ k : printorderstatus.StatusList, k ≠ [] →
      (lib.sortSort (printorderstatus.Less lib) k).Perm k →
      (lib.sortSort (printorderstatus.Less lib) k).Pairwise
        (fun a b => printorderstatus.Less lib b a = false) →
      ∃ s, printorderstatus.StatusList.GetLast lib k = .returned s ∧ s ∈ k ∧
        ∀ x ∈ k, ¬ ((lib.ConvertPublitTimeToTime s.UpdatedAt).1
          < (lib.ConvertPublitTimeToTime x.UpdatedAt).1) := by
    intro k hk hp hs
    have hlen : (lib.sortSort (printorderstatus.Less lib) k).length = k.length := hp.length_eq
    have hpos : 0 < k.length := List.length_pos.2 hk
    have hsne : lib.sortSort (printorderstatus.Less lib) k ≠ [] := by
      intro h
      rw [h] at hlen
      simp at hlen
      omega
    obtain ⟨init, s, hdecomp⟩ : ∃ init s,
        lib.sortSort (printorderstatus.Less lib) k = init ++ [s] :=
      ⟨_, _, (List.dropLast_append_getLast hsne).symm⟩
    have hidx : (lib.sortSort (printorderstatus.Less lib) k)[k.length - 1]? = some s := by
      rw [← hlen, hdecomp]
      simp
    refine ⟨s, ?_, ?_, ?_⟩
    · have h0 : ¬ k.length = 0 := by omega
      simp [printorderstatus.StatusList.GetLast, h0, hidx]
    · exact hp.mem_iff.1 (by rw [hdecomp]; simp)
    · intro x hx
      have hx' : x ∈ init ++ [s] := by
        rw [← hdecomp]
        exact hp.mem_iff.2 hx
      rw [hdecomp, List.pairwise_append] at hs
      rcases List.mem_append.1 hx' with h | h
      · have := hs.2.2 x h s (by simp)
        simpa [printorderstatus.Less] using this
      · have : x = s := by simpa using h
        subst this
        exact lt_irrefl _
  obtain ⟨s, hs, hmem, hmax⟩ := key l hne hperm hsorted
  refine ⟨s, hs, hmem, hmax, ?_⟩
  intro l' hl' hp' hs'
  have hne' : l' ≠ [] := by
    intro h
    rw [h] at hl'
    exact hne hl'.symm.eq_nil
  obtain ⟨s', hs'', hmem', hmax'⟩ := key l' hne' hp' hs'
  refine ⟨s', hs'', ?_⟩
  have h1 := hmax s' (hl'.mem_iff.1 hmem')
  have h2 := hmax' s (hl'.mem_iff.2 hmem)
  omega

/-- C25, at a concrete input: the list of the example of the repository, sorted
by insertion. -/
theorem GetLast_latest_witness :
    ∃ s, printorderstatus.StatusList.GetLast exTimeLib exStatusList = .returned s ∧
      s ∈ exStatusList ∧
      ∀ x ∈ exStatusList, ¬ ((exTimeLib.ConvertPublitTimeToTime s.UpdatedAt).1
        < (exTimeLib.ConvertPublitTimeToTime x.UpdatedAt).1) := by
  obtain ⟨s, h1, h2, h3, -⟩ := GetLast_latest exTimeLib exStatusList (by decide) (by decide)
    (by decide)
  exact ⟨s, h1, h2, h3⟩

/-! ## Package `printdata`: grouping on manifestation -/

/-- One step of the loop adds the element to the group of its manifestation
and leaves the other groups alone. -/
theorem getD_groupStep (pd : List (Int × List printdata.PrintData)) (v : printdata.PrintData)
    (k : Int) :
    (assocGet (printdata.groupStep pd v) k).getD []
      = (assocGet pd k).getD [] ++ (if v.ManifestationID = k then [v] else []) := by
  unfold printdata.groupStep
  by_cases h : v.ManifestationID = k
  · subst h
    rw [assocGet_assocSet_self]
    simp
  · rw [assocGet_assocSet_ne _ _ (Ne.symm h)]
    simp [h]

theorem getD_foldl_groupStep (l : List printdata.PrintData)
    (pd : List (Int × List printdata.PrintData)) (k : Int) :
    (assocGet (l.foldl printdata.groupStep pd) k).getD []
      = (assocGet pd k).getD [] ++ l.filter (fun v => v.ManifestationID = k) := by
  induction l generalizing pd with
  | nil => simp
  | cons v rest ih =>
    rw [List.foldl_cons, ih, getD_groupStep]
    by_cases h : v.ManifestationID = k <;> simp [h, List.filter_cons]

theorem mem_assocKeys_foldl_groupStep (l : List printdata.PrintData)
    (pd : List (Int × List printdata.PrintData)) (k : Int) :
    k ∈ assocKeys (l.foldl printdata.groupStep pd) ↔
      k ∈ assocKeys pd ∨ k ∈ l.map (fun v => v.ManifestationID) := by
  induction l generalizing pd with
  | nil => simp
  | cons v rest ih =>
    rw [List.foldl_cons, ih]
    unfold printdata.groupStep
    rw [mem_assocKeys_assocSet]
    simp only [List.map_cons, List.mem_cons]
    tauto

theorem nodup_assocKeys_foldl_groupStep (l : List printdata.PrintData)
    (pd : List (Int × List printdata.PrintData)) (h : (assocKeys pd).Nodup) :
    (assocKeys (l.foldl printdata.groupStep pd)).Nodup := by
  induction l generalizing pd with
  | nil => simpa using h
  | cons v rest ih =>
    rw [List.foldl_cons]
    exact ih _ (nodup_assocKeys_assocSet pd _ _ h)

/-- One step of the loop makes the groups one element larger in total. -/
theorem sum_groupStep (pd : List (Int × List printdata.PrintData)) (v : printdata.PrintData) :
    ((printdata.groupStep pd v).map (fun kv => kv.2.length)).sum
      = (pd.map (fun kv => kv.2.length)).sum + 1 := by
  unfold printdata.groupStep
  induction pd with
  | nil => simp [assocSet, assocGet]
  | cons a t ih =>
    obtain ⟨k₀, g₀⟩ := a
    by_cases h : k₀ = v.ManifestationID
    · simp [assocSet, assocGet, h]
      omega
    · simp only [assocSet, assocGet, h, if_false, List.map_cons, List.sum_cons, ih]
      omega

theorem sum_foldl_groupStep (l : List printdata.PrintData)
    (pd : List (Int × List printdata.PrintData)) :
    ((l.foldl printdata.groupStep pd).map (fun kv => kv.2.length)).sum
      = (pd.map (fun kv => kv.2.length)).sum + l.length := by
  induction l generalizing pd with
  | nil => simp
  | cons v rest ih =>
    rw [List.foldl_cons, ih, sum_groupStep, List.length_cons]
    omega

/-- The map `GetPrintDataPerManifestation` builds is the fold of the loop body,
also for the empty list. -/
theorem GetPrintDataPerManifestation_eq (data : printdata.PrintDataList) :
    printdata.PrintDataList.GetPrintDataPerManifestation data
      = data.foldl printdata.groupStep [] := by
  unfold printdata.PrintDataList.GetPrintDataPerManifestation
  cases data with
  | nil => simp
  | cons a t => simp

/-- Every group of the map is the list of the elements of its manifestation,
in the order of the input. -/
theorem GetPrintDataPerManifestation_group (data : printdata.PrintDataList) (k : Int)
    (g : List printdata.PrintData)
    (h : assocGet (printdata.PrintDataList.GetPrintDataPerManifestation data) k = some g) :
    g = data.filter (fun v => v.ManifestationID = k) := by
  have := getD_foldl_groupStep data [] k
  rw [← GetPrintDataPerManifestation_eq, h] at this
  simpa [assocGet] using this

/-- C26: the keys of the map `GetPrintDataPerManifestation` returns are exactly
the manifestation ids that occur in the list, each once (so the map is empty
for the empty list), and every element stored under a key has that key as its
manifestation id. -/
theorem GetPrintDataPerManifestation_keys (data : printdata.PrintDataList) :
    (∀ k, k ∈ assocKeys (printdata.PrintDataList.GetPrintDataPerManifestation data) ↔
      k ∈ data.map (fun v => v.ManifestationID)) ∧
    (assocKeys (printdata.PrintDataList.GetPrintDataPerManifestation data)).Nodup ∧
    printdata.PrintDataList.GetPrintDataPerManifestation [] = [] ∧
    (∀ k g, assocGet (printdata.PrintDataList.GetPrintDataPerManifestation data) k = some g →
      ∀ p ∈ g, p.ManifestationID = k) := by
  refine ⟨?_, ?_, by rfl, ?_⟩
  · intro k
    rw [GetPrintDataPerManifestation_eq, mem_assocKeys_foldl_groupStep]
    simp [assocKeys]
  · rw [GetPrintDataPerManifestation_eq]
    exact nodup_assocKeys_foldl_groupStep data [] (by simp [assocKeys])
  · intro k g h p hp
    rw [GetPrintDataPerManifestation_group data k g h] at hp
    simpa using (List.mem_filter.1 hp).2

/-- C27: `GetPrintDataPerManifestation` splits the list without loss or
duplication: the group of a key is the input filtered on that manifestation id
(so it is a sublist of the input, in the input order), every element of the
input occurs in the group of its own manifestation id as often as in the input,
and the sizes of the groups add up to the length of the input. -/
theorem GetPrintDataPerManifestation_partition (data : printdata.PrintDataList) :
    (∀ k g, assocGet (printdata.PrintDataList.GetPrintDataPerManifestation data) k = some g →
      g = data.filter (fun v => v.ManifestationID = k) ∧ g.Sublist data) ∧
    (∀ p ∈ data, ∃ g,
      assocGet (printdata.PrintDataList.GetPrintDataPerManifestation data) p.ManifestationID
        = some g ∧ g.count p = data.count p) ∧
    ((printdata.PrintDataList.GetPrintDataPerManifestation data).map
      (fun kv => kv.2.length)).sum = data.length := by
  refine ⟨?_, ?_, ?_⟩
  · intro k g h
    have hg := GetPrintDataPerManifestation_group data k g h
    exact ⟨hg, hg ▸ List.filter_sublist data⟩
  · intro p hp
    have hkey : p.ManifestationID ∈
        assocKeys (printdata.PrintDataList.GetPrintDataPerManifestation data) := by
      rw [GetPrintDataPerManifestation_eq, mem_assocKeys_foldl_groupStep]
      exact Or.inr (List.mem_map.2 ⟨p, hp, rfl⟩)
    cases hget : assocGet (printdata.PrintDataList.GetPrintDataPerManifestation data)
        p.ManifestationID with
    | none => exact absurd hkey ((assocGet_eq_none_iff _ _).1 hget)
    | some g =>
      refine ⟨g, rfl, ?_⟩
      rw [GetPrintDataPerManifestation_group data _ g hget]
      exact List.count_filter (by simp)
  · rw [GetPrintDataPerManifestation_eq, sum_foldl_groupStep]
    simp


namespace file

/-- C28 at its failing input: the content server answers 400 for item 3 of
`exBatchBad` and 200 for item 2.  The worker leaves the iteration of item 3 at
the status check, before `defer resp.Body.Close()` is reached: the calls made
for item 3 are the content GET alone, and no close of its body is ever
registered, while for item 2 the close of the body and of the file are. -/
theorem DownloadFiles_bad_status_leaks_body :
    (FileList.DownloadFiles exPkg exOS exSched exSched exGetter exBatchBad "out" {}).world.trace
      = [Event.contentGet "bad",
         Event.contentGet "u2", Event.deferBodyClose "u2",
         Event.create "out/b.txt", Event.deferFileClose "out/b.txt"] ∧
    Event.deferBodyClose "bad" ∉
      (FileList.DownloadFiles exPkg exOS exSched exSched exGetter exBatchBad "out" {}).world.trace ∧
    ∀ (P : Pkg) (os : OS) (outDir : String) (f : File) (resp : Response) (err : Option GoError),
      P.PlainGetter f.Presigned = (some resp, err) → resp.StatusCode ≠ 200 →
      (downloadJob P os outDir f).events = [Event.contentGet f.Presigned] := by
  refine ⟨?_, ?_, ?_⟩
  · simp only [FileList.DownloadFiles, FileList.GetPresigned, downloadStage, runPool_eq]
    rfl
  · simp only [FileList.DownloadFiles, FileList.GetPresigned, downloadStage, runPool_eq]
    decide
  · intro P os outDir f resp err hget hst
    exact (downloadJob_bad_status P os outDir f resp err hget hst).2.2

/-- C30: when every detail request returns nil (valid destination, a pool with
a worker), `DownloadFiles` goes on to the fetch stage whatever the requests
left in the `Presigned` fields: it is the download stage run over the whole
updated batch.  For an item whose `Presigned` is still empty the job makes the
content GET with the empty url.  When every content GET yields a response the
call returns a map and the empty url is among the content GETs made, one per
item; when the GET of the empty url yields no response the call panics. -/
theorem DownloadFiles_no_recheck (P : Pkg) (os : OS) (sched₁ sched₂ : Nat → Nat)
    (c : ProductionAPIGetter) (fl : FileList) (outDir : String) (w : World)
    (hdir : os.Stat outDir = some true) (hn : 0 < P.workerAmount)
    (hok : ∀ f ∈ noPresigned fl, (File.GetPresignedUrl P c f).2 = none)
    (f : File) (hf : f ∈ resolved P c fl) (hempty : f.Presigned = "") :
    FileList.DownloadFiles P os sched₁ sched₂ c fl outDir w
      = downloadStage P os sched₂ (resolved P c fl) outDir []
          (FileList.GetPresigned P sched₁ c (noPresigned fl) w).world ∧
    contentGets (downloadJob P os outDir f).events = [""] ∧
    ((∀ g ∈ resolved P c fl, (P.PlainGetter g.Presigned).1 ≠ none) →
      (∃ m, (FileList.DownloadFiles P os sched₁ sched₂ c fl outDir w).outcome
        = .returned (m, none)) ∧
      ∃ t, (FileList.DownloadFiles P os sched₁ sched₂ c fl outDir w).world.trace = w.trace ++ t ∧
        (contentGets t).Perm ((resolved P c fl).map File.Presigned) ∧ "" ∈ contentGets t) ∧
    ((P.PlainGetter "").1 = none →
      (FileList.DownloadFiles P os sched₁ sched₂ c fl outDir w).outcome = .panicked) := by
  have hne : noPresigned fl ≠ [] := by
    intro hnil
    rw [resolved_of_noPresigned_nil P c fl hnil] at hf
    have : f ∈ noPresigned fl := List.mem_filter.2 ⟨hf, by simpa using hempty⟩
    rw [hnil] at this
    simp at this
  refine ⟨?_, ?_, ?_, ?_⟩
  · rw [DownloadFiles_fetch P os sched₁ sched₂ c fl outDir w hdir (Or.inl hn) hok,
      afterResolver_of_ne P sched₁ c fl w hne]
  · rw [contentGets_downloadJob, hempty]
  · intro hresp
    refine ⟨⟨_, (DownloadFiles_regular_returned_iff P os sched₁ sched₂ c fl outDir w hdir hok
      _ none).2 ⟨Or.inl hn, hresp, rfl, rfl⟩⟩, ?_⟩
    obtain ⟨t, ht, hperm⟩ := DownloadFiles_content_gets P os sched₁ sched₂ c fl outDir w hdir hn
      hok hresp
    refine ⟨t, ht, hperm, hperm.mem_iff.2 ?_⟩
    exact List.mem_map.2 ⟨f, hf, hempty⟩
  · intro hnil
    exact DownloadFiles_panics_of_no_response P os sched₁ sched₂ c fl outDir w hdir hn hok f hf
      (by rw [hempty]; exact hnil)

/-- C30, at a concrete input: the request for the one item of
`exBatchUnresolved` succeeds and leaves its `Presigned` empty; the content
server answers 404 for every url.  The item is fetched with the empty url and
reported with the error of the status. -/
theorem DownloadFiles_no_recheck_witness :
    (FileList.DownloadFiles exPkgNotFound exOS exSched exSched exGetterEmpty exBatchUnresolved
      "out" {}).outcome
      = .returned ([(1, some (errorsNew (statusMessage 404)))], none) ∧
    ∃ t, (FileList.DownloadFiles exPkgNotFound exOS exSched exSched exGetterEmpty
        exBatchUnresolved "out" {}).world.trace = [] ++ t ∧
      "" ∈ contentGets t := by
  obtain ⟨-, -, h, -⟩ := DownloadFiles_no_recheck exPkgNotFound exOS exSched exSched exGetterEmpty
    exBatchUnresolved "out" {} (by decide) (by decide) (by decide)
    { ID := 1, OriginalName := "a.txt" } (by decide) (by rfl)
  obtain ⟨-, t, ht, -, hmem⟩ := h (by decide)
  refine ⟨?_, t, ht, hmem⟩
  simp only [FileList.DownloadFiles, FileList.GetPresigned, downloadStage, runPool_eq]
  rfl

end file

/-- C23, at a concrete input: a new status is stored with one `Post`, a status
that has an id is refused without a call. -/
theorem Store_spec_witness :
    (printorderstatus.Status.Store exPoster { PrintOrderId := 1, Status_ := "Accepted" }).err
      = none ∧
    (printorderstatus.Status.Store exPoster { ID := 1, PrintOrderId := 1 }).calls = [] ∧
    (printorderstatus.Status.Store exPoster { ID := 1, PrintOrderId := 1 }).err
      = some (errorsNew "Can not create new status for an existing one. (ID is set).") := by
  have h := Store_spec exPoster { ID := 1, PrintOrderId := 1 } exClient { ID := 1 }
  exact ⟨by rfl, (h.1.2 (by decide)).2, by rfl⟩

/-- C24, at a concrete input: the delivery number 4 is updated with one `Put`
on `print_order_delivery_numbers/4`, whose error is returned. -/
theorem Update_Delete_spec_witness :
    (deliverynumber.DeliveryNumber.Update exClient { ID := 4 }).calls
      = [.put { Endpoint := deliverynumber.PUT, Id := 4 } { ID := 4 } { ID := 4 }] ∧
    (deliverynumber.DeliveryNumber.Update exClient { ID := 4 }).err
      = some (errorsNew "Response not ok.") ∧
    deliverynumber.Resource.GetEndpoint { Endpoint := deliverynumber.PUT, Id := 4 }
      = "print_order_delivery_numbers/4" := by
  have h := (Update_Delete_spec exClient { ID := 4 }).2.2 (by decide)
  exact ⟨h.1, by rfl, h.2.2.2.2.1⟩

/-- C26 and C27, at a concrete input: the four print data of the example of the
repository, interleaved. -/
theorem GetPrintDataPerManifestation_witness :
    printdata.PrintDataList.GetPrintDataPerManifestation exPrintData
      = [(1, [{ ManifestationID := 1, ID := 1 }, { ManifestationID := 1, ID := 2 }]),
         (2, [{ ManifestationID := 2, ID := 3 }, { ManifestationID := 2, ID := 4 }])] := by
  rfl


end ProductionAPI
